import Mathlib

/-!
# OAuth application secrets plugin: credential lifecycle

A shallow embedding of the token-validity predicate (`pkg/backend/token.go`),
the reap policy (`pkg/reap/checker_authcode.go`), the locked refresh engine
(`pkg/backend/token_authcode.go`) and the token-exchange read path
(`pkg/backend/path_sts.go`), followed by theorems about them.

Conventions.

* `time.Time` is an instant on an unbounded integer timeline, counted in
  nanoseconds from Go's zero time (January 1, year 1, 00:00:00 UTC), so that
  `IsZero` is equality with `0`.  `Round(0)` only strips the monotonic clock
  reading and is the identity here.
* `time.Duration` is a signed count of nanoseconds.
* A Go `error` value is an `Err`; a nil error is `none`.
-/

namespace OAuthApp

/-! ## Time -/

/-- Go `time.Time`: nanoseconds since the zero time. -/
abbrev Time := Int

/-- Go `time.Duration`: a signed number of nanoseconds. -/
abbrev Duration := Int

/-- Go `time.Second`. -/
def Second : Duration := 1000000000

/-- Go `time.Minute`. -/
def Minute : Duration := 60 * Second

/-- Go `Time.IsZero`. -/
def Time.IsZero (t : Time) : Bool := decide (t = 0)

/-- Go `Time.Add`.  Go saturates the sum at the ends of its 64-bit range of
seconds, some 292 billion years away from the zero time; the timeline here has
no ends. -/
def Time.Add (t : Time) (d : Duration) : Time := t + d

/-- Go `Time.Before`: strictly earlier. -/
def Time.Before (t u : Time) : Bool := decide (t < u)

/-- Go `Time.After`: strictly later. -/
def Time.After (t u : Time) : Bool := decide (u < t)

/-! ## Tokens -/

/-- Go `oauth2.Token` (the fields the plugin reads). -/
structure oauth2.Token where
  AccessToken : String
  TokenType : String
  RefreshToken : String
  Expiry : Time
  deriving DecidableEq, Repr

/-- Go `provider.Token`: it embeds a `*oauth2.Token` and carries the provider
version and options echoed back by the provider (see `pkg/testutil/mock.go`).
The embedded pointer is taken to be non-nil whenever the outer one is. -/
structure provider.Token where
  Token : oauth2.Token
  ProviderVersion : Int
  ProviderOptions : List (String × String)
  deriving DecidableEq, Repr

/-- Constant `defaultExpiryDelta` of `pkg/backend/token.go`. -/
def defaultExpiryDelta : Duration := 10 * Second

/-- Function `tokenExpired` of `pkg/backend/token.go`; `now` is the reading
`clk.Now()`. -/
def tokenExpired (now : Time) (t : oauth2.Token) (expiryDelta : Duration) : Bool :=
  if Time.IsZero t.Expiry then
    false
  else
    let expiryDelta := if expiryDelta < defaultExpiryDelta then defaultExpiryDelta else expiryDelta
    Time.Before (Time.Add t.Expiry (-expiryDelta)) now

/-- Method `backend.tokenValid` of `pkg/backend/token.go`; a nil token pointer
is `none`, and `now` is the reading of the backend clock. -/
def tokenValid (now : Time) (tok : Option oauth2.Token) (expiryDelta : Duration) : Bool :=
  match tok with
  | none => false
  | some t => t.AccessToken != "" && !tokenExpired now t expiryDelta

/-! ## Authorization-code credential entries -/

/-- Modelled from the spec: the declaration of `persistence.AuthCodeEntry` is
not under src/.  The fields are those of the data model ("current token
(nullable until first successful issuance)", "owning server name",
"last-attempted-issue timestamp", "transient-error counter",
"last-transient-error message", "user-error message",
"auth-server-error message", "exchanged-token cache"), under the names the
callers use.  The refresh token, the expiry and the provider options are fields
of the embedded token.  A Go map is an association list; a nil map is `[]`. -/
structure persistence.AuthCodeEntry where
  Token : Option provider.Token
  ExchangedTokens : List (String × Option oauth2.Token)
  AuthServerName : String
  UserError : String
  AuthServerError : String
  TransientErrorsSinceLastIssue : Int
  LastTransientError : String
  LastAttemptedIssueTime : Time
  deriving DecidableEq, Repr

namespace persistence.AuthCodeEntry

/-- Modelled from the spec: `AuthCodeEntry.TokenIssued` is not under src/;
"issued" means a non-null token with a non-empty access-token string. -/
def TokenIssued (ace : AuthCodeEntry) : Bool :=
  match ace.Token with
  | none => false
  | some t => t.Token.AccessToken != ""

/-- Promoted field `entry.Expiry` of the embedded token.  Go panics on a nil
token; every caller tests `TokenIssued` first, and the zero time stands in. -/
def Expiry (ace : AuthCodeEntry) : Time :=
  match ace.Token with
  | none => 0
  | some t => t.Token.Expiry

/-- Promoted field `entry.RefreshToken` of the embedded token (see `Expiry`
for the nil case). -/
def RefreshToken (ace : AuthCodeEntry) : String :=
  match ace.Token with
  | none => ""
  | some t => t.Token.RefreshToken

end persistence.AuthCodeEntry

/-! ## Reap policy -/

/-- Struct `AuthCodeChecker` of `pkg/reap/checker_authcode.go`. -/
structure reap.AuthCodeChecker where
  nonRefreshableTTL : Duration
  revokedTTL : Duration
  transientErrorAttempts : Int
  transientErrorTTL : Duration
  serverDeletedTTL : Duration
  deriving DecidableEq, Repr

/-- Closure `getReferenceTime` inside `AuthCodeChecker.Check`. -/
def reap.getReferenceTime (entry : persistence.AuthCodeEntry) : Time :=
  if entry.TokenIssued && !Time.IsZero entry.Expiry then
    entry.Expiry
  else
    entry.LastAttemptedIssueTime

/-- Method `AuthCodeChecker.Check` of `pkg/reap/checker_authcode.go`.  The
returned error is represented by its message, `none` being the nil error;
`now` is `clockctx.Clock(ctx).Now()` and `quote` is the `%q` verb of Go's
`fmt` package. -/
def reap.AuthCodeChecker.Check (quote : String → String) (acc : reap.AuthCodeChecker)
    (now : Time) (entry : persistence.AuthCodeEntry) : Option String :=
  if entry.UserError != "" then
    if acc.revokedTTL ≤ 0 then
      none
    else if Time.After (Time.Add (reap.getReferenceTime entry) acc.revokedTTL) now then
      none
    else
      some ("token revoked: " ++ entry.UserError)
  else if entry.TransientErrorsSinceLastIssue > 0 then
    if acc.transientErrorAttempts ≤ 0 ∧ acc.transientErrorTTL ≤ 0 then
      none
    else if entry.TransientErrorsSinceLastIssue < acc.transientErrorAttempts then
      none
    else if Time.After (Time.Add (reap.getReferenceTime entry) acc.transientErrorTTL) now then
      none
    else
      some ("transient errors exceeded limits, most recently: " ++ entry.LastTransientError)
  else if entry.AuthServerError != "" then
    if acc.serverDeletedTTL ≤ 0 then
      none
    else if Time.After (Time.Add (reap.getReferenceTime entry) acc.serverDeletedTTL) now then
      none
    else
      some ("server " ++ quote entry.AuthServerName ++ " has configuration problems: "
        ++ entry.AuthServerError)
  else if !entry.TokenIssued then
    none
  else if Time.IsZero entry.Expiry then
    none
  else if entry.RefreshToken != "" then
    none
  else if acc.nonRefreshableTTL ≤ 0 ∨ Time.After (Time.Add entry.Expiry acc.nonRefreshableTTL) now then
    none
  else
    some "token expired"

/-! ## Errors, storage keys and entry setters -/

/-- A non-nil Go `error` as the plugin observes it: `Short` is the text of
`errmark.MarkShort(err).Error()` and `User` is `errmark.MarkedUser(err)`.  Both
functions belong to an external library; the plugin never inspects an error in
any other way. -/
structure Err where
  Short : String
  User : Bool
  deriving DecidableEq, Repr

/-- Text of `errmap.Wrap(errmark.MarkShort(err), msg).Error()`: the message,
a colon and the short text of the cause. -/
def errmapWrap (err : Err) (msg : String) : String :=
  msg ++ ": " ++ err.Short

/-- Interface `persistence.AuthCodeKeyer`, whose declaration is not under
src/: a keyer is represented by the storage key it yields. -/
abbrev persistence.AuthCodeKeyer := String

/-- Function `persistence.AuthCodeName`, not under src/: the keyer of the
credential of that name.  Key derivation is left to the storage handler, so
the keyer is the name itself. -/
def persistence.AuthCodeName (name : String) : persistence.AuthCodeKeyer := name

namespace persistence.AuthCodeEntry

/-- Modelled from the spec: `AuthCodeEntry.SetToken` is not under src/; "on
success: clear error state, store the new token, reset the transient-error
counter". -/
def SetToken (ace : AuthCodeEntry) (tok : provider.Token) : AuthCodeEntry :=
  { ace with
    Token := some tok
    UserError := ""
    AuthServerError := ""
    TransientErrorsSinceLastIssue := 0
    LastTransientError := "" }

/-- Modelled from the spec: `AuthCodeEntry.SetUserError` is not under src/;
"set the user-error field ..., counter untouched". -/
def SetUserError (ace : AuthCodeEntry) (errorMessage : String) : AuthCodeEntry :=
  { ace with UserError := errorMessage }

/-- Modelled from the spec: `AuthCodeEntry.SetAuthServerError` is not under
src/; "set the auth-server-error field". -/
def SetAuthServerError (ace : AuthCodeEntry) (errorMessage : String) : AuthCodeEntry :=
  { ace with AuthServerError := errorMessage }

/-- Modelled from the spec: `AuthCodeEntry.SetTransientError` is not under
src/; "increment the transient-error counter, record the message". -/
def SetTransientError (ace : AuthCodeEntry) (errorMessage : String) : AuthCodeEntry :=
  { ace with
    TransientErrorsSinceLastIssue := ace.TransientErrorsSinceLastIssue + 1
    LastTransientError := errorMessage }

end persistence.AuthCodeEntry

/-! ## Programs over the external collaborators

The backend talks to the clock, the per-key lock table, the entry store and the
provider.  A `Prog` is the tree of these interactions in the order the Go code
performs them; a `Handler` gives the collaborators' answers, and `Prog.run`
executes a program against a handler, returning the result, the final state of
the collaborators and the list of interactions that took place. -/

/-- One interaction with a collaborator, as recorded by `Prog.run`. -/
inductive Event where
  | lock (keyer : persistence.AuthCodeKeyer)
  | unlock (keyer : persistence.AuthCodeKeyer)
  | readAuthCodeEntry (keyer : persistence.AuthCodeKeyer)
  | writeAuthCodeEntry (keyer : persistence.AuthCodeKeyer) (entry : persistence.AuthCodeEntry)
  | getProviderOperations (server : String) (expiryDelta : Duration)
  | put (server : String)
  | refreshToken (server : String) (t : provider.Token) (providerOptions : List (String × String))
  | tokenExchange (server : String) (t : provider.Token) (scopes audiences resources : List String)
      (providerOptions : List (String × String))
  deriving DecidableEq, Repr

/-- Interaction trees of the backend.

* `now`: `b.clock.Now()`;
* `lock`, `unlock`: entering and leaving `b.data.AuthCode.WithLock(keyer, ...)`;
* `readAuthCodeEntry`: `ReadAuthCodeEntry`, answering an error, an absent
  entry or the entry;
* `writeAuthCodeEntry`: `WriteAuthCodeEntry`, answering an error or nil;
* `getProviderOperations`: `b.getProviderOperations` for the server of that
  name, answering an error or the operations of that server;
* `put`: the release function returned with the operations;
* `refreshToken`, `tokenExchange`: the provider's `RefreshToken` and
  `TokenExchange`. -/
inductive Prog (α : Type) : Type where
  | ret : α → Prog α
  | now : (Time → Prog α) → Prog α
  | lock : persistence.AuthCodeKeyer → Prog α → Prog α
  | unlock : persistence.AuthCodeKeyer → Prog α → Prog α
  | readAuthCodeEntry : persistence.AuthCodeKeyer →
      (Except Err (Option persistence.AuthCodeEntry) → Prog α) → Prog α
  | writeAuthCodeEntry : persistence.AuthCodeKeyer → persistence.AuthCodeEntry →
      (Option Err → Prog α) → Prog α
  | getProviderOperations : String → Duration → (Option Err → Prog α) → Prog α
  | put : String → Prog α → Prog α
  | refreshToken : String → provider.Token → List (String × String) →
      (Except Err provider.Token → Prog α) → Prog α
  | tokenExchange : String → provider.Token → List String → List String → List String →
      List (String × String) → (Except Err provider.Token → Prog α) → Prog α

/-- Sequencing: run `p`, then continue with `f` on its result. -/
def Prog.bind {α β : Type} : Prog α → (α → Prog β) → Prog β
  | .ret a, f => f a
  | .now k, f => .now fun t => (k t).bind f
  | .lock keyer p, f => .lock keyer (p.bind f)
  | .unlock keyer p, f => .unlock keyer (p.bind f)
  | .readAuthCodeEntry keyer k, f => .readAuthCodeEntry keyer fun r => (k r).bind f
  | .writeAuthCodeEntry keyer entry k, f => .writeAuthCodeEntry keyer entry fun r => (k r).bind f
  | .getProviderOperations server d k, f => .getProviderOperations server d fun r => (k r).bind f
  | .put server p, f => .put server (p.bind f)
  | .refreshToken server t o k, f => .refreshToken server t o fun r => (k r).bind f
  | .tokenExchange server t sc au re o k, f =>
      .tokenExchange server t sc au re o fun r => (k r).bind f

/-- The answers of the collaborators, over a state `σ` of theirs.  Reading the
clock does not change the state. -/
structure Handler (σ : Type) where
  now : σ → Time
  lock : persistence.AuthCodeKeyer → σ → σ
  unlock : persistence.AuthCodeKeyer → σ → σ
  readAuthCodeEntry : persistence.AuthCodeKeyer → σ →
    Except Err (Option persistence.AuthCodeEntry) × σ
  writeAuthCodeEntry : persistence.AuthCodeKeyer → persistence.AuthCodeEntry → σ → Option Err × σ
  getProviderOperations : String → Duration → σ → Option Err × σ
  put : String → σ → σ
  refreshToken : String → provider.Token → List (String × String) → σ →
    Except Err provider.Token × σ
  tokenExchange : String → provider.Token → List String → List String → List String →
    List (String × String) → σ → Except Err provider.Token × σ

/-- Outcome of a run: the result, the final state and the interactions. -/
structure Outcome (σ α : Type) where
  result : α
  state : σ
  events : List Event

/-- Prepend an interaction to the events of an outcome. -/
def Outcome.after {σ α : Type} (e : Event) (o : Outcome σ α) : Outcome σ α :=
  { o with events := e :: o.events }

/-- Execute a program against a handler from a state. -/
def Prog.run {σ α : Type} (h : Handler σ) : Prog α → σ → Outcome σ α
  | .ret a, s => ⟨a, s, []⟩
  | .now k, s => (k (h.now s)).run h s
  | .lock keyer p, s => (p.run h (h.lock keyer s)).after (.lock keyer)
  | .unlock keyer p, s => (p.run h (h.unlock keyer s)).after (.unlock keyer)
  | .readAuthCodeEntry keyer k, s =>
      ((k (h.readAuthCodeEntry keyer s).1).run h (h.readAuthCodeEntry keyer s).2).after
        (.readAuthCodeEntry keyer)
  | .writeAuthCodeEntry keyer entry k, s =>
      ((k (h.writeAuthCodeEntry keyer entry s).1).run h (h.writeAuthCodeEntry keyer entry s).2).after
        (.writeAuthCodeEntry keyer entry)
  | .getProviderOperations server d k, s =>
      ((k (h.getProviderOperations server d s).1).run h (h.getProviderOperations server d s).2).after
        (.getProviderOperations server d)
  | .put server p, s => (p.run h (h.put server s)).after (.put server)
  | .refreshToken server t o k, s =>
      ((k (h.refreshToken server t o s).1).run h (h.refreshToken server t o s).2).after
        (.refreshToken server t o)
  | .tokenExchange server t sc au re o k, s =>
      ((k (h.tokenExchange server t sc au re o s).1).run h
        (h.tokenExchange server t sc au re o s).2).after
        (.tokenExchange server t sc au re o)

/-! ## The refresh engine (`pkg/backend/token_authcode.go`) -/

/-- Result pair `(*persistence.AuthCodeEntry, error)`. -/
abbrev EntryResult := Option persistence.AuthCodeEntry × Option Err

/-- What the closure of `refreshCredToken` leaves in `entry` and returns after
`WriteAuthCodeEntry`: the error of a failed write, else the written entry. -/
def refreshCredToken.written (werr : Option Err) (candidate : persistence.AuthCodeEntry) :
    EntryResult :=
  match werr with
  | some err => (none, some err)
  | none => (some candidate, none)

/-- Tail of the closure of `refreshCredToken` after the entry has been
updated: `WriteAuthCodeEntry`, then the deferred `put()` when the operations
were obtained (`deferred`), then the release of the lock. -/
def refreshCredToken.writeBack (keyer : persistence.AuthCodeKeyer) (deferred : Bool)
    (candidate : persistence.AuthCodeEntry) : Prog EntryResult :=
  .writeAuthCodeEntry keyer candidate fun werr =>
    if deferred then
      .put candidate.AuthServerName
        (.unlock keyer (.ret (refreshCredToken.written werr candidate)))
    else
      .unlock keyer (.ret (refreshCredToken.written werr candidate))

/-- The update of the candidate after `ops.RefreshToken` has answered: a user
error or a transient error carrying the wrapped message, or the new token. -/
def refreshCredToken.record (candidate : persistence.AuthCodeEntry)
    (answer : Except Err provider.Token) : persistence.AuthCodeEntry :=
  match answer with
  | .error err =>
    let msg := errmapWrap err "refresh failed"
    if err.User then
      candidate.SetUserError msg
    else
      candidate.SetTransientError msg
  | .ok refreshed => candidate.SetToken refreshed

/-- Method `backend.refreshCredToken`.  `persistence.AuthServerName(name)` is
passed to `getProviderOperations` as the server name, and the operations it
returns are those of that server. -/
def refreshCredToken (keyer : persistence.AuthCodeKeyer) (expiryDelta : Duration) :
    Prog EntryResult :=
  .lock keyer <|
  .readAuthCodeEntry keyer fun r =>
    match r with
    | .error err => .unlock keyer (.ret (none, some err))
    | .ok none => .unlock keyer (.ret (none, none))
    | .ok (some candidate) =>
      .now fun now =>
        if !candidate.TokenIssued
            || tokenValid now (candidate.Token.map (·.Token)) expiryDelta
            || candidate.RefreshToken == "" then
          .unlock keyer (.ret (some candidate, none))
        else
          .getProviderOperations candidate.AuthServerName expiryDelta fun oerr =>
            match oerr with
            | some err =>
              if err.User then
                refreshCredToken.writeBack keyer false (candidate.SetAuthServerError err.Short)
              else
                .unlock keyer (.ret (none, some err))
            | none =>
              match candidate.Token with
              | none =>
                -- not reached: the candidate has an issued token here
                .put candidate.AuthServerName (.unlock keyer (.ret (some candidate, none)))
              | some tok =>
                .refreshToken candidate.AuthServerName tok tok.ProviderOptions fun answer =>
                  refreshCredToken.writeBack keyer true
                    (refreshCredToken.record candidate answer)

/-- Method `backend.getRefreshCredToken`. -/
def getRefreshCredToken (keyer : persistence.AuthCodeKeyer) (expiryDelta : Duration) :
    Prog EntryResult :=
  .readAuthCodeEntry keyer fun r =>
    match r with
    | .error err => .ret (none, some err)
    | .ok none => .ret (none, none)
    | .ok (some entry) =>
      .now fun now =>
        if !entry.TokenIssued || tokenValid now (entry.Token.map (·.Token)) expiryDelta then
          .ret (some entry, none)
        else
          refreshCredToken keyer expiryDelta

/-- Go map read `m[k]` with the comma-ok form: the first binding of the key. -/
def mapGet {β : Type} (m : List (String × β)) (k : String) : Option β :=
  (m.find? fun kv => kv.1 == k).map (·.2)

/-- Go map write `m[k] = v`. -/
def mapSet {β : Type} (m : List (String × β)) (k : String) (v : β) : List (String × β) :=
  (k, v) :: m.filter fun kv => kv.1 != k

/-- Method `backend.storeExchangedToken`.  A nil map reads as the empty map, so
that the sweep of the else branch, run on it, yields the freshly made map. -/
def storeExchangedToken (keyer : persistence.AuthCodeKeyer) (exchangeKey : String)
    (tok : oauth2.Token) : Prog (Option Err) :=
  .lock keyer <|
  .readAuthCodeEntry keyer fun r =>
    match r with
    | .error err => .unlock keyer (.ret (some err))
    | .ok none => .unlock keyer (.ret none)
    | .ok (some entry) =>
      .now fun now =>
        let swept := entry.ExchangedTokens.filter fun kt => tokenValid now kt.2 defaultExpiryDelta
        let entry := { entry with ExchangedTokens := mapSet swept exchangeKey (some tok) }
        .writeAuthCodeEntry keyer entry fun werr =>
          .unlock keyer (.ret werr)

/-! ## Token exchange (`pkg/backend/path_sts.go`) -/

/-- Go `*logical.Response` as built by `stsReadOperation`: an error response
carrying its text, or the data map with `access_token`, `type` and, when
present, `expire_time`. -/
inductive logical.Response where
  | error (text : String)
  | data (access_token : String) (type : String) (expire_time : Option Time)
  deriving DecidableEq, Repr

/-- Conversion of a Go `int` product to a 64-bit `time.Duration`. -/
def wrap64 (x : Int) : Int := (x + 2 ^ 63) % 2 ^ 64 - 2 ^ 63

/-- Text of the response for an entry with a recorded server problem:
`"server %q has configuration problems: %s"`. -/
def serverProblems (quote : String → String) (server cause : String) : String :=
  "server " ++ quote server ++ " has configuration problems: " ++ cause

/-- Result pair `(*logical.Response, error)`. -/
abbrev ResponseResult := Option logical.Response × Option Err

/-- The part of `stsReadOperation` that asks the provider for an exchanged
token (the body of `if !ok || !b.tokenValid(tok, expiryDelta)`) and answers. -/
def stsReadOperation.fetch (quote : String → String) (tokenType : oauth2.Token → String)
    (keyer : persistence.AuthCodeKeyer) (expiryDelta : Duration)
    (scopes audiences resources : List String) (exchangeKey : String)
    (entry : persistence.AuthCodeEntry) (base : provider.Token) : Prog ResponseResult :=
  let respond (tok : oauth2.Token) : ResponseResult :=
    (some (.data tok.AccessToken (tokenType tok)
      (if Time.IsZero tok.Expiry then none else some tok.Expiry)), none)
  .getProviderOperations entry.AuthServerName defaultExpiryDelta fun oerr =>
    match oerr with
    | some err =>
      if err.User then
        .ret (some (.error (serverProblems quote entry.AuthServerName err.Short)), none)
      else
        .ret (none, some err)
    | none =>
      .tokenExchange entry.AuthServerName base scopes audiences resources
          base.ProviderOptions fun xr =>
        match xr with
        | .error err =>
          if err.User then
            .put entry.AuthServerName
              (.ret (some (.error (errmapWrap err "exchange failed")), none))
          else
            .put entry.AuthServerName (.ret (none, some err))
        | .ok exchangedTok =>
          .now fun now =>
            if !tokenValid now (some exchangedTok.Token) expiryDelta then
              .put entry.AuthServerName (.ret (some (.error "token expired"), none))
            else
              let tok : oauth2.Token :=
                { AccessToken := exchangedTok.Token.AccessToken
                  TokenType := exchangedTok.Token.TokenType
                  RefreshToken := ""
                  Expiry := exchangedTok.Token.Expiry }
              if !Time.IsZero tok.Expiry then
                (storeExchangedToken keyer exchangeKey tok).bind fun serr =>
                  match serr with
                  | some err => .put entry.AuthServerName (.ret (none, some err))
                  | none => .put entry.AuthServerName (.ret (respond tok))
              else
                .put entry.AuthServerName (.ret (respond tok))

/-- The part of `stsReadOperation` after the base token has been found valid:
the cache lookup under the signature of the request, then either the cached
token or `stsReadOperation.fetch`. -/
def stsReadOperation.exchange (quote : String → String) (tokenType : oauth2.Token → String)
    (keyer : persistence.AuthCodeKeyer) (expiryDelta : Duration)
    (scopes audiences resources : List String) (entry : persistence.AuthCodeEntry)
    (base : provider.Token) : Prog ResponseResult :=
  let exchangeKey := "scopes=" ++ " ".intercalate scopes ++
    ",audiences=" ++ " ".intercalate audiences ++
    ",resources=" ++ " ".intercalate resources
  .now fun now =>
    match mapGet entry.ExchangedTokens exchangeKey with
    | some (some tok) =>
      if tokenValid now (some tok) expiryDelta then
        .ret (some (.data tok.AccessToken (tokenType tok)
          (if Time.IsZero tok.Expiry then none else some tok.Expiry)), none)
      else
        stsReadOperation.fetch quote tokenType keyer expiryDelta scopes audiences resources
          exchangeKey entry base
    | _ =>
      stsReadOperation.fetch quote tokenType keyer expiryDelta scopes audiences resources
        exchangeKey entry base

/-- Method `backend.stsReadOperation`.  The request fields are passed as
arguments; `quote` is the `%q` verb of `fmt` and `tokenType` is
`oauth2.Token.Type`. -/
def stsReadOperation (quote : String → String) (tokenType : oauth2.Token → String)
    (name : String) (minimum_seconds : Int) (scopes audiences resources : List String) :
    Prog ResponseResult :=
  let keyer := persistence.AuthCodeName name
  let expiryDelta : Duration := wrap64 (minimum_seconds * Second)
  (getRefreshCredToken keyer expiryDelta).bind fun r =>
    match r with
    | (_, some err) => .ret (none, some err)
    | (none, none) => .ret (none, none)
    | (some entry, none) =>
      let problems : Prog ResponseResult → Prog ResponseResult := fun otherwise =>
        if entry.AuthServerError != "" then
          .ret (some (.error (serverProblems quote entry.AuthServerName entry.AuthServerError)),
            none)
        else if entry.UserError != "" then
          .ret (some (.error entry.UserError), none)
        else
          otherwise
      if !entry.TokenIssued then
        problems (.ret (some (.error "token pending issuance"), none))
      else
        .now fun now =>
          if !tokenValid now (entry.Token.map (·.Token)) expiryDelta then
            problems (.ret (some (.error "token expired"), none))
          else
            match entry.Token with
            | none =>
              -- not reached: the entry has an issued token here
              .ret (some (.error "token pending issuance"), none)
            | some base =>
              stsReadOperation.exchange quote tokenType keyer expiryDelta scopes audiences
                resources entry base

/-! ## Server keys and server entries (`pkg/persistence/authserver.go`) -/

/-- Go `[sha256.Size224]byte`, the type of the value of `sha256.Sum224`: an
array of 28 bytes. -/
structure sha256.Digest224 where
  bytes : List (Fin 256)
  size : bytes.length = 28

/-- Go slice expression `b[lo:hi]` on a byte array. -/
def byteSlice (b : List (Fin 256)) (lo hi : Nat) : List (Fin 256) :=
  (b.take hi).drop lo

/-- Verb `%x` of package `fmt` on a byte slice: two lowercase hexadecimal
digits per byte, the high one first. -/
def fmt.hex (b : List (Fin 256)) : String :=
  String.mk (b.flatMap fun x => [Nat.digitChar (x.val / 16), Nat.digitChar (x.val % 16)])

/-- Constant `authServerKeyPrefix`. -/
def persistence.authServerKeyPrefix : String := "servers/"

/-- Type `persistence.AuthServerKey`, a string. -/
structure persistence.AuthServerKey where
  key : String
  deriving DecidableEq, Repr

/-- Interface `persistence.AuthServerKeyer`; `AuthServerKey` is its only
implementation in the package. -/
abbrev persistence.AuthServerKeyer := persistence.AuthServerKey

/-- Method `AuthServerKey.AuthServerKey`. -/
def persistence.AuthServerKey.AuthServerKey (ack : persistence.AuthServerKey) : String :=
  persistence.authServerKeyPrefix ++ ack.key

/-- Function `persistence.AuthServerName`; `sum224` stands for the library
function `sha256.Sum224` applied to the bytes of the name. -/
def persistence.AuthServerName (sum224 : String → sha256.Digest224) (name : String) :
    persistence.AuthServerKeyer :=
  let hash := (sum224 name).bytes
  let first := byteSlice hash 0 2
  let second := byteSlice hash 2 4
  let rest := byteSlice hash 4 hash.length
  ⟨fmt.hex first ++ "/" ++ fmt.hex second ++ "/" ++ fmt.hex rest⟩

/-- Type `persistence.AuthServerEntry`; the maps are association lists. -/
structure persistence.AuthServerEntry where
  Name : String
  ClientID : String
  ClientSecrets : List String
  AuthURLParams : List (String × String)
  ProviderName : String
  ProviderVersion : Int
  ProviderOptions : List (String × String)
  deriving DecidableEq, Repr

/-- Go `*logical.StorageEntry` as made from a server entry: the key and the
value, which stands for its own JSON encoding. -/
structure logical.StorageEntry where
  Key : String
  Value : persistence.AuthServerEntry
  deriving DecidableEq, Repr

/-- Library function `logical.StorageEntryJSON` on a server entry.  It fails
only when the JSON encoder does, which on a non-nil struct of strings, string
slices, string maps and an int it does not. -/
def logical.StorageEntryJSON (key : String) (entry : persistence.AuthServerEntry) :
    Except Err logical.StorageEntry :=
  .ok ⟨key, entry⟩

/-- What the two calls of `DecodeJSON` in `ReadAuthServerEntry` find in the
value of a storage entry: a value that one of them rejects, with the error, or
the fields of the server entry together with the legacy field
`client_secret`. -/
inductive logical.StoredValue where
  | malformed (err : Err)
  | json (entry : persistence.AuthServerEntry) (client_secret : String)
  deriving DecidableEq, Repr

/-- Interface `logical.Storage` as the server managers use it, over a storage
state `σ`: `Put` answers with an error or nil and the next state, `Get` with an
error, a missing entry or the stored value.  `Scan` stands for the listing
behind `vaultext.ScanView` on the view of a prefix: the paths below the prefix
that the scan visits, in order, and the error with which the listing ends after
them, if any. -/
structure logical.Storage (σ : Type) where
  Put : logical.StorageEntry → σ → Option Err × σ
  Get : String → σ → Except Err (Option logical.StoredValue) × σ
  Scan : String → σ → (List String × Option Err) × σ

/-- Type `persistence.LockedAuthServerManager`. -/
structure persistence.LockedAuthServerManager (σ : Type) where
  storage : logical.Storage σ
  keyer : persistence.AuthServerKeyer

/-- What a call of a manager method leaves behind: the returned error, the
storage state and the storage entries passed to `Put`, in order. -/
structure StorageOutcome (σ : Type) where
  result : Option Err
  state : σ
  puts : List logical.StorageEntry

/-- Method `LockedAuthServerManager.WriteAuthServerEntry`; `quote` stands for
the verb `%q`. -/
def persistence.LockedAuthServerManager.WriteAuthServerEntry {σ : Type}
    (sum224 : String → sha256.Digest224) (quote : String → String)
    (lasm : persistence.LockedAuthServerManager σ) (entry : persistence.AuthServerEntry)
    (s : σ) : StorageOutcome σ :=
  let key := lasm.keyer.AuthServerKey
  if (persistence.AuthServerName sum224 entry.Name).AuthServerKey != key then
    ⟨some ⟨"writing authorization server: name " ++ quote entry.Name ++
      " does not correspond to storage key", false⟩, s, []⟩
  else
    match logical.StorageEntryJSON key entry with
    | .error err => ⟨some err, s, []⟩
    | .ok se =>
      let r := lasm.storage.Put se s
      ⟨r.1, r.2, [se]⟩

/-- Method `LockedAuthServerManager.ReadAuthServerEntry`, with the copy of a
legacy `client_secret` in front of the client secrets. -/
def persistence.LockedAuthServerManager.ReadAuthServerEntry {σ : Type}
    (lasm : persistence.LockedAuthServerManager σ) (s : σ) :
    Except Err (Option persistence.AuthServerEntry) × σ :=
  match lasm.storage.Get lasm.keyer.AuthServerKey s with
  | (.error err, s1) => (.error err, s1)
  | (.ok none, s1) => (.ok none, s1)
  | (.ok (some (.malformed err)), s1) => (.error err, s1)
  | (.ok (some (.json entry client_secret)), s1) =>
    if client_secret != "" then
      (.ok (some { entry with ClientSecrets := client_secret :: entry.ClientSecrets }), s1)
    else
      (.ok (some entry), s1)

/-- Method `AuthServerManager.ReadAuthServerEntry`: the read of the locked
manager of that keyer, made under the lock of the keyer. -/
def persistence.AuthServerManager.ReadAuthServerEntry {σ : Type} (storage : logical.Storage σ)
    (keyer : persistence.AuthServerKeyer) (s : σ) :
    Except Err (Option persistence.AuthServerEntry) × σ :=
  persistence.LockedAuthServerManager.ReadAuthServerEntry ⟨storage, keyer⟩ s

/-- How a callback of a scan, or the scan, fails: with a Go error, or with the
run-time panic of a nil pointer dereference. -/
inductive Failure where
  | error (err : Err)
  | nilDereference
  deriving DecidableEq, Repr

/-- Modelled from the spec: `vaultext.ScanView` is not under src/;
"`forEachKey(kind, fn)`" runs the callback on every path that the listing
yields, in order.  The first failure of the callback ends the scan with that
failure; an error of the listing ends it after the paths listed before. -/
def vaultext.ScanView {τ : Type} (paths : List String) (listingError : Option Err)
    (fn : String → τ → Except Failure τ) (t : τ) : Except Failure τ :=
  match paths with
  | [] =>
    match listingError with
    | some err => .error (.error err)
    | none => .ok t
  | path :: paths =>
    match fn path t with
    | .error failure => .error failure
    | .ok t1 => vaultext.ScanView paths listingError fn t1

/-- Method `AuthServerManager.ForEachAuthServerKey`: the scan of the view of
`authServerKeyPrefix`, each path made into an `AuthServerKey`.  The state of
the callback holds the storage state as its second component. -/
def persistence.AuthServerManager.ForEachAuthServerKey {σ ρ : Type}
    (storage : logical.Storage σ)
    (fn : persistence.AuthServerKeyer → ρ × σ → Except Failure (ρ × σ)) (r : ρ) (s : σ) :
    Except Failure (ρ × σ) :=
  let listing := storage.Scan persistence.authServerKeyPrefix s
  vaultext.ScanView listing.1.1 listing.1.2 (fun path => fn ⟨path⟩) (r, listing.2)

/-- Go `a <= b` on the bytes of two strings, given as their characters: the
lexicographic order, which on UTF-8 text is that of the code points. -/
def bytesLE : List Char → List Char → Bool
  | [], _ => true
  | _ :: _, [] => false
  | a :: as, b :: bs => decide (a < b) || (a == b && bytesLE as bs)

/-- Library function `sort.Strings`: the strings in ascending order. -/
def sort.Strings (l : List String) : List String :=
  l.insertionSort fun a b => bytesLE a.data b.data = true

/-- The callback that `serversListOperation` passes to `ForEachAuthServerKey`,
on the names collected so far and the storage state.  Reading `entry.Name` on
the nil entry of a key without stored value is a nil pointer dereference. -/
def serversListOperation.visit {σ : Type} (sum224 : String → sha256.Digest224)
    (storage : logical.Storage σ) (keyer : persistence.AuthServerKeyer)
    (acc : List String × σ) : Except Failure (List String × σ) :=
  match persistence.AuthServerManager.ReadAuthServerEntry storage keyer acc.2 with
  | (.error err, _) => .error (.error err)
  | (.ok none, _) => .error .nilDereference
  | (.ok (some entry), s1) =>
    if (persistence.AuthServerName sum224 entry.Name).AuthServerKey != keyer.AuthServerKey then
      .ok (acc.1, s1)
    else
      .ok (acc.1 ++ [entry.Name], s1)

/-- Method `backend.serversListOperation` of `pkg/backend/path_servers.go`.
The result is the list of keys of `logical.ListResponse` with a nil error, or
the returned error with a nil response, or the panic. -/
def serversListOperation {σ : Type} (sum224 : String → sha256.Digest224)
    (storage : logical.Storage σ) (s : σ) : Except Failure (List String) :=
  match persistence.AuthServerManager.ForEachAuthServerKey storage
      (serversListOperation.visit sum224 storage) [] s with
  | .error failure => .error failure
  | .ok (serverNames, _) => .ok (sort.Strings serverNames)

/-! ## The name pattern (`pkg/backend/path.go`) -/

/-- Function `nameRegex`: the text of the pattern, a group named `name`. -/
def nameRegex (name : String) : String :=
  "(?P<" ++ name ++ ">(?:[^:]|:[^/])+)"

/-- Regular expressions over characters, with the constructs that the name
pattern is made of: the empty language, the empty string, the negated class
`[^c]`, the literal `c`, concatenation, alternation and repetition. -/
inductive Regex where
  | none
  | empty
  | notChar (c : Char)
  | char (c : Char)
  | seq (a b : Regex)
  | alt (a b : Regex)
  | star (a : Regex)
  deriving DecidableEq, Repr

/-- The repetition `a+`: one `a` followed by any number of them. -/
def Regex.plus (a : Regex) : Regex := .seq a (.star a)

/-- The alternation inside the repetition of the name pattern: `[^:]|:[^/]`. -/
def nameRegex.unit : Regex :=
  .alt (.notChar ':') (.seq (.char ':') (.notChar '/'))

/-- The regular expression that the text of `nameRegex` denotes inside its
named group: `(?:[^:]|:[^/])+`. -/
def nameRegex.pattern : Regex :=
  .plus nameRegex.unit

/-- Whether a regular expression accepts the empty string. -/
def Regex.nullable : Regex → Bool
  | .none => false
  | .empty => true
  | .notChar _ => false
  | .char _ => false
  | .seq a b => a.nullable && b.nullable
  | .alt a b => a.nullable || b.nullable
  | .star _ => true

/-- The derivative of a regular expression by a character: what remains to be
matched once the character has been read. -/
def Regex.deriv : Regex → Char → Regex
  | .none, _ => .none
  | .empty, _ => .none
  | .notChar x, c => if c = x then .none else .empty
  | .char x, c => if c = x then .empty else .none
  | .seq a b, c =>
    if a.nullable then .alt (.seq (a.deriv c) b) (b.deriv c) else .seq (a.deriv c) b
  | .alt a b, c => .alt (a.deriv c) (b.deriv c)
  | .star a, c => .seq (a.deriv c) (.star a)

/-- Whether a regular expression accepts a string in full. -/
def Regex.accepts : Regex → List Char → Bool
  | r, [] => r.nullable
  | r, c :: s => (r.deriv c).accepts s

/-- Whether a string holds a `:` immediately followed by a `/`. -/
def spec.colonSlash : List Char → Bool
  | [] => false
  | [_] => false
  | c :: d :: s => (c == ':' && d == '/') || spec.colonSlash (d :: s)

/-- Whether a string splits, from left to right, into units that are either
one character other than `:` or a `:` followed by one character other than
`/`. -/
def spec.units : List Char → Bool
  | [] => true
  | [c] => c != ':'
  | c :: d :: s => if c = ':' then d != '/' && spec.units s else spec.units (d :: s)

/-! ## The refresh descriptor (`pkg/backend/token_authcode.go`) -/

/-- A non-nil Go error as `refreshDescriptor.Run` observes it: besides what
`Err` records, whether `errors.Is` finds `context.Canceled` or
`context.DeadlineExceeded` in it. -/
structure LoopErr where
  err : Err
  isCanceled : Bool
  isDeadlineExceeded : Bool
  deriving DecidableEq, Repr

/-- Go `ctx.Err()` of a context that is done. -/
inductive ContextError where
  | Canceled
  | DeadlineExceeded
  deriving DecidableEq, Repr

/-- The error with which `retry.Wait` returns when the context is done: it
wraps `ctx.Err()`, which `errors.Is` finds in it. -/
def ContextError.wrapped : ContextError → LoopErr
  | .Canceled => ⟨⟨"context canceled", false⟩, true, false⟩
  | .DeadlineExceeded => ⟨⟨"context deadline exceeded", false⟩, false, true⟩

/-- The fields of `persistence.ConfigTuningEntry`, whose declaration is not
under src/, that `refreshDescriptor.Run` reads. -/
structure persistence.ConfigTuningEntry where
  RefreshCheckIntervalSeconds : Int
  RefreshExpiryDeltaFactor : Rat
  deriving DecidableEq, Repr

/-- The field of `persistence.ConfigEntry`, whose declaration is not under
src/, that `refreshDescriptor.Run` reads. -/
structure persistence.ConfigEntry where
  Tuning : persistence.ConfigTuningEntry
  deriving DecidableEq, Repr

/-- Struct `refreshProcess` (its backend and storage are those of the
descriptor). -/
structure refreshProcess where
  keyer : persistence.AuthCodeKeyer
  expiryDelta : Duration
  deriving DecidableEq, Repr

/-- Method `refreshProcess.Run`: the error of `getRefreshCredToken`. -/
def refreshProcess.Run (rp : refreshProcess) : Prog (Option Err) :=
  (getRefreshCredToken rp.keyer rp.expiryDelta).bind fun r => .ret r.2

/-- One interaction of `refreshDescriptor.Run` with its collaborators: a call
of `ForEachAuthCodeKey`, a process sent on the channel `pc`, or a wait of the
retry loop for its backoff. -/
inductive DescriptorEvent where
  | enumerate
  | dispatch (proc : refreshProcess)
  | wait (backoff : Duration)
  deriving DecidableEq, Repr

/-- What the collaborators of `refreshDescriptor.Run` do during one pass of its
retry loop: the keys that `ForEachAuthCodeKey` hands to the callback, each with
whether the send on `pc` won the `select` (otherwise `ctx.Done()` did), the
error that `ForEachAuthCodeKey` returns, and `ctx.Err()` when the context is
done during the wait that follows the pass. -/
structure Tick where
  keys : List (persistence.AuthCodeKeyer × Bool)
  enumerationError : Option LoopErr
  contextDone : Option ContextError
  deriving DecidableEq, Repr

/-- Library function `retry.Done`: the work is finished, with this error. -/
def retry.Done (err : Option LoopErr) : Bool × Option LoopErr := (true, err)

/-- Library function `retry.Repeat`: the work is to be run again. -/
def retry.Repeat (err : Option LoopErr) : Bool × Option LoopErr := (false, err)

/-- Library function `retry.Wait` with a constant backoff: it runs the work;
when the work answers `retry.Done` it returns the error of the work; otherwise
it waits for the backoff and runs the work again, unless the context is done
during the wait, in which case it returns an error wrapping that of the
context.  `work n` is the answer of the pass `n` and the interactions of the
pass, `contextDone n` whether the context is done during the wait after the
pass; the result is `none` when the loop is still running after `fuel`
passes. -/
def retry.Wait (work : Nat → (Bool × Option LoopErr) × List DescriptorEvent)
    (contextDone : Nat → Option ContextError) (backoff : Duration) :
    Nat → Nat → Option (Option LoopErr × List DescriptorEvent)
  | 0, _ => none
  | fuel + 1, n =>
    match work n with
    | ((true, err), events) => some (err, events)
    | ((false, _), events) =>
      match contextDone n with
      | some cause => some (some cause.wrapped, events ++ [.wait backoff])
      | none =>
        (retry.Wait work contextDone backoff fuel (n + 1)).map fun r =>
          (r.1, events ++ .wait backoff :: r.2)

/-- The work function that `refreshDescriptor.Run` passes to `retry.Wait`, on
the pass described by `tick`: the enumeration, with one process offered on `pc`
per key, then `retry.Done(err)` on an error and `retry.Repeat(nil)`
otherwise. -/
def refreshDescriptor.work (expiryDelta : Duration) (tick : Tick) :
    (Bool × Option LoopErr) × List DescriptorEvent :=
  let dispatched := tick.keys.filterMap fun kb =>
    if kb.2 then some (DescriptorEvent.dispatch ⟨kb.1, expiryDelta⟩) else none
  match tick.enumerationError with
  | some err => (retry.Done (some err), .enumerate :: dispatched)
  | none => (retry.Repeat none, .enumerate :: dispatched)

/-- The tuning that `refreshDescriptor.Run` goes by: that of the stored
configuration, or the default tuning when no configuration is stored. -/
def refreshDescriptor.tuning (DefaultConfigTuningEntry : persistence.ConfigTuningEntry)
    (cfg : Option persistence.ConfigEntry) : persistence.ConfigTuningEntry :=
  match cfg with
  | some cfg => cfg.Tuning
  | none => DefaultConfigTuningEntry

/-- The interactions of `n` passes of the loop of `refreshDescriptor.Run` from
the pass `k` on, each followed by a wait. -/
def refreshDescriptor.passes (expiryDelta backoff : Duration) (ticks : Nat → Tick) :
    Nat → Nat → List DescriptorEvent
  | 0, _ => []
  | n + 1, k =>
    (refreshDescriptor.work expiryDelta (ticks k)).2 ++
      .wait backoff :: refreshDescriptor.passes expiryDelta backoff ticks n (k + 1)

/-- What `refreshDescriptor.Run` returns for the error with which `retry.Wait`
has returned: nil for a cancelled or expired context, the error otherwise. -/
def refreshDescriptor.returned (err : Option LoopErr) : Option LoopErr :=
  match err with
  | some err => if err.isCanceled || err.isDeadlineExceeded then none else some err
  | none => none

/-- Whether an interaction of the descriptor is a call of
`ForEachAuthCodeKey`. -/
def DescriptorEvent.isEnumerate : DescriptorEvent → Bool
  | .enumerate => true
  | _ => false

/-- Method `refreshDescriptor.Run`.  `config` is the answer of
`rd.backend.cache.Config.Get`, `ticks` what the collaborators do on each pass
of the loop, `DefaultConfigTuningEntry` the variable of that name of package
`persistence`, and `expiryDelta` the value of
`time.Duration(expiryDeltaSeconds) * time.Second`, which the code computes in
floating point from the tuning.  The result is `none` when the loop is still
running after `fuel` passes. -/
def refreshDescriptor.Run (DefaultConfigTuningEntry : persistence.ConfigTuningEntry)
    (expiryDelta : persistence.ConfigTuningEntry → Duration)
    (config : Except LoopErr (Option persistence.ConfigEntry)) (ticks : Nat → Tick)
    (fuel : Nat) : Option (Option LoopErr × List DescriptorEvent) :=
  match config with
  | .error err => some (some err, [])
  | .ok cfg =>
    let tuning := refreshDescriptor.tuning DefaultConfigTuningEntry cfg
    if tuning.RefreshCheckIntervalSeconds ≤ 0 then
      some (none, [])
    else
      let refreshInterval := wrap64 (tuning.RefreshCheckIntervalSeconds * Second)
      (retry.Wait (fun n => refreshDescriptor.work (expiryDelta tuning) (ticks n))
          (fun n => (ticks n).contextDone) refreshInterval fuel 0).map fun r =>
        (refreshDescriptor.returned r.1, r.2)

/-! ## The reap policy in the words of the specification -/

/-- Reference time of the specification (§4.5): "token expiry if a token was
ever issued and has a non-zero expiry, else the last-attempted-issue
timestamp". -/
def spec.referenceTime (entry : persistence.AuthCodeEntry) : Time :=
  match entry.Token with
  | none => entry.LastAttemptedIssueTime
  | some tok =>
    if tok.Token.AccessToken ≠ "" ∧ tok.Token.Expiry ≠ 0 then tok.Token.Expiry
    else entry.LastAttemptedIssueTime

/-- Rule 1 of §4.5, for an entry with a user error: "if `revokedTTL <= 0`,
keep; else reap once `referenceTime + revokedTTL <= now`". -/
def spec.revokedRule (revokedTTL : Duration) (referenceTime now : Time) : Bool :=
  decide (0 < revokedTTL ∧ referenceTime + revokedTTL ≤ now)

/-- Rule 2 of §4.5, for an entry with a positive transient-error count: "if
both the attempt threshold and TTL are disabled, keep; else require count ≥
threshold and `referenceTime + transientTTL <= now` before reaping". -/
def spec.transientRule (attempts : Int) (transientTTL : Duration) (count : Int)
    (referenceTime now : Time) : Bool :=
  decide (¬ (attempts ≤ 0 ∧ transientTTL ≤ 0) ∧ attempts ≤ count ∧
    referenceTime + transientTTL ≤ now)

/-- Rule 3 of §4.5, for an entry with an auth-server error: "if
`serverDeletedTTL <= 0`, keep; else reap once `referenceTime +
serverDeletedTTL <= now`". -/
def spec.serverDeletedRule (serverDeletedTTL : Duration) (referenceTime now : Time) : Bool :=
  decide (0 < serverDeletedTTL ∧ referenceTime + serverDeletedTTL ≤ now)

/-- Rules 4 to 7 of §4.5, for an entry without recorded errors: keep a token
never issued, a non-expiring token and a token with a refresh token; otherwise
"`nonRefreshableTTL <= 0` or `expiry + nonRefreshableTTL > now`: keep; else
reap". -/
def spec.expiredRule (nonRefreshableTTL : Duration) (token : Option provider.Token)
    (now : Time) : Bool :=
  match token with
  | none => false
  | some tok =>
    decide (tok.Token.AccessToken ≠ "" ∧ tok.Token.Expiry ≠ 0 ∧ tok.Token.RefreshToken = "" ∧
      0 < nonRefreshableTTL ∧ tok.Token.Expiry + nonRefreshableTTL ≤ now)

/-- The decision `shouldReap` of §4.5: the rules in strict priority order,
the first matching one deciding alone. -/
def spec.shouldReap (acc : reap.AuthCodeChecker) (now : Time)
    (entry : persistence.AuthCodeEntry) : Bool :=
  if entry.UserError ≠ "" then
    spec.revokedRule acc.revokedTTL (spec.referenceTime entry) now
  else if 0 < entry.TransientErrorsSinceLastIssue then
    spec.transientRule acc.transientErrorAttempts acc.transientErrorTTL
      entry.TransientErrorsSinceLastIssue (spec.referenceTime entry) now
  else if entry.AuthServerError ≠ "" then
    spec.serverDeletedRule acc.serverDeletedTTL (spec.referenceTime entry) now
  else
    spec.expiredRule acc.nonRefreshableTTL entry.Token now

/-- Whether an interaction is a call of the provider (`RefreshToken` or
`TokenExchange`). -/
def Event.isProviderCall : Event → Bool
  | .refreshToken _ _ _ => true
  | .tokenExchange _ _ _ _ _ _ => true
  | _ => false

/-- Whether an interaction is a storage write. -/
def Event.isWrite : Event → Bool
  | .writeAuthCodeEntry _ _ => true
  | _ => false

/-- The condition under which `refreshCredToken` goes on to refresh the entry
it re-read: an issued token, not valid for the requested delta at the clock
reading, with a non-empty refresh token (the negation of the second case of its
switch). -/
def refreshCredToken.stale (now : Time) (expiryDelta : Duration)
    (candidate : persistence.AuthCodeEntry) : Bool :=
  !(!candidate.TokenIssued
    || tokenValid now (candidate.Token.map (·.Token)) expiryDelta
    || candidate.RefreshToken == "")

/-- The entry `c` with its recorded user error, auth-server error and
transient-error state replaced. -/
def persistence.AuthCodeEntry.withErrors (c : persistence.AuthCodeEntry)
    (userError authServerError lastTransientError : String) (transientErrors : Int) :
    persistence.AuthCodeEntry :=
  { c with
    UserError := userError
    AuthServerError := authServerError
    TransientErrorsSinceLastIssue := transientErrors
    LastTransientError := lastTransientError }

/-- The entry that `storeExchangedToken` writes back, as built between its
read and its write: the cache swept of the tokens not valid under the default
delta at the clock reading, then the new token under the exchange key. -/
def storeExchangedToken.updated (now : Time) (exchangeKey : String) (tok : oauth2.Token)
    (entry : persistence.AuthCodeEntry) : persistence.AuthCodeEntry :=
  { entry with
    ExchangedTokens :=
      mapSet (entry.ExchangedTokens.filter fun kt => tokenValid now kt.2 defaultExpiryDelta)
        exchangeKey (some tok) }

/-- The cache signature that `stsReadOperation` builds from the request
(`exchangeKey` in the source). -/
def stsReadOperation.exchangeKey (scopes audiences resources : List String) : String :=
  "scopes=" ++ " ".intercalate scopes ++
    ",audiences=" ++ " ".intercalate audiences ++
    ",resources=" ++ " ".intercalate resources

/-- The successful answer of `stsReadOperation` for a token: the data map with
`access_token`, `type` and, for a non-zero expiry, `expire_time`, and a nil
error. -/
def stsReadOperation.respond (tokenType : oauth2.Token → String) (tok : oauth2.Token) :
    ResponseResult :=
  (some (.data tok.AccessToken (tokenType tok)
    (if Time.IsZero tok.Expiry then none else some tok.Expiry)), none)

/-- The copy of an exchanged token that `stsReadOperation` caches and answers
with ("copy into smaller struct for caching"). -/
def stsReadOperation.cached (exchangedTok : provider.Token) : oauth2.Token :=
  { AccessToken := exchangedTok.Token.AccessToken
    TokenType := exchangedTok.Token.TokenType
    RefreshToken := ""
    Expiry := exchangedTok.Token.Expiry }

/-- The text of the error response of `stsReadOperation` for an entry without
a usable token: the recorded server problem, else the recorded user error, else
the given text. -/
def stsReadOperation.problem (quote : String → String) (entry : persistence.AuthCodeEntry)
    (otherwise : String) : String :=
  if entry.AuthServerError != "" then
    serverProblems quote entry.AuthServerName entry.AuthServerError
  else if entry.UserError != "" then
    entry.UserError
  else
    otherwise

/-- Whether an interaction is a call of the provider's `TokenExchange`. -/
def Event.isTokenExchange : Event → Bool
  | .tokenExchange _ _ _ _ _ _ => true
  | _ => false

/-- Lists of request values that the signature keeps apart: every value is
non-empty and holds neither a space, which joins the values of a list, nor a
comma, which separates the fields. -/
def spec.plainValues (l : List String) : Bool :=
  l.all fun s => s != "" && s.data.all fun c => c != ' ' && c != ','

/-! ## An in-memory environment

A storage in memory with a fixed clock, together with scripted answers of the
provider and scripted storage failures, in the manner of the test doubles of
`pkg/testutil`.  It serves to run the programs above on concrete inputs. -/

/-- State of the in-memory environment. -/
structure Sim where
  clock : Time
  store : List (String × persistence.AuthCodeEntry)
  readError : Option Err
  writeError : Option Err
  serverError : Option Err
  refreshAnswer : Except Err provider.Token
  exchangeAnswer : Except Err provider.Token

/-- Handler of the in-memory environment: locks and releases do nothing,
reads and writes go to `store` unless a failure is scripted. -/
def Sim.handler : Handler Sim where
  now s := s.clock
  lock _ s := s
  unlock _ s := s
  readAuthCodeEntry keyer s :=
    match s.readError with
    | some err => (.error err, s)
    | none => (.ok (mapGet s.store keyer), s)
  writeAuthCodeEntry keyer entry s :=
    match s.writeError with
    | some err => (some err, s)
    | none => (none, { s with store := mapSet s.store keyer entry })
  getProviderOperations _ _ s := (s.serverError, s)
  put _ s := s
  refreshToken _ _ _ s := (s.refreshAnswer, s)
  tokenExchange _ _ _ _ _ _ s := (s.exchangeAnswer, s)

/-- The in-memory environment `m` once its clock reads `clock`. -/
def Sim.atTime (m : Sim) (clock : Time) : Sim :=
  { m with clock := clock }

/-- The in-memory environment `m` with another scripted answer of the
provider's `TokenExchange`. -/
def Sim.answering (m : Sim) (exchangeAnswer : Except Err provider.Token) : Sim :=
  { m with exchangeAnswer := exchangeAnswer }

/-- The in-memory environment `m` once `entry` has been written under
`keyer`. -/
def Sim.storing (m : Sim) (keyer : persistence.AuthCodeKeyer)
    (entry : persistence.AuthCodeEntry) : Sim :=
  { m with store := mapSet m.store keyer entry }

/-! ## Concurrent calls

Calls that run concurrently are programs whose interactions interleave.  Each
interaction is one atomic step; a call that asks for a lock that is held does
not move until the lock is free. -/

/-- The effect of one atomic step of a call. -/
structure Step (σ α : Type) where
  next : Prog α
  state : σ
  locked : List persistence.AuthCodeKeyer
  events : List Event

/-- One atomic step of a call against a handler, given the keys whose lock is
held: the next interaction of the program, or nothing when the call has
returned or waits for a lock that is held. -/
def Prog.step {σ α : Type} (h : Handler σ) (locked : List persistence.AuthCodeKeyer) :
    Prog α → σ → Option (Step σ α)
  | .ret _, _ => none
  | .now k, s => some ⟨k (h.now s), s, locked, []⟩
  | .lock keyer p, s =>
    if keyer ∈ locked then none
    else some ⟨p, h.lock keyer s, keyer :: locked, [.lock keyer]⟩
  | .unlock keyer p, s => some ⟨p, h.unlock keyer s, locked.erase keyer, [.unlock keyer]⟩
  | .readAuthCodeEntry keyer k, s =>
    some ⟨k (h.readAuthCodeEntry keyer s).1, (h.readAuthCodeEntry keyer s).2, locked,
      [.readAuthCodeEntry keyer]⟩
  | .writeAuthCodeEntry keyer entry k, s =>
    some ⟨k (h.writeAuthCodeEntry keyer entry s).1, (h.writeAuthCodeEntry keyer entry s).2, locked,
      [.writeAuthCodeEntry keyer entry]⟩
  | .getProviderOperations server d k, s =>
    some ⟨k (h.getProviderOperations server d s).1, (h.getProviderOperations server d s).2,
      locked, [.getProviderOperations server d]⟩
  | .put server p, s => some ⟨p, h.put server s, locked, [.put server]⟩
  | .refreshToken server t o k, s =>
    some ⟨k (h.refreshToken server t o s).1, (h.refreshToken server t o s).2, locked,
      [.refreshToken server t o]⟩
  | .tokenExchange server t sc au re o k, s =>
    some ⟨k (h.tokenExchange server t sc au re o s).1, (h.tokenExchange server t sc au re o s).2,
      locked, [.tokenExchange server t sc au re o]⟩

/-- The result of a call that has returned. -/
def Prog.returned {α : Type} : Prog α → Option α
  | .ret a => some a
  | _ => none

/-- Concurrent calls on the in-memory environment: the program that each call
has still to run, the environment, the keys whose lock is held and the
interactions that have taken place, in order. -/
structure Conc (α : Type) where
  threads : List (Prog α)
  env : Sim
  locked : List persistence.AuthCodeKeyer
  events : List Event

/-- What happens next in a concurrent execution: the call of an index makes
its next step, or the clock moves on to a reading. -/
inductive Action where
  | run (i : Nat)
  | tick (t : Time)
  deriving DecidableEq, Repr

/-- One action of a concurrent execution.  A call that has returned, waits for
a held lock or does not exist leaves the configuration as it is; the clock
does not move backwards. -/
def Conc.step {α : Type} (c : Conc α) : Action → Conc α
  | .tick t => if c.env.clock ≤ t then { c with env := c.env.atTime t } else c
  | .run i =>
    match c.threads[i]? with
    | none => c
    | some p =>
      match p.step Sim.handler c.locked c.env with
      | none => c
      | some st =>
        { threads := c.threads.set i st.next
          env := st.state
          locked := st.locked
          events := c.events ++ st.events }

/-- A concurrent execution under a schedule. -/
def Conc.exec {α : Type} (c : Conc α) (schedule : List Action) : Conc α :=
  schedule.foldl Conc.step c

/-- The start of `n` concurrent calls of `getRefreshCredToken` for one
credential, with no lock held. -/
def getRefreshCredToken.concurrent (n : Nat) (keyer : persistence.AuthCodeKeyer)
    (expiryDelta : Duration) (m : Sim) : Conc EntryResult :=
  { threads := List.replicate n (getRefreshCredToken keyer expiryDelta)
    env := m
    locked := []
    events := [] }

/-- Whether an interaction is a call of the provider's `RefreshToken`. -/
def Event.isRefreshToken : Event → Bool
  | .refreshToken _ _ _ => true
  | _ => false

/-- The closure of `refreshCredToken` from the call of the provider's
`RefreshToken` on. -/
def refreshCredToken.refreshing (keyer : persistence.AuthCodeKeyer)
    (candidate : persistence.AuthCodeEntry) (tok : provider.Token) : Prog EntryResult :=
  .refreshToken candidate.AuthServerName tok tok.ProviderOptions fun answer =>
    refreshCredToken.writeBack keyer true (refreshCredToken.record candidate answer)

/-- The closure of `refreshCredToken` from `getProviderOperations` on. -/
def refreshCredToken.resolving (keyer : persistence.AuthCodeKeyer) (expiryDelta : Duration)
    (candidate : persistence.AuthCodeEntry) : Prog EntryResult :=
  .getProviderOperations candidate.AuthServerName expiryDelta fun oerr =>
    match oerr with
    | some err =>
      if err.User then
        refreshCredToken.writeBack keyer false (candidate.SetAuthServerError err.Short)
      else
        .unlock keyer (.ret (none, some err))
    | none =>
      match candidate.Token with
      | none => .put candidate.AuthServerName (.unlock keyer (.ret (some candidate, none)))
      | some tok => refreshCredToken.refreshing keyer candidate tok

/-- The closure of `refreshCredToken` from the switch on the candidate on. -/
def refreshCredToken.deciding (keyer : persistence.AuthCodeKeyer) (expiryDelta : Duration)
    (candidate : persistence.AuthCodeEntry) : Prog EntryResult :=
  .now fun now =>
    if !candidate.TokenIssued
        || tokenValid now (candidate.Token.map (·.Token)) expiryDelta
        || candidate.RefreshToken == "" then
      .unlock keyer (.ret (some candidate, none))
    else
      refreshCredToken.resolving keyer expiryDelta candidate

/-- The closure that `refreshCredToken` runs under the lock. -/
def refreshCredToken.holding (keyer : persistence.AuthCodeKeyer) (expiryDelta : Duration) :
    Prog EntryResult :=
  .readAuthCodeEntry keyer fun r =>
    match r with
    | .error err => .unlock keyer (.ret (none, some err))
    | .ok none => .unlock keyer (.ret (none, none))
    | .ok (some candidate) => refreshCredToken.deciding keyer expiryDelta candidate

/-- What `getRefreshCredToken` does with the entry it has read. -/
def getRefreshCredToken.deciding (keyer : persistence.AuthCodeKeyer) (expiryDelta : Duration)
    (entry : persistence.AuthCodeEntry) : Prog EntryResult :=
  .now fun now =>
    if !entry.TokenIssued || tokenValid now (entry.Token.map (·.Token)) expiryDelta then
      .ret (some entry, none)
    else
      refreshCredToken keyer expiryDelta

/-- Concurrent calls of `getRefreshCredToken` for one credential: the key, the
requested delta, the stored entry with its token, and the token with which the
provider answers a refresh. -/
structure Race where
  keyer : persistence.AuthCodeKeyer
  expiryDelta : Duration
  entry : persistence.AuthCodeEntry
  token : provider.Token
  refreshed : provider.Token

/-- The entry that the refresh writes. -/
def Race.written (r : Race) : persistence.AuthCodeEntry :=
  refreshCredToken.record r.entry (.ok r.refreshed)

/-- Where a call stands: before its first read, after it (with the entry read,
the stored one or already the refreshed one), before the lock, and under the
lock before the second read, after it, before the resolution of the server,
before the refresh, before the write, before the release of the operations,
before the release of the lock; or returned. -/
inductive Point where
  | start
  | fetched (fresh : Bool)
  | waiting
  | locked
  | reread (fresh : Bool)
  | resolving
  | refreshing
  | writing
  | putting
  | releasing
  | done
  deriving DecidableEq, Repr

/-- The program that a call at a point has still to run. -/
def Race.prog (r : Race) : Point → Prog EntryResult
  | .start => getRefreshCredToken r.keyer r.expiryDelta
  | .fetched fresh =>
    getRefreshCredToken.deciding r.keyer r.expiryDelta (if fresh then r.written else r.entry)
  | .waiting => refreshCredToken r.keyer r.expiryDelta
  | .locked => refreshCredToken.holding r.keyer r.expiryDelta
  | .reread fresh =>
    refreshCredToken.deciding r.keyer r.expiryDelta (if fresh then r.written else r.entry)
  | .resolving => refreshCredToken.resolving r.keyer r.expiryDelta r.entry
  | .refreshing => refreshCredToken.refreshing r.keyer r.entry r.token
  | .writing => refreshCredToken.writeBack r.keyer true r.written
  | .putting => .put r.written.AuthServerName (.unlock r.keyer (.ret (some r.written, none)))
  | .releasing => .unlock r.keyer (.ret (some r.written, none))
  | .done => .ret (some r.written, none)

/-- Whether a call at a point holds the lock. -/
def Point.inside : Point → Bool
  | .locked => true
  | .reread _ => true
  | .resolving => true
  | .refreshing => true
  | .writing => true
  | .putting => true
  | .releasing => true
  | _ => false

/-- The number of steps that a call at a point has still to make at most. -/
def Point.rank : Point → Nat
  | .start => 10
  | .fetched _ => 9
  | .waiting => 8
  | .locked => 7
  | .reread _ => 6
  | .resolving => 5
  | .refreshing => 4
  | .writing => 3
  | .putting => 2
  | .releasing => 1
  | .done => 0

/-- How far the refresh has come: the provider has not been called, it has
been called and its token is not yet written, or the token is stored. -/
inductive Phase where
  | stale
  | called
  | stored
  deriving DecidableEq, Repr

/-- The points at which a call can stand in a phase. -/
def Point.fits : Phase → Point → Bool
  | _, .start => true
  | _, .fetched false => true
  | _, .waiting => true
  | ph, .fetched true => ph == .stored
  | ph, .done => ph == .stored
  | ph, .locked => ph != .called
  | ph, .reread true => ph == .stored
  | ph, .reread false => ph == .stale
  | ph, .resolving => ph == .stale
  | ph, .refreshing => ph == .stale
  | ph, .writing => ph == .called
  | ph, .putting => ph == .stored
  | ph, .releasing => ph == .stored

/-- What holds of concurrent calls of `getRefreshCredToken` at every moment of
an execution that started at the clock reading `t0`: the calls stand at the
points `pts`, of which only that of the holder of the lock is under the lock;
the store holds the entry or, once the refresh is stored, the written entry;
and the provider's `RefreshToken` has been called once unless the refresh has
not come to it yet. -/
structure Race.Inv (r : Race) (t0 : Time) (c : Conc EntryResult) (pts : List Point)
    (holder : Option Nat) (phase : Phase) : Prop where
  threads : c.threads = pts.map r.prog
  inside : ∀ (j : Nat) (pt : Point), pts[j]? = some pt → (pt.inside = true ↔ holder = some j)
  fits : ∀ (j : Nat) (pt : Point), pts[j]? = some pt → pt.fits phase = true
  held : ∀ j : Nat, holder = some j → ∃ pt : Point, pts[j]? = some pt
  free : holder = none → phase ≠ .called
  locked : c.locked = if holder.isSome then [r.keyer] else []
  readError : c.env.readError = none
  writeError : c.env.writeError = none
  serverError : c.env.serverError = none
  refreshAnswer : c.env.refreshAnswer = .ok r.refreshed
  clock : t0 ≤ c.env.clock
  valid : tokenValid c.env.clock (some r.refreshed.Token) r.expiryDelta = true
  store : mapGet c.env.store r.keyer = some (if phase = .stored then r.written else r.entry)
  count : c.events.countP Event.isRefreshToken = if phase = .stale then 0 else 1

/-! ## Concrete inputs -/

/-- A clock reading taken as the origin of the scenarios below. -/
def Example.t0 : Time := 1700000000 * Second

/-- A provider token with the given access token, refresh token and expiry. -/
def Example.token (access refresh : String) (expiry : Time) : provider.Token :=
  { Token := { AccessToken := access, TokenType := "Bearer", RefreshToken := refresh,
               Expiry := expiry }
    ProviderVersion := 1
    ProviderOptions := [] }

/-- An entry of server `mock` with the given token and error state, whose last
attempted issue was at `Example.t0`. -/
def Example.entry (tok : Option provider.Token) (userError authServerError : String)
    (transientErrors : Int) : persistence.AuthCodeEntry :=
  { Token := tok
    ExchangedTokens := []
    AuthServerName := "mock"
    UserError := userError
    AuthServerError := authServerError
    TransientErrorsSinceLastIssue := transientErrors
    LastTransientError := if transientErrors > 0 then "refresh failed: timeout" else ""
    LastAttemptedIssueTime := Example.t0 }

/-- A checker with every TTL set to five minutes and a threshold of three
transient errors. -/
def Example.checker : reap.AuthCodeChecker :=
  { nonRefreshableTTL := 5 * Minute
    revokedTTL := 5 * Minute
    transientErrorAttempts := 3
    transientErrorTTL := 5 * Minute
    serverDeletedTTL := 5 * Minute }

/-- Stand-in for the `%q` verb on names without special characters. -/
def Example.quote (s : String) : String := "\"" ++ s ++ "\""

/-- An entry whose token expired one minute after `Example.t0` and which has a
refresh token. -/
def Example.staleEntry : persistence.AuthCodeEntry :=
  Example.entry (some (Example.token "tok" "refresh" (Example.t0 + Minute))) "" "" 0

/-- An entry whose token expires one hour after `Example.t0`. -/
def Example.validEntry : persistence.AuthCodeEntry :=
  Example.entry (some (Example.token "tok" "refresh" (Example.t0 + 60 * Minute))) "" "" 0

/-- The in-memory environment two minutes after `Example.t0`, holding `entry`
as the credential `cred`, with the given scripted failures and provider
answer. -/
def Example.sim (entry : persistence.AuthCodeEntry) (writeError serverError : Option Err)
    (refreshAnswer : Except Err provider.Token) : Sim :=
  { clock := Example.t0 + 2 * Minute
    store := [("cred", entry)]
    readError := none
    writeError := writeError
    serverError := serverError
    refreshAnswer := refreshAnswer
    exchangeAnswer := .error ⟨"token exchange is not supported", false⟩ }

/-- The in-memory environment at the given clock reading, holding `entry` as
the credential `cred`, with a resolvable server, no storage failure and the
given answers of the provider's `RefreshToken` and `TokenExchange`. -/
def Example.exchangeSim (clock : Time) (entry : persistence.AuthCodeEntry)
    (refreshAnswer exchangeAnswer : Except Err provider.Token) : Sim :=
  { clock := clock
    store := [("cred", entry)]
    readError := none
    writeError := none
    serverError := none
    refreshAnswer := refreshAnswer
    exchangeAnswer := exchangeAnswer }

/-- Stand-in for `oauth2.Token.Type` on tokens whose type is spelled out. -/
def Example.tokenType (t : oauth2.Token) : String := t.TokenType

/-- The in-memory environment two minutes after `Example.t0`, holding
`Example.validEntry` as the credential `cred`, whose provider answers every
token exchange with a token expiring one minute later. -/
def Example.cacheSim : Sim :=
  Example.exchangeSim (Example.t0 + 2 * Minute) Example.validEntry
    (.error ⟨"timeout", false⟩)
    (.ok (Example.token "exchanged" "" (Example.t0 + 3 * Minute)))

/-- An STS read of the credential `cred` for the scope `a`, with no requested
minimum, in the in-memory environment. -/
def Example.stsRead (m : Sim) : Outcome Sim ResponseResult :=
  (stsReadOperation Example.quote Example.tokenType "cred" 0 ["a"] [] []).run Sim.handler m

/-- An entry like `Example.validEntry` whose cache holds, under the signature
`old`, a token that expired one minute after `Example.t0` and, under the
signature `live`, a token that expires ten minutes after `Example.t0`. -/
def Example.cachedEntry : persistence.AuthCodeEntry :=
  { Example.validEntry with
    ExchangedTokens :=
      [("old", some (stsReadOperation.cached (Example.token "x1" "" (Example.t0 + Minute)))),
       ("live", some (stsReadOperation.cached
          (Example.token "x2" "" (Example.t0 + 10 * Minute))))] }

/-- A stand-in for `sha256.Sum224` in the scenarios below: 28 bytes computed
from the length and the characters of the name.  It is not SHA-224. -/
def Example.sum224 (name : String) : sha256.Digest224 :=
  { bytes := (List.range 28).map fun i =>
      Fin.ofNat (name.length * 31 + i * 7 + (name.data.getD i 'a').toNat)
    size := by simp }

/-- An in-memory storage for server entries: the stored values by key, the
latest first.  `Put` never fails and stores the entry as its own encoding,
`Get` answers with the first value under the key, and the scan of a prefix
visits the keys that start with it, in the order of the store. -/
def Example.serverStorage : logical.Storage (List (String × logical.StoredValue)) where
  Put := fun se s => (none, (se.Key, .json se.Value "") :: s.filter fun kv => kv.1 != se.Key)
  Get := fun key s => (.ok (mapGet s key), s)
  Scan := fun view s =>
    (((s.filter fun kv => view.data.isPrefixOf kv.1.data).map fun kv =>
      String.mk (kv.1.data.drop view.data.length), none), s)

/-- A server entry of the given name. -/
def Example.serverEntry (name : String) : persistence.AuthServerEntry :=
  { Name := name
    ClientID := "client"
    ClientSecrets := ["secret"]
    AuthURLParams := []
    ProviderName := "mock"
    ProviderVersion := 1
    ProviderOptions := [] }

/-- The stored value with the name of its entry, if it has one, changed. -/
def Example.rename (name : String) : logical.StoredValue → logical.StoredValue
  | .malformed err => .malformed err
  | .json entry client_secret => .json { entry with Name := name } client_secret

/-- The in-memory storage after the server entry `mock` has been written under
the key of its name. -/
def Example.mockStored : List (String × logical.StoredValue) :=
  (persistence.LockedAuthServerManager.WriteAuthServerEntry Example.sum224 Example.quote
    ⟨Example.serverStorage, persistence.AuthServerName Example.sum224 "mock"⟩
    (Example.serverEntry "mock") []).state

/-- The storage `Example.mockStored` after the stored name of every entry has
been changed to `other`, the keys being left as they are. -/
def Example.renamedStored : List (String × logical.StoredValue) :=
  Example.mockStored.map fun kv => (kv.1, Example.rename "other" kv.2)

/-- The storage `Example.mockStored` with, in front, a value under another key
that does not decode. -/
def Example.corruptStored : List (String × logical.StoredValue) :=
  ("servers/00/00/00", .malformed ⟨"invalid character", false⟩) :: Example.mockStored

/-- The storage `Example.mockStored` with two more values: the entry of a
server `ghost` under a key that its name does not derive, and the entry of the
server `alpha` under the key of its name. -/
def Example.mixedStored : List (String × logical.StoredValue) :=
  ("servers/00/00/00", .json (Example.serverEntry "ghost") "") ::
    ((persistence.AuthServerName Example.sum224 "alpha").AuthServerKey,
      .json (Example.serverEntry "alpha") "old-secret") :: Example.mockStored

/-- The paths that the scan of `Example.mixedStored` visits. -/
def Example.mixedPaths : List String :=
  ["00/00/00", (persistence.AuthServerName Example.sum224 "alpha").key,
    (persistence.AuthServerName Example.sum224 "mock").key]

/-- The entry stored in `Example.mixedStored` under a path of the servers. -/
def Example.entryAt (path : String) : persistence.AuthServerEntry :=
  match mapGet Example.mixedStored (persistence.authServerKeyPrefix ++ path) with
  | some (.json entry _) => entry
  | _ => Example.serverEntry ""

/-- The legacy client secret stored in `Example.mixedStored` under a path of
the servers. -/
def Example.secretAt (path : String) : String :=
  match mapGet Example.mixedStored (persistence.authServerKeyPrefix ++ path) with
  | some (.json _ client_secret) => client_secret
  | _ => ""

/-- The storage `Example.mixedStored` with, at the end, a value under another
key that does not decode. -/
def Example.brokenStored : List (String × logical.StoredValue) :=
  Example.mixedStored ++ [("servers/ff/ff/ff", .malformed ⟨"invalid character", false⟩)]

/-- The in-memory storage `Example.serverStorage` whose scan visits the keys of
the store and then ends with an error. -/
def Example.interruptedStorage : logical.Storage (List (String × logical.StoredValue)) where
  Put := Example.serverStorage.Put
  Get := Example.serverStorage.Get
  Scan := fun view s =>
    (((Example.serverStorage.Scan view s).1.1, some ⟨"scan interrupted", false⟩), s)

/-- A schedule of two calls that take turns, twenty steps each. -/
def Example.alternating : List Action :=
  (List.replicate 20 [Action.run 0, Action.run 1]).flatten

/-- The in-memory environment two minutes after `Example.t0`, holding the
stale entry as the credential `cred`, whose provider answers every refresh with
a token that expires one hour after `Example.t0`. -/
def Example.racingSim : Sim :=
  Example.exchangeSim (Example.t0 + 2 * Minute) Example.staleEntry
    (.ok (Example.token "new" "refresh" (Example.t0 + 60 * Minute)))
    (.error ⟨"token exchange is not supported", false⟩)

/-- A schedule of three calls: they take turns for three steps each, the clock
moves on by a minute, and they take turns again in the reverse order. -/
def Example.racing : List Action :=
  (List.replicate 3 [Action.run 0, Action.run 1, Action.run 2]).flatten ++
    Action.tick (Example.t0 + 3 * Minute) ::
      (List.replicate 30 [Action.run 2, Action.run 1, Action.run 0]).flatten

/-- A tuning with the given refresh-check interval, in seconds, and an expiry
delta factor of one. -/
def Example.tuning (seconds : Int) : persistence.ConfigTuningEntry :=
  { RefreshCheckIntervalSeconds := seconds, RefreshExpiryDeltaFactor := 1 }

/-- A stand-in for the expiry delta that the descriptor computes, for a factor
of one: the interval. -/
def Example.expiryDelta (tuning : persistence.ConfigTuningEntry) : Duration :=
  tuning.RefreshCheckIntervalSeconds * Second

/-- A pass of the loop that enumerates the credential `cred`, hands its process
to the channel and is followed by an undisturbed wait. -/
def Example.quietTick : Tick :=
  { keys := [("cred", true)], enumerationError := none, contextDone := none }

/-- A pass of the loop whose enumeration fails with a storage error. -/
def Example.failingTick : Tick :=
  { keys := [], enumerationError := some ⟨⟨"storage failure", false⟩, false, false⟩,
    contextDone := none }

/-- A pass of the loop followed by a wait during which the context is
cancelled. -/
def Example.lastTick : Tick :=
  { keys := [("cred", true)], enumerationError := none,
    contextDone := some .Canceled }

/-! ## Helper lemmas -/

theorem tokenExpired_eq_true_iff (now : Time) (t : oauth2.Token) (d : Duration) :
    tokenExpired now t d = true ↔ t.Expiry ≠ 0 ∧ t.Expiry - max d (10 * Second) < now := by
  unfold tokenExpired Time.IsZero Time.Before Time.Add defaultExpiryDelta
  by_cases hz : t.Expiry = 0
  · simp [hz]
  · by_cases hd : d < 10 * Second
    · simp [hz, hd, max_eq_right (le_of_lt hd)]
      constructor <;> intro h <;> linarith
    · simp [hz, hd, max_eq_left (not_lt.mp hd)]
      constructor <;> intro h <;> linarith

/-- Validity of a token in terms of its expiry: the clock reading plus the
effective delta does not pass the expiry. -/
theorem tokenValid_bound (now : Time) (tok : Option oauth2.Token) (d : Duration) :
    tokenValid now tok d = true ↔
      ∃ t, tok = some t ∧ t.AccessToken ≠ "" ∧
        (t.Expiry = 0 ∨ now + max d (10 * Second) ≤ t.Expiry) := by
  cases tok with
  | none => simp [tokenValid]
  | some t =>
    have h := tokenExpired_eq_true_iff now t d
    simp only [tokenValid, Bool.and_eq_true, bne_iff_ne, ne_eq, Bool.not_eq_true',
      Option.some.injEq, exists_eq_left']
    refine and_congr_right fun _ => ?_
    cases hx : tokenExpired now t d with
    | true =>
      have hexp := h.mp hx
      constructor
      · intro hfalse
        cases hfalse
      · rintro (hz | hle)
        · exact absurd hz hexp.1
        · have := hexp.2
          linarith
    | false =>
      refine ⟨fun _ => ?_, fun _ => rfl⟩
      by_cases hz : t.Expiry = 0
      · exact Or.inl hz
      · right
        by_contra hc
        have : tokenExpired now t d = true := h.mpr ⟨hz, by linarith [not_le.mp hc]⟩
        rw [hx] at this
        cases this

/-! ## Token validity -/

/-- C1 (as stated, refuted): for a token whose expiry minus the effective delta
is exactly the clock reading, `tokenValid` is true although that instant is not
strictly after the clock reading, so the stated equivalence fails. -/
theorem tokenValid_boundary_counterexample :
    ¬ (tokenValid 5 (some ⟨"a", "", "", 10000000005⟩) 0 = true ↔
        ((10000000005 : Int) = 0 ∨ (5 : Int) < 10000000005 - max 0 (10 * Second))) := by
  decide

/-- C1 (amended): `tokenValid` returns true exactly when the token is non-null,
its access token is non-empty, and either its expiry is the zero time or the
expiry minus `max delta (10 seconds)` is not before the clock reading. -/
theorem tokenValid_iff (now : Time) (tok : Option oauth2.Token) (delta : Duration) :
    tokenValid now tok delta = true ↔
      ∃ t, tok = some t ∧ t.AccessToken ≠ "" ∧
        (t.Expiry = 0 ∨ now ≤ t.Expiry - max delta (10 * Second)) := by
  cases tok with
  | none => simp [tokenValid]
  | some t =>
    have h := tokenExpired_eq_true_iff now t delta
    simp only [tokenValid, Bool.and_eq_true, bne_iff_ne, ne_eq, Bool.not_eq_true',
      Option.some.injEq, exists_eq_left']
    constructor
    · rintro ⟨ha, he⟩
      refine ⟨ha, ?_⟩
      by_cases hz : t.Expiry = 0
      · exact Or.inl hz
      · right
        by_contra hc
        have : tokenExpired now t delta = true := h.mpr ⟨hz, not_le.mp hc⟩
        simp [this] at he
    · rintro ⟨ha, he⟩
      refine ⟨ha, ?_⟩
      cases hx : tokenExpired now t delta with
      | false => rfl
      | true =>
        have hlt := (h.mp hx).2
        rcases he with he | he
        · exact absurd he (h.mp hx).1
        · exact absurd hlt (not_lt.mpr he)

/-! ## Reap policy -/

theorem after_add_eq_true_iff (r : Time) (ttl : Duration) (now : Time) :
    Time.After (Time.Add r ttl) now = true ↔ now < r + ttl := by
  simp [Time.After, Time.Add]

theorem getReferenceTime_eq (e : persistence.AuthCodeEntry) :
    reap.getReferenceTime e = spec.referenceTime e := by
  unfold reap.getReferenceTime spec.referenceTime persistence.AuthCodeEntry.TokenIssued
    persistence.AuthCodeEntry.Expiry Time.IsZero
  cases e.Token with
  | none => simp
  | some tok =>
    by_cases ha : tok.Token.AccessToken = "" <;> by_cases hz : tok.Token.Expiry = 0 <;>
      simp [ha, hz]

theorem check_isSome_eq_shouldReap (quote : String → String) (acc : reap.AuthCodeChecker)
    (now : Time) (e : persistence.AuthCodeEntry) :
    (reap.AuthCodeChecker.Check quote acc now e).isSome = spec.shouldReap acc now e := by
  unfold reap.AuthCodeChecker.Check spec.shouldReap
  rw [getReferenceTime_eq]
  by_cases hU : e.UserError = ""
  · by_cases hT : 0 < e.TransientErrorsSinceLastIssue
    · simp only [hU, bne_self_eq_false, Bool.false_eq_true, if_false, hT, if_true, gt_iff_lt,
        ne_eq, not_true_eq_false, spec.transientRule]
      split_ifs with h1 h2 h3
      · simp [h1]
      · simp only [Option.isSome_none, Bool.false_eq, decide_eq_false_iff_not]
        intro h; linarith [h.2.1]
      · simp only [Option.isSome_none, Bool.false_eq, decide_eq_false_iff_not]
        rw [after_add_eq_true_iff] at h3
        intro h; linarith [h.2.2]
      · rw [after_add_eq_true_iff] at h3
        simp only [Option.isSome_some, Bool.true_eq, decide_eq_true_eq]
        exact ⟨h1, not_lt.mp h2, not_lt.mp h3⟩
    · by_cases hA : e.AuthServerError = ""
      · simp only [hU, bne_self_eq_false, Bool.false_eq_true, if_false, hT, gt_iff_lt, hA,
          ne_eq, not_true_eq_false, spec.expiredRule, persistence.AuthCodeEntry.TokenIssued,
          persistence.AuthCodeEntry.Expiry, persistence.AuthCodeEntry.RefreshToken, Time.IsZero]
        obtain ⟨T, ex, sn, ue, ase, cnt, lte, lat⟩ := e
        cases T with
        | none => simp
        | some tok =>
          by_cases ha : tok.Token.AccessToken = ""
          · simp [ha]
          · by_cases hz : tok.Token.Expiry = 0
            · simp [ha, hz]
            · by_cases hr : tok.Token.RefreshToken = ""
              · have hb : (!tok.Token.AccessToken != "") = false := by simp [ha]
                simp only [hb, ha, hz, hr, after_add_eq_true_iff, bne_iff_ne, ne_eq,
                  not_false_eq_true, not_true_eq_false, decide_True, decide_False, Bool.not_true,
                  Bool.not_false, Bool.false_eq_true, if_false, true_and]
                by_cases h4 : acc.nonRefreshableTTL ≤ 0 ∨ now < tok.Token.Expiry + acc.nonRefreshableTTL
                · rw [if_pos h4]
                  simp only [Option.isSome_none, Bool.false_eq, decide_eq_false_iff_not]
                  rintro ⟨h5, h6⟩
                  rcases h4 with h4 | h4
                  · linarith
                  · linarith
                · rw [if_neg h4]
                  simp only [Option.isSome_some, Bool.true_eq, decide_eq_true_eq]
                  push_neg at h4
                  exact ⟨h4.1, h4.2⟩
              · simp [ha, hz, hr]
      · have hA' : (e.AuthServerError != "") = true := by simpa using hA
        simp only [hU, bne_self_eq_false, Bool.false_eq_true, if_false, hT, gt_iff_lt, hA',
          if_true, ne_eq, hA, not_false_eq_true, not_true_eq_false, spec.serverDeletedRule,
          after_add_eq_true_iff]
        split_ifs with h1 h2
        · simp only [Option.isSome_none, Bool.false_eq, decide_eq_false_iff_not]
          intro h; linarith [h.1]
        · simp only [Option.isSome_none, Bool.false_eq, decide_eq_false_iff_not]
          intro h; linarith [h.2]
        · simp only [Option.isSome_some, Bool.true_eq, decide_eq_true_eq]
          exact ⟨not_le.mp h1, not_lt.mp h2⟩
  · have hU' : (e.UserError != "") = true := by simpa using hU
    simp only [hU', if_true, ne_eq, hU, not_false_eq_true, spec.revokedRule,
      after_add_eq_true_iff]
    split_ifs with h1 h2
    · simp only [Option.isSome_none, Bool.false_eq, decide_eq_false_iff_not]
      intro h; linarith [h.1]
    · simp only [Option.isSome_none, Bool.false_eq, decide_eq_false_iff_not]
      intro h; linarith [h.2]
    · simp only [Option.isSome_some, Bool.true_eq, decide_eq_true_eq]
      exact ⟨not_le.mp h1, not_lt.mp h2⟩

/-- C2: for an entry with no user error, no positive transient-error count and
no auth-server error, `Check` returns an error exactly when the token is
issued, its expiry is non-zero, its refresh token is empty, the non-refreshable
TTL is positive and expiry + TTL <= now; otherwise it returns nil. -/
theorem check_nonRefreshable (quote : String → String) (acc : reap.AuthCodeChecker)
    (now : Time) (e : persistence.AuthCodeEntry)
    (hU : e.UserError = "") (hT : ¬ 0 < e.TransientErrorsSinceLastIssue)
    (hA : e.AuthServerError = "") :
    ((reap.AuthCodeChecker.Check quote acc now e).isSome = true ↔
      ∃ tok, e.Token = some tok ∧ tok.Token.AccessToken ≠ "" ∧ tok.Token.Expiry ≠ 0 ∧
        tok.Token.RefreshToken = "" ∧ 0 < acc.nonRefreshableTTL ∧
        tok.Token.Expiry + acc.nonRefreshableTTL ≤ now) ∧
    ((¬ ∃ tok, e.Token = some tok ∧ tok.Token.AccessToken ≠ "" ∧ tok.Token.Expiry ≠ 0 ∧
        tok.Token.RefreshToken = "" ∧ 0 < acc.nonRefreshableTTL ∧
        tok.Token.Expiry + acc.nonRefreshableTTL ≤ now) →
      reap.AuthCodeChecker.Check quote acc now e = none) := by
  have key : (reap.AuthCodeChecker.Check quote acc now e).isSome = true ↔
      ∃ tok, e.Token = some tok ∧ tok.Token.AccessToken ≠ "" ∧ tok.Token.Expiry ≠ 0 ∧
        tok.Token.RefreshToken = "" ∧ 0 < acc.nonRefreshableTTL ∧
        tok.Token.Expiry + acc.nonRefreshableTTL ≤ now := by
    rw [check_isSome_eq_shouldReap]
    unfold spec.shouldReap spec.expiredRule
    simp only [hU, hT, hA, ne_eq, not_true_eq_false, if_false]
    cases e.Token with
    | none => simp
    | some tok => simp
  refine ⟨key, fun hn => ?_⟩
  rw [← Option.not_isSome_iff_eq_none]
  exact fun h => hn (key.mp h)

/-- C2, the scenario of the claim: a token expiring one minute after `t0`,
without refresh token, under a TTL of five minutes, is reaped at `t0` plus six
minutes. -/
theorem check_nonRefreshable_witness :
    (reap.AuthCodeChecker.Check Example.quote Example.checker (Example.t0 + 6 * Minute)
      (Example.entry (some (Example.token "tok" "" (Example.t0 + Minute))) "" "" 0)).isSome
        = true :=
  (check_nonRefreshable Example.quote Example.checker (Example.t0 + 6 * Minute)
    (Example.entry (some (Example.token "tok" "" (Example.t0 + Minute))) "" "" 0)
    rfl (by decide) rfl).1.mpr
    ⟨Example.token "tok" "" (Example.t0 + Minute), rfl, by decide, by decide, rfl, by decide,
      by decide⟩

/-- C3: for an entry with a user error, `Check` keeps the entry when the
revoked TTL is not positive, and otherwise reaps it exactly when
referenceTime + revokedTTL <= now, the reference time being the token expiry
when a token is issued with a non-zero expiry and the last-attempted-issue
timestamp otherwise. -/
theorem check_userError (quote : String → String) (acc : reap.AuthCodeChecker)
    (now : Time) (e : persistence.AuthCodeEntry) (hU : e.UserError ≠ "") :
    (acc.revokedTTL ≤ 0 → reap.AuthCodeChecker.Check quote acc now e = none) ∧
    (0 < acc.revokedTTL →
      ((reap.AuthCodeChecker.Check quote acc now e).isSome = true ↔
        (if e.TokenIssued = true ∧ e.Expiry ≠ 0 then e.Expiry else e.LastAttemptedIssueTime)
          + acc.revokedTTL ≤ now)) := by
  have href : (if e.TokenIssued = true ∧ e.Expiry ≠ 0 then e.Expiry
      else e.LastAttemptedIssueTime) = reap.getReferenceTime e := by
    unfold reap.getReferenceTime Time.IsZero
    by_cases h1 : e.TokenIssued = true <;> by_cases h2 : e.Expiry = 0 <;> simp [h1, h2]
  have key : (reap.AuthCodeChecker.Check quote acc now e).isSome = true ↔
      0 < acc.revokedTTL ∧ reap.getReferenceTime e + acc.revokedTTL ≤ now := by
    rw [check_isSome_eq_shouldReap, getReferenceTime_eq]
    simp [spec.shouldReap, spec.revokedRule, hU]
  rw [href]
  refine ⟨fun h0 => ?_, fun h0 => ?_⟩
  · rw [← Option.not_isSome_iff_eq_none]
    intro h
    exact absurd (key.mp h).1 (not_lt.mpr h0)
  · rw [key]
    exact ⟨fun h => h.2, fun h => ⟨h0, h⟩⟩

/-- C3 at a concrete input: a revoked entry never issued, last attempted at
`t0`, under a revoked TTL of five minutes, is reaped at `t0` plus five
minutes. -/
theorem check_userError_witness :
    (reap.AuthCodeChecker.Check Example.quote Example.checker (Example.t0 + 5 * Minute)
      (Example.entry none "refresh failed: invalid_grant" "" 0)).isSome = true :=
  ((check_userError Example.quote Example.checker (Example.t0 + 5 * Minute)
    (Example.entry none "refresh failed: invalid_grant" "" 0) (by decide)).2 (by decide)).mpr
    (by decide)

/-- C4: for an entry with no user error and a positive transient-error count,
`Check` keeps the entry when both the attempt threshold and the transient TTL
are not positive, and otherwise reaps it exactly when the count has reached the
threshold and referenceTime + transientErrorTTL <= now. -/
theorem check_transientErrors (quote : String → String) (acc : reap.AuthCodeChecker)
    (now : Time) (e : persistence.AuthCodeEntry)
    (hU : e.UserError = "") (hT : 0 < e.TransientErrorsSinceLastIssue) :
    (acc.transientErrorAttempts ≤ 0 ∧ acc.transientErrorTTL ≤ 0 →
      reap.AuthCodeChecker.Check quote acc now e = none) ∧
    (¬ (acc.transientErrorAttempts ≤ 0 ∧ acc.transientErrorTTL ≤ 0) →
      ((reap.AuthCodeChecker.Check quote acc now e).isSome = true ↔
        acc.transientErrorAttempts ≤ e.TransientErrorsSinceLastIssue ∧
        (if e.TokenIssued = true ∧ e.Expiry ≠ 0 then e.Expiry else e.LastAttemptedIssueTime)
          + acc.transientErrorTTL ≤ now)) := by
  have href : (if e.TokenIssued = true ∧ e.Expiry ≠ 0 then e.Expiry
      else e.LastAttemptedIssueTime) = reap.getReferenceTime e := by
    unfold reap.getReferenceTime Time.IsZero
    by_cases h1 : e.TokenIssued = true <;> by_cases h2 : e.Expiry = 0 <;> simp [h1, h2]
  have key : (reap.AuthCodeChecker.Check quote acc now e).isSome = true ↔
      ¬ (acc.transientErrorAttempts ≤ 0 ∧ acc.transientErrorTTL ≤ 0) ∧
        acc.transientErrorAttempts ≤ e.TransientErrorsSinceLastIssue ∧
        reap.getReferenceTime e + acc.transientErrorTTL ≤ now := by
    rw [check_isSome_eq_shouldReap, getReferenceTime_eq]
    simp only [spec.shouldReap, spec.transientRule, hU, hT, ne_eq, not_true_eq_false, if_false,
      if_true, decide_eq_true_eq]
  rw [href]
  refine ⟨fun h0 => ?_, fun h0 => ?_⟩
  · rw [← Option.not_isSome_iff_eq_none]
    intro h
    exact (key.mp h).1 h0
  · rw [key]
    exact ⟨fun h => h.2, fun h => ⟨h0, h⟩⟩

/-- C4 at a concrete input: three transient errors against a threshold of
three, last attempted at `t0`, under a transient TTL of five minutes: reaped at
`t0` plus five minutes. -/
theorem check_transientErrors_witness :
    (reap.AuthCodeChecker.Check Example.quote Example.checker (Example.t0 + 5 * Minute)
      (Example.entry none "" "" 3)).isSome = true :=
  ((check_transientErrors Example.quote Example.checker (Example.t0 + 5 * Minute)
    (Example.entry none "" "" 3) rfl (by decide)).2 (by decide)).mpr (by decide)

/-- C5: for an entry with no user error, no positive transient-error count and
an auth-server error, `Check` keeps the entry when the server-deleted TTL is not
positive, and otherwise reaps it exactly when
referenceTime + serverDeletedTTL <= now. -/
theorem check_authServerError (quote : String → String) (acc : reap.AuthCodeChecker)
    (now : Time) (e : persistence.AuthCodeEntry)
    (hU : e.UserError = "") (hT : ¬ 0 < e.TransientErrorsSinceLastIssue)
    (hA : e.AuthServerError ≠ "") :
    (acc.serverDeletedTTL ≤ 0 → reap.AuthCodeChecker.Check quote acc now e = none) ∧
    (0 < acc.serverDeletedTTL →
      ((reap.AuthCodeChecker.Check quote acc now e).isSome = true ↔
        (if e.TokenIssued = true ∧ e.Expiry ≠ 0 then e.Expiry else e.LastAttemptedIssueTime)
          + acc.serverDeletedTTL ≤ now)) := by
  have href : (if e.TokenIssued = true ∧ e.Expiry ≠ 0 then e.Expiry
      else e.LastAttemptedIssueTime) = reap.getReferenceTime e := by
    unfold reap.getReferenceTime Time.IsZero
    by_cases h1 : e.TokenIssued = true <;> by_cases h2 : e.Expiry = 0 <;> simp [h1, h2]
  have key : (reap.AuthCodeChecker.Check quote acc now e).isSome = true ↔
      0 < acc.serverDeletedTTL ∧ reap.getReferenceTime e + acc.serverDeletedTTL ≤ now := by
    rw [check_isSome_eq_shouldReap, getReferenceTime_eq]
    simp [spec.shouldReap, spec.serverDeletedRule, hU, hT, hA]
  rw [href]
  refine ⟨fun h0 => ?_, fun h0 => ?_⟩
  · rw [← Option.not_isSome_iff_eq_none]
    intro h
    exact absurd (key.mp h).1 (not_lt.mpr h0)
  · rw [key]
    exact ⟨fun h => h.2, fun h => ⟨h0, h⟩⟩

/-- C5 at a concrete input: an entry whose server is gone, holding a token that
expired at `t0` plus one minute, under a server-deleted TTL of five minutes:
reaped at `t0` plus six minutes. -/
theorem check_authServerError_witness :
    (reap.AuthCodeChecker.Check Example.quote Example.checker (Example.t0 + 6 * Minute)
      (Example.entry (some (Example.token "tok" "refresh" (Example.t0 + Minute))) ""
        "no such server" 0)).isSome = true :=
  ((check_authServerError Example.quote Example.checker (Example.t0 + 6 * Minute)
    (Example.entry (some (Example.token "tok" "refresh" (Example.t0 + Minute))) ""
      "no such server" 0) rfl (by decide) (by decide)).2 (by decide)).mpr (by decide)

/-- C6 (as stated, refuted in part (b)): an entry with a transient-error count
below the threshold and an auth-server error, which also carries a user error,
is reaped by the revoked rule while the server-deleted TTL has not elapsed.
Here the token expired at `t0` plus one minute, the revoked and transient TTLs
are one minute, the server-deleted TTL is one hour and the clock reads `t0`
plus three minutes. -/
theorem check_cascade_counterexample :
    (Example.entry (some (Example.token "tok" "refresh" (Example.t0 + Minute)))
        "refresh failed: invalid_grant" "no such server" 1).TransientErrorsSinceLastIssue < 3 ∧
    (Example.entry (some (Example.token "tok" "refresh" (Example.t0 + Minute)))
        "refresh failed: invalid_grant" "no such server" 1).AuthServerError ≠ "" ∧
    Example.t0 + 3 * Minute < reap.getReferenceTime
        (Example.entry (some (Example.token "tok" "refresh" (Example.t0 + Minute)))
          "refresh failed: invalid_grant" "no such server" 1) + 60 * Minute ∧
    reap.getReferenceTime
        (Example.entry (some (Example.token "tok" "refresh" (Example.t0 + Minute)))
          "refresh failed: invalid_grant" "no such server" 1) + Minute
      ≤ Example.t0 + 3 * Minute ∧
    reap.AuthCodeChecker.Check Example.quote
      { nonRefreshableTTL := 0, revokedTTL := Minute, transientErrorAttempts := 3,
        transientErrorTTL := Minute, serverDeletedTTL := 60 * Minute }
      (Example.t0 + 3 * Minute)
      (Example.entry (some (Example.token "tok" "refresh" (Example.t0 + Minute)))
        "refresh failed: invalid_grant" "no such server" 1)
      = some "token revoked: refresh failed: invalid_grant" := by
  decide

/-- C6 (amended): `Check` is the first-match cascade of the specification:
its outcome is that of the revoked rule for an entry with a user error, else
that of the transient rule for a positive transient-error count, else that of
the server-deleted rule for an auth-server error, else that of the token rules,
each rule reading only its own tuning.  In particular (a) an entry with a user
error and recorded transient errors is decided by the revoked TTL alone, and
(b) an entry with no user error, a transient-error count below the threshold
and an auth-server error is not reaped while the server-deleted TTL has not
elapsed, whatever the transient TTL. -/
theorem check_cascade (quote : String → String) (acc : reap.AuthCodeChecker)
    (now : Time) (e : persistence.AuthCodeEntry) :
    (reap.AuthCodeChecker.Check quote acc now e).isSome = spec.shouldReap acc now e ∧
    (e.UserError ≠ "" → 0 < e.TransientErrorsSinceLastIssue →
      ((reap.AuthCodeChecker.Check quote acc now e).isSome = true ↔
        0 < acc.revokedTTL ∧ reap.getReferenceTime e + acc.revokedTTL ≤ now)) ∧
    (e.UserError = "" → e.TransientErrorsSinceLastIssue < acc.transientErrorAttempts →
      e.AuthServerError ≠ "" → now < reap.getReferenceTime e + acc.serverDeletedTTL →
      reap.AuthCodeChecker.Check quote acc now e = none) := by
  refine ⟨check_isSome_eq_shouldReap quote acc now e, fun hU _ => ?_, fun hU hlt hA hnow => ?_⟩
  · rw [check_isSome_eq_shouldReap, getReferenceTime_eq]
    simp [spec.shouldReap, spec.revokedRule, hU]
  · rw [← Option.not_isSome_iff_eq_none, check_isSome_eq_shouldReap]
    rw [getReferenceTime_eq] at hnow
    unfold spec.shouldReap
    simp only [hU, ne_eq, not_true_eq_false, if_false, hA, not_false_eq_true, if_true]
    split_ifs with hT
    · simp only [spec.transientRule, decide_eq_true_eq, not_and, not_le]
      intro _ h
      exact absurd h (not_le.mpr hlt)
    · simp only [spec.serverDeletedRule, decide_eq_true_eq, not_and, not_le]
      intro _
      exact hnow

/-- C6 (amended) at a concrete input: one transient error against a threshold
of three and a missing server, with the transient TTL elapsed and the
server-deleted TTL not elapsed: the entry is kept. -/
theorem check_cascade_witness :
    reap.AuthCodeChecker.Check Example.quote
      { nonRefreshableTTL := 0, revokedTTL := Minute, transientErrorAttempts := 3,
        transientErrorTTL := Minute, serverDeletedTTL := 60 * Minute }
      (Example.t0 + 2 * Minute) (Example.entry none "" "no such server" 1) = none :=
  (check_cascade Example.quote
      { nonRefreshableTTL := 0, revokedTTL := Minute, transientErrorAttempts := 3,
        transientErrorTTL := Minute, serverDeletedTTL := 60 * Minute }
      (Example.t0 + 2 * Minute) (Example.entry none "" "no such server" 1)).2.2
    rfl (by decide) (by decide) (by decide)

/-! ## The refresh engine -/

theorem Prog.run_bind {σ α β : Type} (h : Handler σ) (p : Prog α) (f : α → Prog β) (s : σ) :
    (p.bind f).run h s =
      ⟨((f (p.run h s).result).run h (p.run h s).state).result,
       ((f (p.run h s).result).run h (p.run h s).state).state,
       (p.run h s).events ++ ((f (p.run h s).result).run h (p.run h s).state).events⟩ := by
  induction p generalizing s with
  | ret a => simp [Prog.bind, Prog.run]
  | now k ih => simp [Prog.bind, Prog.run, ih]
  | lock keyer p ih => simp [Prog.bind, Prog.run, Outcome.after, ih]
  | unlock keyer p ih => simp [Prog.bind, Prog.run, Outcome.after, ih]
  | readAuthCodeEntry keyer k ih => simp [Prog.bind, Prog.run, Outcome.after, ih]
  | writeAuthCodeEntry keyer entry k ih => simp [Prog.bind, Prog.run, Outcome.after, ih]
  | getProviderOperations server d k ih => simp [Prog.bind, Prog.run, Outcome.after, ih]
  | put server p ih => simp [Prog.bind, Prog.run, Outcome.after, ih]
  | refreshToken server t o k ih => simp [Prog.bind, Prog.run, Outcome.after, ih]
  | tokenExchange server t sc au re o k ih => simp [Prog.bind, Prog.run, Outcome.after, ih]

theorem stale_token {now : Time} {d : Duration} {c : persistence.AuthCodeEntry}
    (hst : refreshCredToken.stale now d c = true) : ∃ tok, c.Token = some tok := by
  unfold refreshCredToken.stale persistence.AuthCodeEntry.TokenIssued at hst
  cases hT : c.Token with
  | none => simp [hT] at hst
  | some tok => exact ⟨tok, rfl⟩

theorem refreshCredToken_run_readError {σ : Type} (h : Handler σ) (s s1 : σ)
    (keyer : persistence.AuthCodeKeyer) (d : Duration) (err : Err)
    (hr : h.readAuthCodeEntry keyer (h.lock keyer s) = (.error err, s1)) :
    (refreshCredToken keyer d).run h s
      = ⟨(none, some err), h.unlock keyer s1,
          [.lock keyer, .readAuthCodeEntry keyer, .unlock keyer]⟩ := by
  simp [refreshCredToken, Prog.run, Outcome.after, hr]

theorem refreshCredToken_run_absent {σ : Type} (h : Handler σ) (s s1 : σ)
    (keyer : persistence.AuthCodeKeyer) (d : Duration)
    (hr : h.readAuthCodeEntry keyer (h.lock keyer s) = (.ok none, s1)) :
    (refreshCredToken keyer d).run h s
      = ⟨(none, none), h.unlock keyer s1,
          [.lock keyer, .readAuthCodeEntry keyer, .unlock keyer]⟩ := by
  simp [refreshCredToken, Prog.run, Outcome.after, hr]

theorem refreshCredToken_run_fresh {σ : Type} (h : Handler σ) (s s1 : σ)
    (keyer : persistence.AuthCodeKeyer) (d : Duration) (c : persistence.AuthCodeEntry)
    (hr : h.readAuthCodeEntry keyer (h.lock keyer s) = (.ok (some c), s1))
    (hst : refreshCredToken.stale (h.now s1) d c = false) :
    (refreshCredToken keyer d).run h s
      = ⟨(some c, none), h.unlock keyer s1,
          [.lock keyer, .readAuthCodeEntry keyer, .unlock keyer]⟩ := by
  unfold refreshCredToken.stale at hst
  simp only [Bool.not_eq_false'] at hst
  simp only [refreshCredToken, Prog.run, Outcome.after, hr, hst, ↓reduceIte]

theorem refreshCredToken_run_serverFailed {σ : Type} (h : Handler σ) (s s1 s2 : σ)
    (keyer : persistence.AuthCodeKeyer) (d : Duration) (c : persistence.AuthCodeEntry) (err : Err)
    (hr : h.readAuthCodeEntry keyer (h.lock keyer s) = (.ok (some c), s1))
    (hst : refreshCredToken.stale (h.now s1) d c = true)
    (ho : h.getProviderOperations c.AuthServerName d s1 = (some err, s2))
    (hu : err.User = false) :
    (refreshCredToken keyer d).run h s
      = ⟨(none, some err), h.unlock keyer s2,
          [.lock keyer, .readAuthCodeEntry keyer, .getProviderOperations c.AuthServerName d,
           .unlock keyer]⟩ := by
  unfold refreshCredToken.stale at hst
  simp only [Bool.not_eq_true'] at hst
  simp only [refreshCredToken, Prog.run, Outcome.after, hr, hst, ho, hu, Bool.false_eq_true,
    ↓reduceIte]

theorem refreshCredToken_run_serverProblem {σ : Type} (h : Handler σ) (s s1 s2 s3 : σ)
    (keyer : persistence.AuthCodeKeyer) (d : Duration) (c : persistence.AuthCodeEntry) (err : Err)
    (werr : Option Err)
    (hr : h.readAuthCodeEntry keyer (h.lock keyer s) = (.ok (some c), s1))
    (hst : refreshCredToken.stale (h.now s1) d c = true)
    (ho : h.getProviderOperations c.AuthServerName d s1 = (some err, s2))
    (hu : err.User = true)
    (hw : h.writeAuthCodeEntry keyer (c.SetAuthServerError err.Short) s2 = (werr, s3)) :
    (refreshCredToken keyer d).run h s
      = ⟨refreshCredToken.written werr (c.SetAuthServerError err.Short), h.unlock keyer s3,
          [.lock keyer, .readAuthCodeEntry keyer, .getProviderOperations c.AuthServerName d,
           .writeAuthCodeEntry keyer (c.SetAuthServerError err.Short), .unlock keyer]⟩ := by
  unfold refreshCredToken.stale at hst
  simp only [Bool.not_eq_true'] at hst
  simp only [refreshCredToken, refreshCredToken.writeBack, Prog.run, Outcome.after, hr, hst, ho,
    hu, hw, Bool.false_eq_true, ↓reduceIte]

theorem refreshCredToken_run_refreshed {σ : Type} (h : Handler σ) (s s1 s2 s3 s4 : σ)
    (keyer : persistence.AuthCodeKeyer) (d : Duration) (c : persistence.AuthCodeEntry)
    (tok : provider.Token) (answer : Except Err provider.Token) (werr : Option Err)
    (hr : h.readAuthCodeEntry keyer (h.lock keyer s) = (.ok (some c), s1))
    (hst : refreshCredToken.stale (h.now s1) d c = true)
    (ho : h.getProviderOperations c.AuthServerName d s1 = (none, s2))
    (ht : c.Token = some tok)
    (hf : h.refreshToken c.AuthServerName tok tok.ProviderOptions s2 = (answer, s3))
    (hw : h.writeAuthCodeEntry keyer (refreshCredToken.record c answer) s3 = (werr, s4)) :
    (refreshCredToken keyer d).run h s
      = ⟨refreshCredToken.written werr (refreshCredToken.record c answer),
          h.unlock keyer (h.put c.AuthServerName s4),
          [.lock keyer, .readAuthCodeEntry keyer, .getProviderOperations c.AuthServerName d,
           .refreshToken c.AuthServerName tok tok.ProviderOptions,
           .writeAuthCodeEntry keyer (refreshCredToken.record c answer),
           .put c.AuthServerName, .unlock keyer]⟩ := by
  have hname : (refreshCredToken.record c answer).AuthServerName = c.AuthServerName := by
    unfold refreshCredToken.record
    cases answer with
    | error err => by_cases hu : err.User = true <;> simp [hu, persistence.AuthCodeEntry.SetUserError,
        persistence.AuthCodeEntry.SetTransientError]
    | ok t => rfl
  unfold refreshCredToken.stale at hst
  simp only [Bool.not_eq_true'] at hst
  simp only [refreshCredToken, refreshCredToken.writeBack, Prog.run, Outcome.after, hr, hst,
    Bool.false_eq_true, ↓reduceIte, ho]
  simp only [ht, Prog.run, Outcome.after, hf, hw, hname, ↓reduceIte]

theorem mapGet_mapSet_self {β : Type} (m : List (String × β)) (k : String) (v : β) :
    mapGet (mapSet m k v) k = some v := by
  simp [mapGet, mapSet]

theorem Sim.handler_read (m : Sim) (keyer : persistence.AuthCodeKeyer) (hr : m.readError = none) :
    Sim.handler.readAuthCodeEntry keyer m = (.ok (mapGet m.store keyer), m) := by
  simp [Sim.handler, hr]

theorem Sim.handler_write_ok (m : Sim) (keyer : persistence.AuthCodeKeyer)
    (e : persistence.AuthCodeEntry) (hw : m.writeError = none) :
    Sim.handler.writeAuthCodeEntry keyer e m
      = (none, { m with store := mapSet m.store keyer e }) := by
  simp [Sim.handler, hw]

theorem Sim.handler_write_failed (m : Sim) (keyer : persistence.AuthCodeKeyer)
    (e : persistence.AuthCodeEntry) (err : Err) (hw : m.writeError = some err) :
    Sim.handler.writeAuthCodeEntry keyer e m = (some err, m) := by
  simp [Sim.handler, hw]

theorem Sim.refreshCredToken_stored (m : Sim) (keyer : persistence.AuthCodeKeyer)
    (d : Duration) (entry : persistence.AuthCodeEntry) (hr : m.readError = none)
    (hres : ((refreshCredToken keyer d).run Sim.handler m).result = (some entry, none)) :
    ((refreshCredToken keyer d).run Sim.handler m).state.readError = none ∧
    ((refreshCredToken keyer d).run Sim.handler m).state.clock = m.clock ∧
    mapGet ((refreshCredToken keyer d).run Sim.handler m).state.store keyer = some entry := by
  have hread : Sim.handler.readAuthCodeEntry keyer (Sim.handler.lock keyer m)
      = (.ok (mapGet m.store keyer), m) := Sim.handler_read m keyer hr
  rcases hg : mapGet m.store keyer with _ | c
  · rw [hg] at hread
    rw [refreshCredToken_run_absent Sim.handler m m keyer d hread] at hres
    simp at hres
  · rw [hg] at hread
    cases hst : refreshCredToken.stale (Sim.handler.now m) d c with
    | false =>
      have hrun := refreshCredToken_run_fresh Sim.handler m m keyer d c hread hst
      rw [hrun] at hres ⊢
      simp only [Prod.mk.injEq, Option.some.injEq, and_true] at hres
      subst hres
      exact ⟨hr, rfl, hg⟩
    | true =>
      rcases hs : m.serverError with _ | err
      · obtain ⟨tok, ht⟩ := stale_token hst
        have ho : Sim.handler.getProviderOperations c.AuthServerName d m = (none, m) := by
          simp [Sim.handler, hs]
        have hf : Sim.handler.refreshToken c.AuthServerName tok tok.ProviderOptions m
            = (m.refreshAnswer, m) := rfl
        rcases hw : m.writeError with _ | werr
        · have hrun := refreshCredToken_run_refreshed Sim.handler m m m m _ keyer d c tok
            m.refreshAnswer none hread hst ho ht hf (Sim.handler_write_ok m keyer _ hw)
          rw [hrun] at hres ⊢
          simp only [refreshCredToken.written, Prod.mk.injEq, Option.some.injEq, and_true] at hres
          subst hres
          exact ⟨hr, rfl, mapGet_mapSet_self _ _ _⟩
        · have hrun := refreshCredToken_run_refreshed Sim.handler m m m m _ keyer d c tok
            m.refreshAnswer (some werr) hread hst ho ht hf
            (Sim.handler_write_failed m keyer _ werr hw)
          rw [hrun] at hres
          simp [refreshCredToken.written] at hres
      · have ho : Sim.handler.getProviderOperations c.AuthServerName d m = (some err, m) := by
          simp [Sim.handler, hs]
        cases hu : err.User with
        | false =>
          rw [refreshCredToken_run_serverFailed Sim.handler m m m keyer d c err hread hst ho hu]
            at hres
          simp at hres
        | true =>
          rcases hw : m.writeError with _ | werr
          · have hrun := refreshCredToken_run_serverProblem Sim.handler m m m _ keyer d c err
              none hread hst ho hu (Sim.handler_write_ok m keyer _ hw)
            rw [hrun] at hres ⊢
            simp only [refreshCredToken.written, Prod.mk.injEq, Option.some.injEq, and_true]
              at hres
            subst hres
            exact ⟨hr, rfl, mapGet_mapSet_self _ _ _⟩
          · have hrun := refreshCredToken_run_serverProblem Sim.handler m m m m keyer d c err
              (some werr) hread hst ho hu (Sim.handler_write_failed m keyer _ werr hw)
            rw [hrun] at hres
            simp [refreshCredToken.written] at hres

theorem getRefreshCredToken_run_fast {σ : Type} (h : Handler σ) (s s1 : σ)
    (keyer : persistence.AuthCodeKeyer) (d : Duration) (entry : persistence.AuthCodeEntry)
    (hr : h.readAuthCodeEntry keyer s = (.ok (some entry), s1))
    (hv : (!entry.TokenIssued || tokenValid (h.now s1) (entry.Token.map (·.Token)) d) = true) :
    (getRefreshCredToken keyer d).run h s
      = ⟨(some entry, none), s1, [.readAuthCodeEntry keyer]⟩ := by
  simp only [getRefreshCredToken, Prog.run, Outcome.after, hr, hv, ↓reduceIte]

theorem getRefreshCredToken_run_slow {σ : Type} (h : Handler σ) (s s1 : σ)
    (keyer : persistence.AuthCodeKeyer) (d : Duration) (entry : persistence.AuthCodeEntry)
    (hr : h.readAuthCodeEntry keyer s = (.ok (some entry), s1))
    (hv : (!entry.TokenIssued || tokenValid (h.now s1) (entry.Token.map (·.Token)) d) = false) :
    (getRefreshCredToken keyer d).run h s
      = ((refreshCredToken keyer d).run h s1).after (.readAuthCodeEntry keyer) := by
  simp only [getRefreshCredToken, Prog.run, Outcome.after, hr, hv, Bool.false_eq_true, ↓reduceIte]

theorem Sim.getRefreshCredToken_stored (m : Sim) (keyer : persistence.AuthCodeKeyer)
    (d : Duration) (entry : persistence.AuthCodeEntry) (hr : m.readError = none)
    (hres : ((getRefreshCredToken keyer d).run Sim.handler m).result = (some entry, none)) :
    ((getRefreshCredToken keyer d).run Sim.handler m).state.readError = none ∧
    ((getRefreshCredToken keyer d).run Sim.handler m).state.clock = m.clock ∧
    mapGet ((getRefreshCredToken keyer d).run Sim.handler m).state.store keyer = some entry := by
  have hread := Sim.handler_read m keyer hr
  rcases hg : mapGet m.store keyer with _ | c
  · rw [hg] at hread
    simp [getRefreshCredToken, Prog.run, Outcome.after, hread] at hres
  · rw [hg] at hread
    cases hv : (!c.TokenIssued || tokenValid (Sim.handler.now m) (c.Token.map (·.Token)) d) with
    | true =>
      have hrun := getRefreshCredToken_run_fast Sim.handler m m keyer d c hread hv
      rw [hrun] at hres ⊢
      simp only [Prod.mk.injEq, Option.some.injEq, and_true] at hres
      subst hres
      exact ⟨hr, rfl, hg⟩
    | false =>
      have hrun := getRefreshCredToken_run_slow Sim.handler m m keyer d c hread hv
      rw [hrun] at hres ⊢
      exact Sim.refreshCredToken_stored m keyer d entry hr hres

/-- C7: when the unlocked read finds the credential absent, or an entry with no
issued token, or an entry whose token is valid for the requested delta,
`getRefreshCredToken` returns what it read with a nil error and that read is
its only interaction with the collaborators: no provider call and no storage
write.  Hence, in the in-memory environment, a second call right after a call
that returned an entry whose token is valid performs again that read alone and
returns the same entry. -/
theorem getRefreshCredToken_fast_path {σ : Type} (h : Handler σ) (s : σ)
    (keyer : persistence.AuthCodeKeyer) (expiryDelta : Duration) :
    (∀ s1, h.readAuthCodeEntry keyer s = (.ok none, s1) →
      (getRefreshCredToken keyer expiryDelta).run h s
        = ⟨(none, none), s1, [.readAuthCodeEntry keyer]⟩) ∧
    (∀ entry s1, h.readAuthCodeEntry keyer s = (.ok (some entry), s1) →
      (entry.TokenIssued = false ∨
        tokenValid (h.now s1) (entry.Token.map (·.Token)) expiryDelta = true) →
      (getRefreshCredToken keyer expiryDelta).run h s
          = ⟨(some entry, none), s1, [.readAuthCodeEntry keyer]⟩) ∧
    (∀ (m : Sim) entry, m.readError = none →
      ((getRefreshCredToken keyer expiryDelta).run Sim.handler m).result = (some entry, none) →
      tokenValid m.clock (entry.Token.map (·.Token)) expiryDelta = true →
      ((getRefreshCredToken keyer expiryDelta).run Sim.handler
          ((getRefreshCredToken keyer expiryDelta).run Sim.handler m).state).result
        = (some entry, none) ∧
      ((getRefreshCredToken keyer expiryDelta).run Sim.handler
          ((getRefreshCredToken keyer expiryDelta).run Sim.handler m).state).events
        = [.readAuthCodeEntry keyer]) := by
  refine ⟨?_, ?_, ?_⟩
  · intro s1 hr
    simp [getRefreshCredToken, Prog.run, Outcome.after, hr]
  · intro entry s1 hr hv
    apply getRefreshCredToken_run_fast h s s1 keyer expiryDelta entry hr
    rcases hv with hv | hv <;> simp [hv]
  · intro m entry hr hres hv
    obtain ⟨hr', hc, hg⟩ := Sim.getRefreshCredToken_stored m keyer expiryDelta entry hr hres
    have hread := Sim.handler_read _ keyer hr'
    rw [hg] at hread
    have hv' : (!entry.TokenIssued || tokenValid
        (Sim.handler.now ((getRefreshCredToken keyer expiryDelta).run Sim.handler m).state)
        (entry.Token.map (·.Token)) expiryDelta) = true := by
      have : Sim.handler.now ((getRefreshCredToken keyer expiryDelta).run Sim.handler m).state
          = m.clock := hc
      rw [this, hv]
      simp
    rw [getRefreshCredToken_run_fast Sim.handler _ _ keyer expiryDelta entry hread hv']
    exact ⟨rfl, rfl⟩

/-- C7 at a concrete input: in the in-memory environment, a stored entry whose
token is valid for another hour is returned after the read alone. -/
theorem getRefreshCredToken_fast_path_witness :
    (getRefreshCredToken "cred" 0).run Sim.handler
        (Example.sim Example.validEntry none none (.error ⟨"timeout", false⟩))
      = ⟨(some Example.validEntry, none),
          Example.sim Example.validEntry none none (.error ⟨"timeout", false⟩),
          [.readAuthCodeEntry "cred"]⟩ :=
  (getRefreshCredToken_fast_path Sim.handler
    (Example.sim Example.validEntry none none (.error ⟨"timeout", false⟩)) "cred" 0).2.1
    Example.validEntry _ rfl (Or.inr (by decide))

theorem stale_eq_true_iff (now : Time) (d : Duration) (c : persistence.AuthCodeEntry) :
    refreshCredToken.stale now d c = true ↔
      c.TokenIssued = true ∧ tokenValid now (c.Token.map (·.Token)) d = false ∧
        c.RefreshToken ≠ "" := by
  unfold refreshCredToken.stale
  cases c.TokenIssued <;> cases tokenValid now (c.Token.map (·.Token)) d <;>
    by_cases hR : c.RefreshToken = "" <;> simp [hR]

theorem refreshCredToken_run_cases {σ : Type} (h : Handler σ) (s : σ)
    (keyer : persistence.AuthCodeKeyer) (d : Duration) :
    (∃ found s1, h.readAuthCodeEntry keyer (h.lock keyer s) = (found, s1) ∧
      (¬ ∃ c, found = .ok (some c) ∧ refreshCredToken.stale (h.now s1) d c = true) ∧
      (refreshCredToken keyer d).run h s
        = ⟨(match found with
            | .ok x => x
            | .error _ => none,
            match found with
            | .ok _ => none
            | .error err => some err), h.unlock keyer s1,
            [.lock keyer, .readAuthCodeEntry keyer, .unlock keyer]⟩) ∨
    (∃ c s1 err s2, h.readAuthCodeEntry keyer (h.lock keyer s) = (.ok (some c), s1) ∧
      refreshCredToken.stale (h.now s1) d c = true ∧
      h.getProviderOperations c.AuthServerName d s1 = (some err, s2) ∧ err.User = false ∧
      (refreshCredToken keyer d).run h s
        = ⟨(none, some err), h.unlock keyer s2,
            [.lock keyer, .readAuthCodeEntry keyer,
             .getProviderOperations c.AuthServerName d, .unlock keyer]⟩) ∨
    (∃ c s1 err s2 werr s3, h.readAuthCodeEntry keyer (h.lock keyer s) = (.ok (some c), s1) ∧
      refreshCredToken.stale (h.now s1) d c = true ∧
      h.getProviderOperations c.AuthServerName d s1 = (some err, s2) ∧ err.User = true ∧
      h.writeAuthCodeEntry keyer (c.SetAuthServerError err.Short) s2 = (werr, s3) ∧
      (refreshCredToken keyer d).run h s
        = ⟨refreshCredToken.written werr (c.SetAuthServerError err.Short), h.unlock keyer s3,
            [.lock keyer, .readAuthCodeEntry keyer,
             .getProviderOperations c.AuthServerName d,
             .writeAuthCodeEntry keyer (c.SetAuthServerError err.Short), .unlock keyer]⟩) ∨
    (∃ c s1 s2 tok answer s3 werr s4,
      h.readAuthCodeEntry keyer (h.lock keyer s) = (.ok (some c), s1) ∧
      refreshCredToken.stale (h.now s1) d c = true ∧
      h.getProviderOperations c.AuthServerName d s1 = (none, s2) ∧
      c.Token = some tok ∧
      h.refreshToken c.AuthServerName tok tok.ProviderOptions s2 = (answer, s3) ∧
      h.writeAuthCodeEntry keyer (refreshCredToken.record c answer) s3 = (werr, s4) ∧
      (refreshCredToken keyer d).run h s
        = ⟨refreshCredToken.written werr (refreshCredToken.record c answer),
            h.unlock keyer (h.put c.AuthServerName s4),
            [.lock keyer, .readAuthCodeEntry keyer,
             .getProviderOperations c.AuthServerName d,
             .refreshToken c.AuthServerName tok tok.ProviderOptions,
             .writeAuthCodeEntry keyer (refreshCredToken.record c answer),
             .put c.AuthServerName, .unlock keyer]⟩) := by
  rcases hrd : h.readAuthCodeEntry keyer (h.lock keyer s) with ⟨found, s1⟩
  rcases found with err | _ | c
  · left
    exact ⟨_, s1, rfl, by simp, refreshCredToken_run_readError h s s1 keyer d err hrd⟩
  · left
    exact ⟨_, s1, rfl, by simp, refreshCredToken_run_absent h s s1 keyer d hrd⟩
  · cases hst : refreshCredToken.stale (h.now s1) d c with
    | false =>
      left
      exact ⟨_, s1, rfl, by simp [hst], refreshCredToken_run_fresh h s s1 keyer d c hrd hst⟩
    | true =>
      right
      rcases ho : h.getProviderOperations c.AuthServerName d s1 with ⟨oerr, s2⟩
      rcases oerr with _ | err
      · right; right
        obtain ⟨tok, ht⟩ := stale_token hst
        rcases hf : h.refreshToken c.AuthServerName tok tok.ProviderOptions s2 with ⟨answer, s3⟩
        rcases hw : h.writeAuthCodeEntry keyer (refreshCredToken.record c answer) s3
          with ⟨werr, s4⟩
        exact ⟨c, s1, s2, tok, answer, s3, werr, s4, rfl, hst, ho, ht, hf, hw,
          refreshCredToken_run_refreshed h s s1 s2 s3 s4 keyer d c tok answer werr hrd hst ho ht
            hf hw⟩
      · cases hu : err.User with
        | false =>
          left
          exact ⟨c, s1, err, s2, rfl, hst, ho, hu,
            refreshCredToken_run_serverFailed h s s1 s2 keyer d c err hrd hst ho hu⟩
        | true =>
          right; left
          rcases hw : h.writeAuthCodeEntry keyer (c.SetAuthServerError err.Short) s2
            with ⟨werr, s3⟩
          exact ⟨c, s1, err, s2, werr, s3, rfl, hst, ho, hu, hw,
            refreshCredToken_run_serverProblem h s s1 s2 s3 keyer d c err werr hrd hst ho hu hw⟩

/-- C8: inside the lock, `refreshCredToken` re-reads the entry, and it calls
the provider's `RefreshToken` only if the re-read entry exists, has an issued
token, that token is not valid for the requested delta and its refresh token is
non-empty, a condition that does not read the recorded user, auth-server or
transient error.  In every other case it returns the re-read entry (or absent,
with the error of a failed read) after the lock, the read and the unlock alone:
no provider call and no storage write. -/
theorem refreshCredToken_decision {σ : Type} (h : Handler σ) (s : σ)
    (keyer : persistence.AuthCodeKeyer) (expiryDelta : Duration) :
    (∃ mid, ((refreshCredToken keyer expiryDelta).run h s).events
      = .lock keyer :: .readAuthCodeEntry keyer :: (mid ++ [.unlock keyer])) ∧
    ((∃ ev ∈ ((refreshCredToken keyer expiryDelta).run h s).events, ev.isProviderCall = true) →
      ∃ c s1, h.readAuthCodeEntry keyer (h.lock keyer s) = (.ok (some c), s1) ∧
        c.TokenIssued = true ∧
        tokenValid (h.now s1) (c.Token.map (·.Token)) expiryDelta = false ∧
        c.RefreshToken ≠ "") ∧
    (∀ (c : persistence.AuthCodeEntry) (now : Time) (u a t : String) (n : Int),
      (((c.withErrors u a t n).TokenIssued = true ∧
        tokenValid now ((c.withErrors u a t n).Token.map (·.Token)) expiryDelta = false ∧
        (c.withErrors u a t n).RefreshToken ≠ "") ↔
       (c.TokenIssued = true ∧ tokenValid now (c.Token.map (·.Token)) expiryDelta = false ∧
        c.RefreshToken ≠ ""))) ∧
    (∀ found s1, h.readAuthCodeEntry keyer (h.lock keyer s) = (found, s1) →
      (¬ ∃ c, found = .ok (some c) ∧ c.TokenIssued = true ∧
        tokenValid (h.now s1) (c.Token.map (·.Token)) expiryDelta = false ∧
        c.RefreshToken ≠ "") →
      (refreshCredToken keyer expiryDelta).run h s
        = ⟨(match found with
            | .ok x => x
            | .error _ => none,
            match found with
            | .ok _ => none
            | .error err => some err), h.unlock keyer s1,
            [.lock keyer, .readAuthCodeEntry keyer, .unlock keyer]⟩) := by
  refine ⟨?_, ?_, ?_, ?_⟩
  · rcases refreshCredToken_run_cases h s keyer expiryDelta with
      ⟨found, s1, _, _, hrun⟩ | ⟨c, s1, err, s2, _, _, _, _, hrun⟩ |
      ⟨c, s1, err, s2, werr, s3, _, _, _, _, _, hrun⟩ |
      ⟨c, s1, s2, tok, answer, s3, werr, s4, _, _, _, _, _, _, hrun⟩
    · exact ⟨[], by rw [hrun]; rfl⟩
    · exact ⟨[.getProviderOperations c.AuthServerName expiryDelta], by rw [hrun]; rfl⟩
    · exact ⟨[.getProviderOperations c.AuthServerName expiryDelta,
        .writeAuthCodeEntry keyer (c.SetAuthServerError err.Short)], by rw [hrun]; rfl⟩
    · exact ⟨[.getProviderOperations c.AuthServerName expiryDelta,
        .refreshToken c.AuthServerName tok tok.ProviderOptions,
        .writeAuthCodeEntry keyer (refreshCredToken.record c answer),
        .put c.AuthServerName], by rw [hrun]; rfl⟩
  · rintro ⟨ev, hev, hp⟩
    rcases refreshCredToken_run_cases h s keyer expiryDelta with
      ⟨found, s1, _, _, hrun⟩ | ⟨c, s1, err, s2, _, _, _, _, hrun⟩ |
      ⟨c, s1, err, s2, werr, s3, _, _, _, _, _, hrun⟩ |
      ⟨c, s1, s2, tok, answer, s3, werr, s4, hrd, hst, _, _, _, _, hrun⟩
    · rw [hrun] at hev
      simp only [List.mem_cons, List.mem_singleton, List.not_mem_nil, or_false] at hev
      rcases hev with rfl | rfl | rfl <;> simp [Event.isProviderCall] at hp
    · rw [hrun] at hev
      simp only [List.mem_cons, List.mem_singleton, List.not_mem_nil, or_false] at hev
      rcases hev with rfl | rfl | rfl | rfl <;> simp [Event.isProviderCall] at hp
    · rw [hrun] at hev
      simp only [List.mem_cons, List.mem_singleton, List.not_mem_nil, or_false] at hev
      rcases hev with rfl | rfl | rfl | rfl | rfl <;> simp [Event.isProviderCall] at hp
    · exact ⟨c, s1, hrd, (stale_eq_true_iff _ _ _).mp hst⟩
  · intro c now u a t n
    exact Iff.rfl
  · intro found s1 hrd hn
    rcases refreshCredToken_run_cases h s keyer expiryDelta with
      ⟨found', s1', hrd', _, hrun⟩ | ⟨c, s1', err, s2, hrd', hst, _, _, hrun⟩ |
      ⟨c, s1', err, s2, werr, s3, hrd', hst, _, _, _, hrun⟩ |
      ⟨c, s1', s2, tok, answer, s3, werr, s4, hrd', hst, _, _, _, _, hrun⟩
    · rw [hrd] at hrd'
      simp only [Prod.mk.injEq] at hrd'
      obtain ⟨rfl, rfl⟩ := hrd'
      exact hrun
    all_goals
      rw [hrd] at hrd'
      simp only [Prod.mk.injEq] at hrd'
      obtain ⟨rfl, rfl⟩ := hrd'
      exact absurd ⟨c, rfl, (stale_eq_true_iff _ _ _).mp hst⟩ hn

/-- C8 at a concrete input: in the in-memory environment, the re-read of an
entry whose token is still valid returns it after lock, read and unlock. -/
theorem refreshCredToken_decision_witness :
    (refreshCredToken "cred" 0).run Sim.handler
        (Example.sim Example.validEntry none none (.error ⟨"timeout", false⟩))
      = ⟨(some Example.validEntry, none),
          Example.sim Example.validEntry none none (.error ⟨"timeout", false⟩),
          [.lock "cred", .readAuthCodeEntry "cred", .unlock "cred"]⟩ :=
  (refreshCredToken_decision Sim.handler
    (Example.sim Example.validEntry none none (.error ⟨"timeout", false⟩)) "cred" 0).2.2.2
    (.ok (some Example.validEntry)) _ rfl
    (by
      rintro ⟨c, hc, _, hv, _⟩
      cases hc
      revert hv
      decide)

/-- C9 (as stated, refuted): the provider's `RefreshToken` returns an error and
the storage write of the updated entry fails; `refreshCredToken` then returns
no entry and the error of the write. -/
theorem refreshCredToken_refresh_error_counterexample :
    ((refreshCredToken "cred" 0).run Sim.handler
        (Example.sim Example.staleEntry (some ⟨"storage failure", false⟩) none
          (.error ⟨"timeout", false⟩))).result
      = (none, some ⟨"storage failure", false⟩) ∧
    ((refreshCredToken "cred" 0).run Sim.handler
        (Example.sim Example.staleEntry (some ⟨"storage failure", false⟩) none
          (.error ⟨"timeout", false⟩))).events
      = [.lock "cred", .readAuthCodeEntry "cred", .getProviderOperations "mock" 0,
         .refreshToken "mock" (Example.token "tok" "refresh" (Example.t0 + Minute)) [],
         .writeAuthCodeEntry "cred"
           (Example.staleEntry.SetTransientError "refresh failed: timeout"),
         .put "mock", .unlock "cred"] := by
  decide

/-- C9 (amended): when the provider's `RefreshToken` returns an error,
`refreshCredToken` records it on the entry as a user error if the error is
marked user-caused and as a transient error otherwise (one setter is applied,
the stored token is kept), writes that entry to storage exactly once and, if
the write succeeds, returns the updated entry with a nil error; if the write
fails it returns no entry and the error of the write. -/
theorem refreshCredToken_refresh_error {σ : Type} (h : Handler σ) (s s1 s2 s3 s4 : σ)
    (keyer : persistence.AuthCodeKeyer) (expiryDelta : Duration)
    (c : persistence.AuthCodeEntry) (tok : provider.Token) (err : Err) (werr : Option Err)
    (hread : h.readAuthCodeEntry keyer (h.lock keyer s) = (.ok (some c), s1))
    (hissued : c.TokenIssued = true)
    (hinvalid : tokenValid (h.now s1) (c.Token.map (·.Token)) expiryDelta = false)
    (hrefreshable : c.RefreshToken ≠ "")
    (hops : h.getProviderOperations c.AuthServerName expiryDelta s1 = (none, s2))
    (htok : c.Token = some tok)
    (hanswer : h.refreshToken c.AuthServerName tok tok.ProviderOptions s2 = (.error err, s3))
    (hwrite : h.writeAuthCodeEntry keyer
        (if err.User = true then c.SetUserError ("refresh failed: " ++ err.Short)
         else c.SetTransientError ("refresh failed: " ++ err.Short)) s3 = (werr, s4)) :
    ((refreshCredToken keyer expiryDelta).run h s).events
      = [.lock keyer, .readAuthCodeEntry keyer,
         .getProviderOperations c.AuthServerName expiryDelta,
         .refreshToken c.AuthServerName tok tok.ProviderOptions,
         .writeAuthCodeEntry keyer
           (if err.User = true then c.SetUserError ("refresh failed: " ++ err.Short)
            else c.SetTransientError ("refresh failed: " ++ err.Short)),
         .put c.AuthServerName, .unlock keyer] ∧
    ((refreshCredToken keyer expiryDelta).run h s).events.countP Event.isWrite = 1 ∧
    ((refreshCredToken keyer expiryDelta).run h s).result
      = (match werr with
         | none =>
           (some (if err.User = true then c.SetUserError ("refresh failed: " ++ err.Short)
                  else c.SetTransientError ("refresh failed: " ++ err.Short)), none)
         | some e => (none, some e)) ∧
    (if err.User = true then c.SetUserError ("refresh failed: " ++ err.Short)
      else c.SetTransientError ("refresh failed: " ++ err.Short)).Token = c.Token ∧
    (err.User = true →
      (c.SetUserError ("refresh failed: " ++ err.Short)).UserError
          = "refresh failed: " ++ err.Short ∧
      (c.SetUserError ("refresh failed: " ++ err.Short)).TransientErrorsSinceLastIssue
          = c.TransientErrorsSinceLastIssue) ∧
    (err.User = false →
      (c.SetTransientError ("refresh failed: " ++ err.Short)).TransientErrorsSinceLastIssue
          = c.TransientErrorsSinceLastIssue + 1 ∧
      (c.SetTransientError ("refresh failed: " ++ err.Short)).LastTransientError
          = "refresh failed: " ++ err.Short ∧
      (c.SetTransientError ("refresh failed: " ++ err.Short)).UserError = c.UserError) := by
  have hst : refreshCredToken.stale (h.now s1) expiryDelta c = true :=
    (stale_eq_true_iff _ _ _).mpr ⟨hissued, hinvalid, hrefreshable⟩
  have hrec : refreshCredToken.record c (.error err)
      = (if err.User = true then c.SetUserError ("refresh failed: " ++ err.Short)
         else c.SetTransientError ("refresh failed: " ++ err.Short)) := rfl
  have hrun := refreshCredToken_run_refreshed h s s1 s2 s3 s4 keyer expiryDelta c tok
    (.error err) werr hread hst hops htok hanswer (by rw [hrec]; exact hwrite)
  rw [hrec] at hrun
  rw [hrun]
  refine ⟨rfl, ?_, ?_, ?_, fun _ => ⟨rfl, rfl⟩, fun _ => ⟨rfl, rfl, rfl⟩⟩
  · simp [List.countP_cons, Event.isProviderCall, Event.isWrite]
  · cases werr <;> rfl
  · by_cases hu : err.User = true <;> simp [hu, persistence.AuthCodeEntry.SetUserError,
      persistence.AuthCodeEntry.SetTransientError]

/-- C9 (amended) at a concrete input: a timeout of the provider on a stale
entry is recorded as the first transient error, written and returned. -/
theorem refreshCredToken_refresh_error_witness :
    ((refreshCredToken "cred" 0).run Sim.handler
        (Example.sim Example.staleEntry none none (.error ⟨"timeout", false⟩))).result
      = (some (Example.staleEntry.SetTransientError "refresh failed: timeout"), none) :=
  (refreshCredToken_refresh_error Sim.handler
    (Example.sim Example.staleEntry none none (.error ⟨"timeout", false⟩)) _ _ _ _ "cred" 0
    Example.staleEntry (Example.token "tok" "refresh" (Example.t0 + Minute))
    ⟨"timeout", false⟩ none rfl (by decide) (by decide) (by decide) rfl rfl rfl rfl).2.2.1

/-- C10 (as stated, refuted): resolving the server fails with a user-marked
error and the storage write of the updated entry fails; `refreshCredToken` then
returns no entry and the error of the write. -/
theorem refreshCredToken_server_problem_counterexample :
    ((refreshCredToken "cred" 0).run Sim.handler
        (Example.sim Example.staleEntry (some ⟨"storage failure", false⟩)
          (some ⟨"no such server", true⟩) (.error ⟨"timeout", false⟩))).result
      = (none, some ⟨"storage failure", false⟩) ∧
    ((refreshCredToken "cred" 0).run Sim.handler
        (Example.sim Example.staleEntry (some ⟨"storage failure", false⟩)
          (some ⟨"no such server", true⟩) (.error ⟨"timeout", false⟩))).events
      = [.lock "cred", .readAuthCodeEntry "cred", .getProviderOperations "mock" 0,
         .writeAuthCodeEntry "cred" (Example.staleEntry.SetAuthServerError "no such server"),
         .unlock "cred"] := by
  decide

/-- C10 (amended): when resolving the owning server definition fails with a
user-marked error, `refreshCredToken` records the short text of the cause as
the auth-server error of the entry, does not call the provider's
`RefreshToken`, writes the entry to storage and, if the write succeeds, returns
it with a nil error (the error of the write otherwise); and an STS read whose
`getRefreshCredToken` returns an entry with a non-empty auth-server error and a
token not valid for the requested minimum answers with the error response
`server "<name>" has configuration problems: <cause>`. -/
theorem refreshCredToken_server_problem {σ : Type} (h : Handler σ)
    (quote : String → String) (tokenType : oauth2.Token → String) :
    (∀ (s s1 s2 s3 : σ) (keyer : persistence.AuthCodeKeyer) (expiryDelta : Duration)
      (c : persistence.AuthCodeEntry) (err : Err) (werr : Option Err),
      h.readAuthCodeEntry keyer (h.lock keyer s) = (.ok (some c), s1) →
      c.TokenIssued = true →
      tokenValid (h.now s1) (c.Token.map (·.Token)) expiryDelta = false →
      c.RefreshToken ≠ "" →
      h.getProviderOperations c.AuthServerName expiryDelta s1 = (some err, s2) →
      err.User = true →
      h.writeAuthCodeEntry keyer (c.SetAuthServerError err.Short) s2 = (werr, s3) →
      ((refreshCredToken keyer expiryDelta).run h s).events
        = [.lock keyer, .readAuthCodeEntry keyer,
           .getProviderOperations c.AuthServerName expiryDelta,
           .writeAuthCodeEntry keyer (c.SetAuthServerError err.Short), .unlock keyer] ∧
      ((refreshCredToken keyer expiryDelta).run h s).events.countP Event.isProviderCall = 0 ∧
      ((refreshCredToken keyer expiryDelta).run h s).result
        = (match werr with
           | none => (some (c.SetAuthServerError err.Short), none)
           | some e => (none, some e)) ∧
      (c.SetAuthServerError err.Short).AuthServerError = err.Short ∧
      (c.SetAuthServerError err.Short).AuthServerName = c.AuthServerName ∧
      (c.SetAuthServerError err.Short).Token = c.Token) ∧
    (∀ (s s1 : σ) (name : String) (minimum_seconds : Int)
      (scopes audiences resources : List String) (entry : persistence.AuthCodeEntry)
      (events : List Event),
      (getRefreshCredToken (persistence.AuthCodeName name)
          (wrap64 (minimum_seconds * Second))).run h s = ⟨(some entry, none), s1, events⟩ →
      entry.AuthServerError ≠ "" →
      tokenValid (h.now s1) (entry.Token.map (·.Token)) (wrap64 (minimum_seconds * Second))
        = false →
      (stsReadOperation quote tokenType name minimum_seconds scopes audiences resources).run h s
        = ⟨(some (.error ("server " ++ quote entry.AuthServerName ++
              " has configuration problems: " ++ entry.AuthServerError)), none),
            s1, events⟩) := by
  refine ⟨?_, ?_⟩
  · intro s s1 s2 s3 keyer expiryDelta c err werr hread hissued hinvalid hrefreshable hops
      huser hwrite
    have hst : refreshCredToken.stale (h.now s1) expiryDelta c = true :=
      (stale_eq_true_iff _ _ _).mpr ⟨hissued, hinvalid, hrefreshable⟩
    rw [refreshCredToken_run_serverProblem h s s1 s2 s3 keyer expiryDelta c err werr hread hst
      hops huser hwrite]
    refine ⟨rfl, ?_, ?_, rfl, rfl, rfl⟩
    · simp [List.countP_cons, Event.isProviderCall]
    · cases werr <;> rfl
  · intro s s1 name minimum_seconds scopes audiences resources entry events hrun hA hinvalid
    have hA' : (entry.AuthServerError != "") = true := by simpa using hA
    unfold stsReadOperation
    simp only [Prog.run_bind, hrun]
    cases hI : entry.TokenIssued with
    | true =>
      simp only [Bool.not_true, Bool.false_eq_true, ↓reduceIte, Prog.run, hinvalid,
        Bool.not_false, hA', serverProblems, List.append_nil]
    | false =>
      simp only [Bool.not_false, ↓reduceIte, Prog.run, hA', serverProblems, List.append_nil]

/-- C10 (amended) at a concrete input: the server `mock` has been deleted; an
STS read of the credential, whose token has expired, records the problem and
answers `server "mock" has configuration problems: no such server`. -/
theorem refreshCredToken_server_problem_witness :
    ((stsReadOperation Example.quote (fun t => t.TokenType) "cred" 0 [] [] []).run Sim.handler
        (Example.sim Example.staleEntry none (some ⟨"no such server", true⟩)
          (.error ⟨"timeout", false⟩))).result
      = (some (.error "server \"mock\" has configuration problems: no such server"), none) :=
  congrArg Outcome.result
    ((refreshCredToken_server_problem Sim.handler Example.quote (fun t => t.TokenType)).2
      (Example.sim Example.staleEntry none (some ⟨"no such server", true⟩)
        (.error ⟨"timeout", false⟩))
      _ "cred" 0 [] [] [] (Example.staleEntry.SetAuthServerError "no such server")
      [.readAuthCodeEntry "cred", .lock "cred", .readAuthCodeEntry "cred",
       .getProviderOperations "mock" 0,
       .writeAuthCodeEntry "cred" (Example.staleEntry.SetAuthServerError "no such server"),
       .unlock "cred"]
      rfl (by decide) (by decide))

/-! ## The floor of the expiry delta -/

/-- C12: for every token and clock reading, a requested delta of at most 10
seconds (zero and negative values included) gives `tokenExpired` and
`tokenValid` the results of a delta of exactly 10 seconds; for a delta greater
than 10 seconds the requested delta itself is the margin subtracted from the
expiry. -/
theorem tokenExpired_floor (now : Time) (t : oauth2.Token) (tok : Option oauth2.Token)
    (delta : Duration) :
    (delta ≤ 10 * Second →
      tokenExpired now t delta = tokenExpired now t (10 * Second) ∧
      tokenValid now tok delta = tokenValid now tok (10 * Second)) ∧
    (10 * Second < delta →
      (tokenExpired now t delta = true ↔ t.Expiry ≠ 0 ∧ t.Expiry - delta < now) ∧
      (tokenValid now (some t) delta = true ↔
        t.AccessToken ≠ "" ∧ (t.Expiry = 0 ∨ now ≤ t.Expiry - delta))) := by
  have hfloor : ∀ u : oauth2.Token, delta ≤ 10 * Second →
      tokenExpired now u delta = tokenExpired now u (10 * Second) := by
    intro u hd
    unfold tokenExpired defaultExpiryDelta
    by_cases hz : Time.IsZero u.Expiry = true
    · simp [hz]
    · simp only [hz, Bool.false_eq_true, ↓reduceIte, lt_self_iff_false]
      by_cases hlt : delta < 10 * Second
      · simp [hlt]
      · have : delta = 10 * Second := le_antisymm hd (not_lt.mp hlt)
        simp [this]
  refine ⟨fun hd => ⟨hfloor t hd, ?_⟩, fun hd => ?_⟩
  · cases tok with
    | none => rfl
    | some u => simp only [tokenValid, hfloor u hd]
  · have hmax : max delta (10 * Second) = delta := max_eq_left (le_of_lt hd)
    have he := tokenExpired_eq_true_iff now t delta
    rw [hmax] at he
    refine ⟨he, ?_⟩
    simp only [tokenValid, Bool.and_eq_true, bne_iff_ne, ne_eq, Bool.not_eq_true']
    constructor
    · rintro ⟨ha, hx⟩
      refine ⟨ha, ?_⟩
      by_cases hz : t.Expiry = 0
      · exact Or.inl hz
      · right
        by_contra hc
        have : tokenExpired now t delta = true := he.mpr ⟨hz, not_le.mp hc⟩
        simp [this] at hx
    · rintro ⟨ha, hx⟩
      refine ⟨ha, ?_⟩
      cases hv : tokenExpired now t delta with
      | false => rfl
      | true =>
        rcases hx with hx | hx
        · exact absurd hx (he.mp hv).1
        · exact absurd (he.mp hv).2 (not_lt.mpr hx)

/-- C12 at a concrete input: a token with eight seconds left is expired for a
requested delta of zero as it is for ten seconds, and a token with two minutes
left is expired under a requested delta of five minutes. -/
theorem tokenExpired_floor_witness :
    (tokenExpired Example.t0 ⟨"tok", "", "", Example.t0 + 8 * Second⟩ 0
        = tokenExpired Example.t0 ⟨"tok", "", "", Example.t0 + 8 * Second⟩ (10 * Second) ∧
      tokenValid Example.t0 (some ⟨"tok", "", "", Example.t0 + 8 * Second⟩) 0
        = tokenValid Example.t0 (some ⟨"tok", "", "", Example.t0 + 8 * Second⟩)
            (10 * Second)) ∧
    tokenExpired Example.t0 ⟨"tok", "", "", Example.t0 + 2 * Minute⟩ (5 * Minute) = true :=
  ⟨(tokenExpired_floor Example.t0 ⟨"tok", "", "", Example.t0 + 8 * Second⟩
      (some ⟨"tok", "", "", Example.t0 + 8 * Second⟩) 0).1 (by decide),
   ((tokenExpired_floor Example.t0 ⟨"tok", "", "", Example.t0 + 2 * Minute⟩ none
      (5 * Minute)).2 (by decide)).1.mpr ⟨by decide, by decide⟩⟩

/-- C13: a token with a non-empty access token and a zero expiry is valid for
every requested delta and every clock reading; and when the read of
`getRefreshCredToken` finds an entry holding such a token, the call returns
that entry with a nil error after the read alone, whatever minimum validity is
requested. -/
theorem tokenValid_never_expires {σ : Type} (h : Handler σ) :
    (∀ (now : Time) (t : oauth2.Token) (delta : Duration),
      t.AccessToken ≠ "" → t.Expiry = 0 → tokenValid now (some t) delta = true) ∧
    (∀ (s s1 : σ) (keyer : persistence.AuthCodeKeyer) (delta : Duration)
      (entry : persistence.AuthCodeEntry) (tok : provider.Token),
      h.readAuthCodeEntry keyer s = (.ok (some entry), s1) →
      entry.Token = some tok → tok.Token.AccessToken ≠ "" → tok.Token.Expiry = 0 →
      (getRefreshCredToken keyer delta).run h s
        = ⟨(some entry, none), s1, [.readAuthCodeEntry keyer]⟩) := by
  have hvalid : ∀ (now : Time) (t : oauth2.Token) (delta : Duration),
      t.AccessToken ≠ "" → t.Expiry = 0 → tokenValid now (some t) delta = true := by
    intro now t delta ha hz
    simp [tokenValid, tokenExpired, Time.IsZero, ha, hz]
  refine ⟨hvalid, ?_⟩
  intro s s1 keyer delta entry tok hread htok ha hz
  apply getRefreshCredToken_run_fast h s s1 keyer delta entry hread
  rw [htok]
  simp [hvalid (h.now s1) tok.Token delta ha hz]

/-- C13 at a concrete input: a stored entry whose token never expires is
returned as it is when a validity of one hour is requested. -/
theorem tokenValid_never_expires_witness :
    (getRefreshCredToken "cred" (60 * Minute)).run Sim.handler
        (Example.sim (Example.entry (some (Example.token "tok" "" 0)) "" "" 0) none none
          (.error ⟨"timeout", false⟩))
      = ⟨(some (Example.entry (some (Example.token "tok" "" 0)) "" "" 0), none),
          Example.sim (Example.entry (some (Example.token "tok" "" 0)) "" "" 0) none none
            (.error ⟨"timeout", false⟩),
          [.readAuthCodeEntry "cred"]⟩ :=
  (tokenValid_never_expires Sim.handler).2 _ _ "cred" (60 * Minute) _
    (Example.token "tok" "" 0) rfl rfl (by decide) rfl

/-! ## Errors returned by the refresh engine -/

theorem getRefreshCredToken_run_readError {σ : Type} (h : Handler σ) (s s1 : σ)
    (keyer : persistence.AuthCodeKeyer) (d : Duration) (err : Err)
    (hr : h.readAuthCodeEntry keyer s = (.error err, s1)) :
    (getRefreshCredToken keyer d).run h s
      = ⟨(none, some err), s1, [.readAuthCodeEntry keyer]⟩ := by
  simp only [getRefreshCredToken, Prog.run, Outcome.after, hr]

theorem getRefreshCredToken_run_absent {σ : Type} (h : Handler σ) (s s1 : σ)
    (keyer : persistence.AuthCodeKeyer) (d : Duration)
    (hr : h.readAuthCodeEntry keyer s = (.ok none, s1)) :
    (getRefreshCredToken keyer d).run h s
      = ⟨(none, none), s1, [.readAuthCodeEntry keyer]⟩ := by
  simp only [getRefreshCredToken, Prog.run, Outcome.after, hr]

/-- C11 (as stated, refuted): every storage read and write succeeds, resolving
the server fails with an error that is not marked user-caused, and
`getRefreshCredToken` returns that error and no entry. -/
theorem getRefreshCredToken_errors_counterexample :
    (Example.sim Example.staleEntry none (some ⟨"provider unavailable", false⟩)
        (.error ⟨"timeout", false⟩)).readError = none ∧
    (Example.sim Example.staleEntry none (some ⟨"provider unavailable", false⟩)
        (.error ⟨"timeout", false⟩)).writeError = none ∧
    ((getRefreshCredToken "cred" 0).run Sim.handler
        (Example.sim Example.staleEntry none (some ⟨"provider unavailable", false⟩)
          (.error ⟨"timeout", false⟩))).result
      = (none, some ⟨"provider unavailable", false⟩) ∧
    ((getRefreshCredToken "cred" 0).run Sim.handler
        (Example.sim Example.staleEntry none (some ⟨"provider unavailable", false⟩)
          (.error ⟨"timeout", false⟩))).events
      = [.readAuthCodeEntry "cred", .lock "cred", .readAuthCodeEntry "cred",
         .getProviderOperations "mock" 0, .unlock "cred"] := by
  decide

theorem refreshCredToken_result_cases {σ : Type} (h : Handler σ) (s : σ)
    (keyer : persistence.AuthCodeKeyer) (d : Duration) :
    (∃ err, ((refreshCredToken keyer d).run h s).result = (none, some err) ∧
      ((∃ s0 s1, h.readAuthCodeEntry keyer s0 = (.error err, s1)) ∨
       (∃ e s0 s1, h.writeAuthCodeEntry keyer e s0 = (some err, s1)) ∨
       (∃ server s0 s1, h.getProviderOperations server d s0 = (some err, s1) ∧
        err.User = false))) ∨
    (((refreshCredToken keyer d).run h s).result.2 = none ∧
      ((∃ s0 s1, h.readAuthCodeEntry keyer s0
          = (.ok ((refreshCredToken keyer d).run h s).result.1, s1)) ∨
       (∃ (c : persistence.AuthCodeEntry) (err : Err) (s0 s1 : σ), h.getProviderOperations c.AuthServerName d s0 = (some err, s1) ∧
          err.User = true ∧
          ((refreshCredToken keyer d).run h s).result.1
            = some (c.SetAuthServerError err.Short)) ∨
       (∃ (c : persistence.AuthCodeEntry) (tok : provider.Token)
          (answer : Except Err provider.Token) (s0 s1 : σ),
          h.refreshToken c.AuthServerName tok tok.ProviderOptions s0 = (answer, s1) ∧
          ((refreshCredToken keyer d).run h s).result.1
            = some (refreshCredToken.record c answer)))) := by
  rcases refreshCredToken_run_cases h s keyer d with
    ⟨found, s1, hrd, _, hrun⟩ | ⟨c, s1, err', s2, _, _, ho, hu, hrun⟩ |
    ⟨c, s1, err', s2, werr, s3, _, _, ho, hu, hw, hrun⟩ |
    ⟨c, s1, s2, tok, answer, s3, werr, s4, _, _, _, _, hf, hw, hrun⟩
  · rw [hrun]
    rcases found with e | x
    · exact Or.inl ⟨e, rfl, Or.inl ⟨_, _, hrd⟩⟩
    · exact Or.inr ⟨rfl, Or.inl ⟨_, _, hrd⟩⟩
  · rw [hrun]
    exact Or.inl ⟨err', rfl, Or.inr (Or.inr ⟨_, _, _, ho, hu⟩)⟩
  · rw [hrun]
    cases werr with
    | none => exact Or.inr ⟨rfl, Or.inr (Or.inl ⟨c, err', _, _, ho, hu, rfl⟩)⟩
    | some e => exact Or.inl ⟨e, rfl, Or.inr (Or.inl ⟨_, _, _, hw⟩)⟩
  · rw [hrun]
    cases werr with
    | none => exact Or.inr ⟨rfl, Or.inr (Or.inr ⟨c, tok, answer, _, _, hf, rfl⟩)⟩
    | some e => exact Or.inl ⟨e, rfl, Or.inr (Or.inl ⟨_, _, _, hw⟩)⟩

/-- C11 (amended): `getRefreshCredToken` returns a non-nil error only when a
storage read failed, a storage write failed, or resolving the server failed
with an error not marked user-caused, and it then returns that error and no
entry.  In every other case the error is nil and the returned entry is what a
read answered, or the candidate with the cause of a user-marked resolution
failure recorded as its auth-server error, or the candidate updated with the
answer of the provider's `RefreshToken` (the new token, or the failure recorded
as user error or transient error). -/
theorem getRefreshCredToken_errors {σ : Type} (h : Handler σ) (s : σ)
    (keyer : persistence.AuthCodeKeyer) (expiryDelta : Duration) :
    (∃ err, ((getRefreshCredToken keyer expiryDelta).run h s).result = (none, some err) ∧
      ((∃ s0 s1, h.readAuthCodeEntry keyer s0 = (.error err, s1)) ∨
       (∃ e s0 s1, h.writeAuthCodeEntry keyer e s0 = (some err, s1)) ∨
       (∃ server s0 s1, h.getProviderOperations server expiryDelta s0 = (some err, s1) ∧
        err.User = false))) ∨
    (((getRefreshCredToken keyer expiryDelta).run h s).result.2 = none ∧
      ((∃ s0 s1, h.readAuthCodeEntry keyer s0
          = (.ok ((getRefreshCredToken keyer expiryDelta).run h s).result.1, s1)) ∨
       (∃ (c : persistence.AuthCodeEntry) (err : Err) (s0 s1 : σ),
          h.getProviderOperations c.AuthServerName expiryDelta s0 = (some err, s1) ∧
          err.User = true ∧
          ((getRefreshCredToken keyer expiryDelta).run h s).result.1
            = some (c.SetAuthServerError err.Short) ∧
          (c.SetAuthServerError err.Short).AuthServerError = err.Short) ∨
       (∃ (c : persistence.AuthCodeEntry) (tok : provider.Token)
          (answer : Except Err provider.Token) (s0 s1 : σ),
          h.refreshToken c.AuthServerName tok tok.ProviderOptions s0 = (answer, s1) ∧
          ((getRefreshCredToken keyer expiryDelta).run h s).result.1
            = some (refreshCredToken.record c answer) ∧
          (∀ err, answer = .error err →
            (if err.User = true then (refreshCredToken.record c answer).UserError
             else (refreshCredToken.record c answer).LastTransientError)
              = "refresh failed: " ++ err.Short)))) := by
  have hrec : ∀ (c : persistence.AuthCodeEntry) (answer : Except Err provider.Token) (err : Err),
      answer = .error err →
      (if err.User = true then (refreshCredToken.record c answer).UserError
       else (refreshCredToken.record c answer).LastTransientError)
        = "refresh failed: " ++ err.Short := by
    intro c answer err ha
    subst ha
    by_cases hu : err.User = true <;>
      simp [refreshCredToken.record, hu, errmapWrap, persistence.AuthCodeEntry.SetUserError,
        persistence.AuthCodeEntry.SetTransientError]
  rcases hrd : h.readAuthCodeEntry keyer s with ⟨found, s0⟩
  rcases found with e | _ | entry
  · rw [getRefreshCredToken_run_readError h s s0 keyer expiryDelta e hrd]
    exact Or.inl ⟨e, rfl, Or.inl ⟨_, _, hrd⟩⟩
  · rw [getRefreshCredToken_run_absent h s s0 keyer expiryDelta hrd]
    exact Or.inr ⟨rfl, Or.inl ⟨_, _, hrd⟩⟩
  · cases hv : (!entry.TokenIssued
        || tokenValid (h.now s0) (entry.Token.map (·.Token)) expiryDelta) with
    | true =>
      rw [getRefreshCredToken_run_fast h s s0 keyer expiryDelta entry hrd hv]
      exact Or.inr ⟨rfl, Or.inl ⟨_, _, hrd⟩⟩
    | false =>
      rw [getRefreshCredToken_run_slow h s s0 keyer expiryDelta entry hrd hv]
      rcases refreshCredToken_result_cases h s0 keyer expiryDelta with
        ⟨err, hres, hsrc⟩ | ⟨hnil, hrd' | ⟨c, err, a, b, ho, hu, hres⟩ |
          ⟨c, tok, answer, a, b, hf, hres⟩⟩
      · exact Or.inl ⟨err, hres, hsrc⟩
      · exact Or.inr ⟨hnil, Or.inl hrd'⟩
      · exact Or.inr ⟨hnil, Or.inr (Or.inl ⟨c, err, a, b, ho, hu, hres, rfl⟩)⟩
      · exact Or.inr ⟨hnil, Or.inr (Or.inr ⟨c, tok, answer, a, b, hf, hres, hrec c answer⟩)⟩

/-! ## The exchanged-token cache -/

theorem mapGet_cons {β : Type} (m : List (String × β)) (k k' : String) (v : β) :
    mapGet ((k', v) :: m) k = if k' = k then some v else mapGet m k := by
  unfold mapGet
  by_cases hk : k' = k
  · simp [hk]
  · have : (k' == k) = false := by simpa using hk
    simp [List.find?_cons, this, hk]

theorem mapGet_filter_other {β : Type} (m : List (String × β)) (key k : String)
    (hk : k ≠ key) : mapGet (m.filter fun kv => kv.1 != key) k = mapGet m k := by
  induction m with
  | nil => rfl
  | cons kv m ih =>
    obtain ⟨k', v⟩ := kv
    by_cases h1 : k' = key
    · have hne : k' ≠ k := fun h => hk (h ▸ h1)
      simp only [List.filter_cons, h1, bne_self_eq_false, Bool.false_eq_true, ↓reduceIte]
      rw [← h1, mapGet_cons, if_neg hne]
      rw [h1]
      exact ih
    · have : (k' != key) = true := by simpa using h1
      simp only [List.filter_cons, this, ↓reduceIte, mapGet_cons, ih]

theorem mapGet_eq_some_mem {β : Type} (m : List (String × β)) (k : String) (v : β)
    (h : mapGet m k = some v) : (k, v) ∈ m := by
  induction m with
  | nil => simp [mapGet] at h
  | cons kv m ih =>
    obtain ⟨k', v'⟩ := kv
    rw [mapGet_cons] at h
    by_cases hk : k' = k
    · simp only [hk, ↓reduceIte, Option.some.injEq] at h
      subst h; subst hk
      exact List.mem_cons_self _ _
    · rw [if_neg hk] at h
      exact List.mem_cons_of_mem _ (ih h)

theorem mapGet_filter_nodup {β : Type} (p : β → Bool) (m : List (String × β)) (k : String)
    (v : β) (hnd : (m.map Prod.fst).Nodup) :
    mapGet (m.filter fun kv => p kv.2) k = some v ↔ mapGet m k = some v ∧ p v = true := by
  induction m generalizing v with
  | nil => simp [mapGet]
  | cons kv m ih =>
    obtain ⟨k', v'⟩ := kv
    simp only [List.map_cons, List.nodup_cons] at hnd
    obtain ⟨hnot, hnd⟩ := hnd
    by_cases hk : k' = k
    · subst hk
      have hnone : ∀ w, mapGet m k' ≠ some w := by
        intro w hw
        exact hnot (List.mem_map_of_mem Prod.fst (mapGet_eq_some_mem m k' w hw))
      have hnone' : ∀ w, mapGet (m.filter fun kv => p kv.2) k' ≠ some w := by
        intro w hw
        exact hnone w ((ih w hnd).mp hw).1
      cases hp : p v' with
      | true =>
        simp only [List.filter_cons, hp, ↓reduceIte, mapGet_cons, Option.some.injEq]
        constructor
        · rintro rfl
          exact ⟨rfl, hp⟩
        · rintro ⟨rfl, _⟩
          rfl
      | false =>
        simp only [List.filter_cons, hp, Bool.false_eq_true, ↓reduceIte, mapGet_cons,
          Option.some.injEq]
        constructor
        · intro hw
          exact absurd hw (hnone' v)
        · rintro ⟨rfl, hv⟩
          rw [hp] at hv
          exact absurd hv (by simp)
    · cases hp : p v' with
      | true =>
        simp only [List.filter_cons, hp, ↓reduceIte, mapGet_cons, if_neg hk]
        exact ih v hnd
      | false =>
        simp only [List.filter_cons, hp, Bool.false_eq_true, ↓reduceIte, mapGet_cons,
          if_neg hk]
        exact ih v hnd

theorem storeExchangedToken_run_readError {σ : Type} (h : Handler σ) (s s1 : σ)
    (keyer : persistence.AuthCodeKeyer) (key : String) (tok : oauth2.Token) (err : Err)
    (hr : h.readAuthCodeEntry keyer (h.lock keyer s) = (.error err, s1)) :
    (storeExchangedToken keyer key tok).run h s
      = ⟨some err, h.unlock keyer s1,
          [.lock keyer, .readAuthCodeEntry keyer, .unlock keyer]⟩ := by
  simp only [storeExchangedToken, Prog.run, Outcome.after, hr]

theorem storeExchangedToken_run_absent {σ : Type} (h : Handler σ) (s s1 : σ)
    (keyer : persistence.AuthCodeKeyer) (key : String) (tok : oauth2.Token)
    (hr : h.readAuthCodeEntry keyer (h.lock keyer s) = (.ok none, s1)) :
    (storeExchangedToken keyer key tok).run h s
      = ⟨none, h.unlock keyer s1,
          [.lock keyer, .readAuthCodeEntry keyer, .unlock keyer]⟩ := by
  simp only [storeExchangedToken, Prog.run, Outcome.after, hr]

theorem storeExchangedToken_run_written {σ : Type} (h : Handler σ) (s s1 s2 : σ)
    (keyer : persistence.AuthCodeKeyer) (key : String) (tok : oauth2.Token)
    (entry : persistence.AuthCodeEntry) (werr : Option Err)
    (hr : h.readAuthCodeEntry keyer (h.lock keyer s) = (.ok (some entry), s1))
    (hw : h.writeAuthCodeEntry keyer (storeExchangedToken.updated (h.now s1) key tok entry) s1
      = (werr, s2)) :
    (storeExchangedToken keyer key tok).run h s
      = ⟨werr, h.unlock keyer s2,
          [.lock keyer, .readAuthCodeEntry keyer,
           .writeAuthCodeEntry keyer (storeExchangedToken.updated (h.now s1) key tok entry),
           .unlock keyer]⟩ := by
  unfold storeExchangedToken.updated at hw
  simp only [storeExchangedToken, Prog.run, Outcome.after, hr, hw,
    storeExchangedToken.updated]

/-- C17: after `storeExchangedToken` has succeeded on an existing entry, the
written entry maps the exchange key to the new token; every other signature is
bound afterwards exactly when it was bound before to a token valid under the
default delta of 10 seconds at the clock reading, and then to the same token;
and no field other than the exchanged-token cache differs from the entry that
was read.  The cache, a Go map, has one binding per key. -/
theorem storeExchangedToken_sweep {σ : Type} (h : Handler σ) (s s1 s2 : σ)
    (keyer : persistence.AuthCodeKeyer) (exchangeKey : String) (tok : oauth2.Token)
    (entry : persistence.AuthCodeEntry)
    (hread : h.readAuthCodeEntry keyer (h.lock keyer s) = (.ok (some entry), s1))
    (hwrite : h.writeAuthCodeEntry keyer
      (storeExchangedToken.updated (h.now s1) exchangeKey tok entry) s1 = (none, s2))
    (hkeys : (entry.ExchangedTokens.map Prod.fst).Nodup) :
    (storeExchangedToken keyer exchangeKey tok).run h s
      = ⟨none, h.unlock keyer s2,
          [.lock keyer, .readAuthCodeEntry keyer,
           .writeAuthCodeEntry keyer
             (storeExchangedToken.updated (h.now s1) exchangeKey tok entry),
           .unlock keyer]⟩ ∧
    mapGet (storeExchangedToken.updated (h.now s1) exchangeKey tok entry).ExchangedTokens
      exchangeKey = some (some tok) ∧
    (∀ k v, k ≠ exchangeKey →
      (mapGet (storeExchangedToken.updated (h.now s1) exchangeKey tok entry).ExchangedTokens k
          = some v ↔
        mapGet entry.ExchangedTokens k = some v ∧
          tokenValid (h.now s1) v (10 * Second) = true)) ∧
    { storeExchangedToken.updated (h.now s1) exchangeKey tok entry with
        ExchangedTokens := entry.ExchangedTokens } = entry := by
  refine ⟨storeExchangedToken_run_written h s s1 s2 keyer exchangeKey tok entry none hread
    hwrite, mapGet_mapSet_self _ _ _, ?_, rfl⟩
  intro k v hk
  have hne : exchangeKey ≠ k := fun e => hk e.symm
  show mapGet (mapSet _ exchangeKey (some tok)) k = some v ↔ _
  unfold mapSet
  rw [mapGet_cons, if_neg hne, mapGet_filter_other _ _ _ hk]
  exact mapGet_filter_nodup (fun t => tokenValid (h.now s1) t defaultExpiryDelta)
    entry.ExchangedTokens k v hkeys

/-! ## Runs of the token-exchange read -/

theorem Prog.run_ret {σ α : Type} (h : Handler σ) (a : α) (s : σ) :
    (Prog.ret a).run h s = ⟨a, s, []⟩ := rfl

theorem Prog.run_now {σ α : Type} (h : Handler σ) (k : Time → Prog α) (s : σ) :
    (Prog.now k).run h s = (k (h.now s)).run h s := rfl

theorem Prog.run_put {σ α : Type} (h : Handler σ) (server : String) (p : Prog α) (s : σ) :
    (Prog.put server p).run h s = (p.run h (h.put server s)).after (.put server) := rfl

theorem Prog.run_getProviderOperations {σ α : Type} (h : Handler σ) (server : String)
    (d : Duration) (k : Option Err → Prog α) (s : σ) :
    (Prog.getProviderOperations server d k).run h s
      = ((k (h.getProviderOperations server d s).1).run h
          (h.getProviderOperations server d s).2).after (.getProviderOperations server d) :=
  rfl

theorem Prog.run_tokenExchange {σ α : Type} (h : Handler σ) (server : String)
    (t : provider.Token) (sc au re : List String) (o : List (String × String))
    (k : Except Err provider.Token → Prog α) (s : σ) :
    (Prog.tokenExchange server t sc au re o k).run h s
      = ((k (h.tokenExchange server t sc au re o s).1).run h
          (h.tokenExchange server t sc au re o s).2).after
          (.tokenExchange server t sc au re o) :=
  rfl

theorem stsReadOperation_run_failed {σ : Type} (h : Handler σ) (quote : String → String)
    (tokenType : oauth2.Token → String) (s s1 : σ) (name : String) (minimum_seconds : Int)
    (scopes audiences resources : List String) (x : Option persistence.AuthCodeEntry)
    (err : Err) (events : List Event)
    (hrun : (getRefreshCredToken (persistence.AuthCodeName name)
      (wrap64 (minimum_seconds * Second))).run h s = ⟨(x, some err), s1, events⟩) :
    (stsReadOperation quote tokenType name minimum_seconds scopes audiences resources).run h s
      = ⟨(none, some err), s1, events⟩ := by
  unfold stsReadOperation
  simp only [Prog.run_bind, hrun]
  simp only [Prog.run, List.append_nil]

theorem stsReadOperation_run_absent {σ : Type} (h : Handler σ) (quote : String → String)
    (tokenType : oauth2.Token → String) (s s1 : σ) (name : String) (minimum_seconds : Int)
    (scopes audiences resources : List String) (events : List Event)
    (hrun : (getRefreshCredToken (persistence.AuthCodeName name)
      (wrap64 (minimum_seconds * Second))).run h s = ⟨(none, none), s1, events⟩) :
    (stsReadOperation quote tokenType name minimum_seconds scopes audiences resources).run h s
      = ⟨(none, none), s1, events⟩ := by
  unfold stsReadOperation
  simp only [Prog.run_bind, hrun]
  simp only [Prog.run, List.append_nil]

theorem stsReadOperation_run_pending {σ : Type} (h : Handler σ) (quote : String → String)
    (tokenType : oauth2.Token → String) (s s1 : σ) (name : String) (minimum_seconds : Int)
    (scopes audiences resources : List String) (entry : persistence.AuthCodeEntry)
    (events : List Event)
    (hrun : (getRefreshCredToken (persistence.AuthCodeName name)
      (wrap64 (minimum_seconds * Second))).run h s = ⟨(some entry, none), s1, events⟩)
    (hissued : entry.TokenIssued = false) :
    (stsReadOperation quote tokenType name minimum_seconds scopes audiences resources).run h s
      = ⟨(some (.error (stsReadOperation.problem quote entry "token pending issuance")), none),
          s1, events⟩ := by
  unfold stsReadOperation stsReadOperation.problem
  simp only [Prog.run_bind, hrun]
  simp only [hissued, Bool.not_false, ↓reduceIte]
  by_cases hA : (entry.AuthServerError != "") = true
  · simp only [hA, ↓reduceIte, Prog.run, List.append_nil]
  · by_cases hU : (entry.UserError != "") = true
    · simp only [hA, hU, Bool.false_eq_true, ↓reduceIte, Prog.run, List.append_nil]
    · simp only [hA, hU, Bool.false_eq_true, ↓reduceIte, Prog.run, List.append_nil]

theorem stsReadOperation_run_expired {σ : Type} (h : Handler σ) (quote : String → String)
    (tokenType : oauth2.Token → String) (s s1 : σ) (name : String) (minimum_seconds : Int)
    (scopes audiences resources : List String) (entry : persistence.AuthCodeEntry)
    (events : List Event)
    (hrun : (getRefreshCredToken (persistence.AuthCodeName name)
      (wrap64 (minimum_seconds * Second))).run h s = ⟨(some entry, none), s1, events⟩)
    (hissued : entry.TokenIssued = true)
    (hinvalid : tokenValid (h.now s1) (entry.Token.map (·.Token))
      (wrap64 (minimum_seconds * Second)) = false) :
    (stsReadOperation quote tokenType name minimum_seconds scopes audiences resources).run h s
      = ⟨(some (.error (stsReadOperation.problem quote entry "token expired")), none),
          s1, events⟩ := by
  unfold stsReadOperation stsReadOperation.problem
  simp only [Prog.run_bind, hrun]
  simp only [hissued, Bool.not_true, Bool.false_eq_true, ↓reduceIte,
    Prog.run, hinvalid, Bool.not_false]
  by_cases hA : (entry.AuthServerError != "") = true
  · simp only [hA, ↓reduceIte, Prog.run, List.append_nil]
  · by_cases hU : (entry.UserError != "") = true
    · simp only [hA, hU, Bool.false_eq_true, ↓reduceIte, Prog.run, List.append_nil]
    · simp only [hA, hU, Bool.false_eq_true, ↓reduceIte, Prog.run, List.append_nil]

theorem stsReadOperation_run_exchange {σ : Type} (h : Handler σ) (quote : String → String)
    (tokenType : oauth2.Token → String) (s s1 : σ) (name : String) (minimum_seconds : Int)
    (scopes audiences resources : List String) (entry : persistence.AuthCodeEntry)
    (base : provider.Token) (events : List Event)
    (hrun : (getRefreshCredToken (persistence.AuthCodeName name)
      (wrap64 (minimum_seconds * Second))).run h s = ⟨(some entry, none), s1, events⟩)
    (hbase : entry.Token = some base)
    (hvalid : tokenValid (h.now s1) (some base.Token) (wrap64 (minimum_seconds * Second))
      = true) :
    (stsReadOperation quote tokenType name minimum_seconds scopes audiences resources).run h s
      = ⟨((stsReadOperation.exchange quote tokenType (persistence.AuthCodeName name)
            (wrap64 (minimum_seconds * Second)) scopes audiences resources entry base).run h
            s1).result,
         ((stsReadOperation.exchange quote tokenType (persistence.AuthCodeName name)
            (wrap64 (minimum_seconds * Second)) scopes audiences resources entry base).run h
            s1).state,
         events ++ ((stsReadOperation.exchange quote tokenType (persistence.AuthCodeName name)
            (wrap64 (minimum_seconds * Second)) scopes audiences resources entry base).run h
            s1).events⟩ := by
  have hissued : entry.TokenIssued = true := by
    unfold persistence.AuthCodeEntry.TokenIssued
    rw [hbase]
    simp only [tokenValid, Bool.and_eq_true] at hvalid
    exact hvalid.1
  have hvalid' : tokenValid (h.now s1) (entry.Token.map (·.Token))
      (wrap64 (minimum_seconds * Second)) = true := by
    rw [hbase]; exact hvalid
  unfold stsReadOperation
  simp only [Prog.run_bind, hrun]
  simp only [hissued, Bool.not_true, Bool.false_eq_true, ↓reduceIte, Prog.run_now, hvalid',
    Bool.not_false]
  simp only [hbase]

theorem exchange_run_hit {σ : Type} (h : Handler σ) (quote : String → String)
    (tokenType : oauth2.Token → String) (s : σ) (keyer : persistence.AuthCodeKeyer)
    (d : Duration) (scopes audiences resources : List String)
    (entry : persistence.AuthCodeEntry) (base : provider.Token) (tok : oauth2.Token)
    (hget : mapGet entry.ExchangedTokens
      (stsReadOperation.exchangeKey scopes audiences resources) = some (some tok))
    (hvalid : tokenValid (h.now s) (some tok) d = true) :
    (stsReadOperation.exchange quote tokenType keyer d scopes audiences resources entry
        base).run h s
      = ⟨stsReadOperation.respond tokenType tok, s, []⟩ := by
  unfold stsReadOperation.exchangeKey at hget
  simp only [stsReadOperation.exchange, Prog.run_now, hget, hvalid, ↓reduceIte,
    stsReadOperation.respond, Prog.run_ret]

theorem exchange_run_miss {σ : Type} (h : Handler σ) (quote : String → String)
    (tokenType : oauth2.Token → String) (s : σ) (keyer : persistence.AuthCodeKeyer)
    (d : Duration) (scopes audiences resources : List String)
    (entry : persistence.AuthCodeEntry) (base : provider.Token)
    (hmiss : ∀ tok, mapGet entry.ExchangedTokens
        (stsReadOperation.exchangeKey scopes audiences resources) = some (some tok) →
      tokenValid (h.now s) (some tok) d = false) :
    (stsReadOperation.exchange quote tokenType keyer d scopes audiences resources entry
        base).run h s
      = (stsReadOperation.fetch quote tokenType keyer d scopes audiences resources
          (stsReadOperation.exchangeKey scopes audiences resources) entry base).run h s := by
  unfold stsReadOperation.exchangeKey at hmiss ⊢
  simp only [stsReadOperation.exchange, Prog.run_now]
  rcases hg : mapGet entry.ExchangedTokens ("scopes=" ++ " ".intercalate scopes ++
      ",audiences=" ++ " ".intercalate audiences ++
      ",resources=" ++ " ".intercalate resources) with _ | _ | tok
  · rfl
  · rfl
  · simp only [hmiss tok hg, Bool.false_eq_true, ↓reduceIte]

theorem fetch_run_serverFailed {σ : Type} (h : Handler σ) (quote : String → String)
    (tokenType : oauth2.Token → String) (s s1 : σ) (keyer : persistence.AuthCodeKeyer)
    (d : Duration) (scopes audiences resources : List String) (key : String)
    (entry : persistence.AuthCodeEntry) (base : provider.Token) (err : Err)
    (ho : h.getProviderOperations entry.AuthServerName defaultExpiryDelta s = (some err, s1)) :
    (stsReadOperation.fetch quote tokenType keyer d scopes audiences resources key entry
        base).run h s
      = ⟨(if err.User = true then
            (some (.error (serverProblems quote entry.AuthServerName err.Short)), none)
          else (none, some err)), s1,
          [.getProviderOperations entry.AuthServerName defaultExpiryDelta]⟩ := by
  simp only [stsReadOperation.fetch, Prog.run_getProviderOperations, ho]
  by_cases hu : err.User = true
  · simp only [hu, ↓reduceIte, Prog.run_ret, Outcome.after]
  · simp only [hu, Bool.false_eq_true, ↓reduceIte, Prog.run_ret, Outcome.after]

theorem fetch_run_exchangeFailed {σ : Type} (h : Handler σ) (quote : String → String)
    (tokenType : oauth2.Token → String) (s s1 s2 : σ) (keyer : persistence.AuthCodeKeyer)
    (d : Duration) (scopes audiences resources : List String) (key : String)
    (entry : persistence.AuthCodeEntry) (base : provider.Token) (err : Err)
    (ho : h.getProviderOperations entry.AuthServerName defaultExpiryDelta s = (none, s1))
    (hx : h.tokenExchange entry.AuthServerName base scopes audiences resources
      base.ProviderOptions s1 = (.error err, s2)) :
    (stsReadOperation.fetch quote tokenType keyer d scopes audiences resources key entry
        base).run h s
      = ⟨(if err.User = true then
            (some (.error ("exchange failed: " ++ err.Short)), none)
          else (none, some err)), h.put entry.AuthServerName s2,
          [.getProviderOperations entry.AuthServerName defaultExpiryDelta,
           .tokenExchange entry.AuthServerName base scopes audiences resources
             base.ProviderOptions,
           .put entry.AuthServerName]⟩ := by
  simp only [stsReadOperation.fetch, Prog.run_getProviderOperations, ho,
    Prog.run_tokenExchange, hx]
  by_cases hu : err.User = true
  · simp only [hu, ↓reduceIte, Prog.run_put, Prog.run_ret, Outcome.after, errmapWrap]
    rfl
  · simp only [hu, Bool.false_eq_true, ↓reduceIte, Prog.run_put, Prog.run_ret, Outcome.after]

theorem fetch_run_expired {σ : Type} (h : Handler σ) (quote : String → String)
    (tokenType : oauth2.Token → String) (s s1 s2 : σ) (keyer : persistence.AuthCodeKeyer)
    (d : Duration) (scopes audiences resources : List String) (key : String)
    (entry : persistence.AuthCodeEntry) (base x : provider.Token)
    (ho : h.getProviderOperations entry.AuthServerName defaultExpiryDelta s = (none, s1))
    (hx : h.tokenExchange entry.AuthServerName base scopes audiences resources
      base.ProviderOptions s1 = (.ok x, s2))
    (hinvalid : tokenValid (h.now s2) (some x.Token) d = false) :
    (stsReadOperation.fetch quote tokenType keyer d scopes audiences resources key entry
        base).run h s
      = ⟨(some (.error "token expired"), none), h.put entry.AuthServerName s2,
          [.getProviderOperations entry.AuthServerName defaultExpiryDelta,
           .tokenExchange entry.AuthServerName base scopes audiences resources
             base.ProviderOptions,
           .put entry.AuthServerName]⟩ := by
  simp only [stsReadOperation.fetch, Prog.run_getProviderOperations, ho,
    Prog.run_tokenExchange, hx, Prog.run_now, hinvalid, Bool.not_false, ↓reduceIte,
    Prog.run_put, Prog.run_ret, Outcome.after]

theorem fetch_run_uncached {σ : Type} (h : Handler σ) (quote : String → String)
    (tokenType : oauth2.Token → String) (s s1 s2 : σ) (keyer : persistence.AuthCodeKeyer)
    (d : Duration) (scopes audiences resources : List String) (key : String)
    (entry : persistence.AuthCodeEntry) (base x : provider.Token)
    (ho : h.getProviderOperations entry.AuthServerName defaultExpiryDelta s = (none, s1))
    (hx : h.tokenExchange entry.AuthServerName base scopes audiences resources
      base.ProviderOptions s1 = (.ok x, s2))
    (hvalid : tokenValid (h.now s2) (some x.Token) d = true)
    (hzero : x.Token.Expiry = 0) :
    (stsReadOperation.fetch quote tokenType keyer d scopes audiences resources key entry
        base).run h s
      = ⟨stsReadOperation.respond tokenType (stsReadOperation.cached x),
          h.put entry.AuthServerName s2,
          [.getProviderOperations entry.AuthServerName defaultExpiryDelta,
           .tokenExchange entry.AuthServerName base scopes audiences resources
             base.ProviderOptions,
           .put entry.AuthServerName]⟩ := by
  have hz : Time.IsZero x.Token.Expiry = true := by simp [Time.IsZero, hzero]
  simp only [stsReadOperation.fetch, Prog.run_getProviderOperations, ho,
    Prog.run_tokenExchange, hx, Prog.run_now, hvalid, Bool.not_true, Bool.false_eq_true,
    ↓reduceIte, hz, Prog.run_put, Prog.run_ret, Outcome.after, stsReadOperation.respond,
    stsReadOperation.cached]

theorem fetch_run_cached {σ : Type} (h : Handler σ) (quote : String → String)
    (tokenType : oauth2.Token → String) (s s1 s2 : σ) (keyer : persistence.AuthCodeKeyer)
    (d : Duration) (scopes audiences resources : List String) (key : String)
    (entry : persistence.AuthCodeEntry) (base x : provider.Token)
    (ho : h.getProviderOperations entry.AuthServerName defaultExpiryDelta s = (none, s1))
    (hx : h.tokenExchange entry.AuthServerName base scopes audiences resources
      base.ProviderOptions s1 = (.ok x, s2))
    (hvalid : tokenValid (h.now s2) (some x.Token) d = true)
    (hnonzero : x.Token.Expiry ≠ 0) :
    (stsReadOperation.fetch quote tokenType keyer d scopes audiences resources key entry
        base).run h s
      = ⟨(match ((storeExchangedToken keyer key (stsReadOperation.cached x)).run h s2).result
            with
          | some err => (none, some err)
          | none => stsReadOperation.respond tokenType (stsReadOperation.cached x)),
          h.put entry.AuthServerName
            ((storeExchangedToken keyer key (stsReadOperation.cached x)).run h s2).state,
          [.getProviderOperations entry.AuthServerName defaultExpiryDelta,
           .tokenExchange entry.AuthServerName base scopes audiences resources
             base.ProviderOptions] ++
          ((storeExchangedToken keyer key (stsReadOperation.cached x)).run h s2).events ++
          [.put entry.AuthServerName]⟩ := by
  have hz : Time.IsZero x.Token.Expiry = false := by simp [Time.IsZero, hnonzero]
  simp only [stsReadOperation.fetch, Prog.run_getProviderOperations, ho,
    Prog.run_tokenExchange, hx, Prog.run_now, hvalid, Bool.not_true, Bool.false_eq_true,
    ↓reduceIte, hz, Bool.not_false, Prog.run_bind, Outcome.after, stsReadOperation.respond,
    stsReadOperation.cached]
  cases ((storeExchangedToken keyer key
      { AccessToken := x.Token.AccessToken, TokenType := x.Token.TokenType, RefreshToken := "",
        Expiry := x.Token.Expiry }).run h s2).result with
  | none => simp only [Prog.run_put, Prog.run_ret, Outcome.after, List.cons_append,
      List.nil_append, List.append_assoc]
  | some err => simp only [Prog.run_put, Prog.run_ret, Outcome.after, List.cons_append,
      List.nil_append, List.append_assoc]

/-! ## Caching of exchanged tokens -/

/-- C16 (as stated, refuted): the provider's `TokenExchange` succeeds with a
token of non-zero expiry, 100 seconds ahead, while 200 seconds are requested;
`stsReadOperation` answers `token expired` and performs no storage write, so
the token is not stored. -/
theorem stsReadOperation_caching_counterexample :
    (Example.token "exchanged" "" (Example.t0 + 2 * Minute + 100 * Second)).Token.Expiry ≠ 0 ∧
    ((stsReadOperation Example.quote Example.tokenType "cred" 200 ["a"] [] []).run Sim.handler
        (Example.exchangeSim (Example.t0 + 2 * Minute) Example.validEntry
          (.error ⟨"timeout", false⟩)
          (.ok (Example.token "exchanged" "" (Example.t0 + 2 * Minute + 100 * Second))))).result
      = (some (.error "token expired"), none) ∧
    ((stsReadOperation Example.quote Example.tokenType "cred" 200 ["a"] [] []).run Sim.handler
        (Example.exchangeSim (Example.t0 + 2 * Minute) Example.validEntry
          (.error ⟨"timeout", false⟩)
          (.ok (Example.token "exchanged" "" (Example.t0 + 2 * Minute + 100 * Second))))).events
      = [.readAuthCodeEntry "cred", .getProviderOperations "mock" (10 * Second),
         .tokenExchange "mock" (Example.token "tok" "refresh" (Example.t0 + 60 * Minute))
           ["a"] [] [] [],
         .put "mock"] := by
  decide

/-- C16 (amended): after a successful provider `TokenExchange`,
`stsReadOperation` answers `token expired` and stores nothing when the new
token is not valid for the requested minimum; when it is valid, it calls
`storeExchangedToken` with the new token if and only if the expiry of the token
is non-zero: for a zero expiry it performs no storage write and returns the
token without `expire_time`, for a non-zero expiry it returns the token with
`expire_time` once the store has succeeded, and the error of the store
otherwise. -/
theorem stsReadOperation_caching {σ : Type} (h : Handler σ) (quote : String → String)
    (tokenType : oauth2.Token → String) (s s1 s2 s3 : σ) (name : String)
    (minimum_seconds : Int) (scopes audiences resources : List String)
    (entry : persistence.AuthCodeEntry) (base x : provider.Token) (events : List Event)
    (hrefresh : (getRefreshCredToken (persistence.AuthCodeName name)
      (wrap64 (minimum_seconds * Second))).run h s = ⟨(some entry, none), s1, events⟩)
    (hbase : entry.Token = some base)
    (hvalid : tokenValid (h.now s1) (some base.Token) (wrap64 (minimum_seconds * Second))
      = true)
    (hmiss : ∀ tok, mapGet entry.ExchangedTokens
        (stsReadOperation.exchangeKey scopes audiences resources) = some (some tok) →
      tokenValid (h.now s1) (some tok) (wrap64 (minimum_seconds * Second)) = false)
    (hops : h.getProviderOperations entry.AuthServerName defaultExpiryDelta s1 = (none, s2))
    (hexchange : h.tokenExchange entry.AuthServerName base scopes audiences resources
      base.ProviderOptions s2 = (.ok x, s3)) :
    (tokenValid (h.now s3) (some x.Token) (wrap64 (minimum_seconds * Second)) = false →
      (stsReadOperation quote tokenType name minimum_seconds scopes audiences resources).run h s
        = ⟨(some (.error "token expired"), none), h.put entry.AuthServerName s3,
            events ++ [.getProviderOperations entry.AuthServerName defaultExpiryDelta,
              .tokenExchange entry.AuthServerName base scopes audiences resources
                base.ProviderOptions,
              .put entry.AuthServerName]⟩) ∧
    (tokenValid (h.now s3) (some x.Token) (wrap64 (minimum_seconds * Second)) = true →
      x.Token.Expiry = 0 →
      (stsReadOperation quote tokenType name minimum_seconds scopes audiences resources).run h s
        = ⟨(some (.data x.Token.AccessToken (tokenType (stsReadOperation.cached x)) none), none),
            h.put entry.AuthServerName s3,
            events ++ [.getProviderOperations entry.AuthServerName defaultExpiryDelta,
              .tokenExchange entry.AuthServerName base scopes audiences resources
                base.ProviderOptions,
              .put entry.AuthServerName]⟩) ∧
    (tokenValid (h.now s3) (some x.Token) (wrap64 (minimum_seconds * Second)) = true →
      x.Token.Expiry ≠ 0 →
      (stsReadOperation quote tokenType name minimum_seconds scopes audiences resources).run h s
        = ⟨(match ((storeExchangedToken (persistence.AuthCodeName name)
                (stsReadOperation.exchangeKey scopes audiences resources)
                (stsReadOperation.cached x)).run h s3).result with
            | some err => (none, some err)
            | none =>
              (some (.data x.Token.AccessToken (tokenType (stsReadOperation.cached x))
                (some x.Token.Expiry)), none)),
            h.put entry.AuthServerName
              ((storeExchangedToken (persistence.AuthCodeName name)
                (stsReadOperation.exchangeKey scopes audiences resources)
                (stsReadOperation.cached x)).run h s3).state,
            events ++ ([.getProviderOperations entry.AuthServerName defaultExpiryDelta,
              .tokenExchange entry.AuthServerName base scopes audiences resources
                base.ProviderOptions] ++
              ((storeExchangedToken (persistence.AuthCodeName name)
                (stsReadOperation.exchangeKey scopes audiences resources)
                (stsReadOperation.cached x)).run h s3).events ++
              [.put entry.AuthServerName])⟩) := by
  have hsts := stsReadOperation_run_exchange h quote tokenType s s1 name minimum_seconds scopes
    audiences resources entry base events hrefresh hbase hvalid
  rw [exchange_run_miss h quote tokenType s1 _ _ scopes audiences resources entry base hmiss]
    at hsts
  refine ⟨fun hinvalid => ?_, fun hv hzero => ?_, fun hv hnonzero => ?_⟩
  · rw [hsts, fetch_run_expired h quote tokenType s1 s2 s3 _ _ scopes audiences resources _
      entry base x hops hexchange hinvalid]
  · rw [hsts, fetch_run_uncached h quote tokenType s1 s2 s3 _ _ scopes audiences resources _
      entry base x hops hexchange hv hzero]
    have hz : Time.IsZero (stsReadOperation.cached x).Expiry = true := by
      simp [Time.IsZero, stsReadOperation.cached, hzero]
    simp only [stsReadOperation.respond, hz, ↓reduceIte]
    rfl
  · rw [hsts, fetch_run_cached h quote tokenType s1 s2 s3 _ _ scopes audiences resources _
      entry base x hops hexchange hv hnonzero]
    have hz : Time.IsZero (stsReadOperation.cached x).Expiry = false := by
      simp [Time.IsZero, stsReadOperation.cached, hnonzero]
    simp only [stsReadOperation.respond, hz, Bool.false_eq_true, ↓reduceIte]
    rfl

/-- C16 (amended) at a concrete input: an exchanged token expiring in five
minutes is returned with its `expire_time` and stored under the signature of
the request. -/
theorem stsReadOperation_caching_witness :
    (stsReadOperation Example.quote Example.tokenType "cred" 0 ["a"] [] []).run Sim.handler
        (Example.exchangeSim (Example.t0 + 2 * Minute) Example.validEntry
          (.error ⟨"timeout", false⟩)
          (.ok (Example.token "exchanged" "" (Example.t0 + 7 * Minute))))
      = ⟨(some (.data "exchanged" "Bearer" (some (Example.t0 + 7 * Minute))), none),
          Example.exchangeSim (Example.t0 + 2 * Minute)
            (storeExchangedToken.updated (Example.t0 + 2 * Minute)
              "scopes=a,audiences=,resources="
              (stsReadOperation.cached (Example.token "exchanged" "" (Example.t0 + 7 * Minute)))
              Example.validEntry)
            (.error ⟨"timeout", false⟩)
            (.ok (Example.token "exchanged" "" (Example.t0 + 7 * Minute))),
          [.readAuthCodeEntry "cred", .getProviderOperations "mock" (10 * Second),
           .tokenExchange "mock" (Example.token "tok" "refresh" (Example.t0 + 60 * Minute))
             ["a"] [] [] [],
           .lock "cred", .readAuthCodeEntry "cred",
           .writeAuthCodeEntry "cred"
             (storeExchangedToken.updated (Example.t0 + 2 * Minute)
               "scopes=a,audiences=,resources="
               (stsReadOperation.cached
                 (Example.token "exchanged" "" (Example.t0 + 7 * Minute)))
               Example.validEntry),
           .unlock "cred", .put "mock"]⟩ :=
  (stsReadOperation_caching Sim.handler Example.quote Example.tokenType
    (Example.exchangeSim (Example.t0 + 2 * Minute) Example.validEntry
      (.error ⟨"timeout", false⟩)
      (.ok (Example.token "exchanged" "" (Example.t0 + 7 * Minute)))) _ _ _ "cred" 0 ["a"] [] []
    Example.validEntry (Example.token "tok" "refresh" (Example.t0 + 60 * Minute))
    (Example.token "exchanged" "" (Example.t0 + 7 * Minute)) [.readAuthCodeEntry "cred"]
    rfl rfl (by decide) (fun tok hget => by cases hget) rfl rfl).2.2 (by decide) (by decide)

/-! ## The guard of the token exchange -/

theorem record_exchangedTokens (c : persistence.AuthCodeEntry)
    (answer : Except Err provider.Token) :
    (refreshCredToken.record c answer).ExchangedTokens = c.ExchangedTokens := by
  unfold refreshCredToken.record
  cases answer with
  | error err =>
    by_cases hu : err.User = true <;>
      simp [hu, persistence.AuthCodeEntry.SetUserError,
        persistence.AuthCodeEntry.SetTransientError]
  | ok t => rfl

theorem refreshCredToken_events {σ : Type} (h : Handler σ) (s : σ)
    (keyer : persistence.AuthCodeKeyer) (d : Duration) :
    ((refreshCredToken keyer d).run h s).events.countP Event.isTokenExchange = 0 ∧
    (∀ k e, Event.writeAuthCodeEntry k e ∈ ((refreshCredToken keyer d).run h s).events →
      ∃ c s0 s1, h.readAuthCodeEntry k s0 = (.ok (some c), s1) ∧
        e.ExchangedTokens = c.ExchangedTokens) := by
  rcases refreshCredToken_run_cases h s keyer d with
    ⟨found, s1, _, _, hrun⟩ | ⟨c, s1, err, s2, _, _, _, _, hrun⟩ |
    ⟨c, s1, err, s2, werr, s3, hrd, _, _, _, _, hrun⟩ |
    ⟨c, s1, s2, tok, answer, s3, werr, s4, hrd, _, _, _, _, _, hrun⟩
  · rw [hrun]
    refine ⟨by simp [List.countP_cons, Event.isTokenExchange], ?_⟩
    intro k e he
    simp at he
  · rw [hrun]
    refine ⟨by simp [List.countP_cons, Event.isTokenExchange], ?_⟩
    intro k e he
    simp at he
  · rw [hrun]
    refine ⟨by simp [List.countP_cons, Event.isTokenExchange], ?_⟩
    intro k e he
    simp only [List.mem_cons, reduceCtorEq, Event.writeAuthCodeEntry.injEq, List.mem_singleton,
      List.not_mem_nil, or_false, false_or] at he
    obtain ⟨rfl, rfl⟩ := he
    exact ⟨c, _, _, hrd, rfl⟩
  · rw [hrun]
    refine ⟨by simp [List.countP_cons, Event.isTokenExchange], ?_⟩
    intro k e he
    simp only [List.mem_cons, reduceCtorEq, Event.writeAuthCodeEntry.injEq, List.mem_singleton,
      List.not_mem_nil, or_false, false_or] at he
    obtain ⟨rfl, rfl⟩ := he
    exact ⟨c, _, _, hrd, record_exchangedTokens c answer⟩

theorem getRefreshCredToken_events {σ : Type} (h : Handler σ) (s : σ)
    (keyer : persistence.AuthCodeKeyer) (d : Duration) :
    ((getRefreshCredToken keyer d).run h s).events.countP Event.isTokenExchange = 0 ∧
    (∀ k e, Event.writeAuthCodeEntry k e ∈ ((getRefreshCredToken keyer d).run h s).events →
      ∃ c s0 s1, h.readAuthCodeEntry k s0 = (.ok (some c), s1) ∧
        e.ExchangedTokens = c.ExchangedTokens) := by
  rcases hrd : h.readAuthCodeEntry keyer s with ⟨found, s0⟩
  rcases found with e | _ | entry
  · rw [getRefreshCredToken_run_readError h s s0 keyer d e hrd]
    exact ⟨by simp [List.countP_cons, Event.isTokenExchange], by simp⟩
  · rw [getRefreshCredToken_run_absent h s s0 keyer d hrd]
    exact ⟨by simp [List.countP_cons, Event.isTokenExchange], by simp⟩
  · cases hv : (!entry.TokenIssued || tokenValid (h.now s0) (entry.Token.map (·.Token)) d) with
    | true =>
      rw [getRefreshCredToken_run_fast h s s0 keyer d entry hrd hv]
      exact ⟨by simp [List.countP_cons, Event.isTokenExchange], by simp⟩
    | false =>
      rw [getRefreshCredToken_run_slow h s s0 keyer d entry hrd hv]
      obtain ⟨h1, h2⟩ := refreshCredToken_events h s0 keyer d
      refine ⟨?_, ?_⟩
      · simp only [Outcome.after, List.countP_cons, h1, Event.isTokenExchange]
        simp
      · intro k e he
        simp only [Outcome.after, List.mem_cons, reduceCtorEq, false_or] at he
        exact h2 k e he

/-- C18 (as stated, refuted): the credential exists and its token has expired;
the refresh fails and the storage write that records the failure fails too.
`stsReadOperation` then answers with no response at all and the error of the
write, not with an error response. -/
theorem stsReadOperation_guard_counterexample :
    mapGet (Example.sim Example.staleEntry (some ⟨"storage failure", false⟩) none
        (.error ⟨"timeout", false⟩)).store "cred" = some Example.staleEntry ∧
    ((stsReadOperation Example.quote Example.tokenType "cred" 0 [] [] []).run Sim.handler
        (Example.sim Example.staleEntry (some ⟨"storage failure", false⟩) none
          (.error ⟨"timeout", false⟩))).result
      = (none, some ⟨"storage failure", false⟩) := by
  decide

/-- C18 (amended): `stsReadOperation` calls the provider's `TokenExchange` only
when `getRefreshCredToken` has returned, with a nil error, an entry with an
issued token valid for the requested minimum.  Otherwise its interactions are
those of `getRefreshCredToken` alone, which contain no exchange call and write
no entry with a changed cache, and it answers: the error, with no response,
when `getRefreshCredToken` failed; absent for a missing credential; and
otherwise the error response with the recorded server problem, else the
recorded user error, else `token pending issuance` (never issued) or
`token expired` (issued but not valid for the requested minimum). -/
theorem stsReadOperation_guard {σ : Type} (h : Handler σ) (quote : String → String)
    (tokenType : oauth2.Token → String) (s : σ) (name : String) (minimum_seconds : Int)
    (scopes audiences resources : List String) (g : Outcome σ EntryResult)
    (hg : (getRefreshCredToken (persistence.AuthCodeName name)
      (wrap64 (minimum_seconds * Second))).run h s = g) :
    ((∃ ev ∈ ((stsReadOperation quote tokenType name minimum_seconds scopes audiences
          resources).run h s).events, ev.isTokenExchange = true) →
      ∃ entry base, g.result = (some entry, none) ∧ entry.Token = some base ∧
        entry.TokenIssued = true ∧
        tokenValid (h.now g.state) (some base.Token) (wrap64 (minimum_seconds * Second))
          = true) ∧
    (g.events.countP Event.isTokenExchange = 0 ∧
      ∀ k e, Event.writeAuthCodeEntry k e ∈ g.events →
        ∃ c s0 s1, h.readAuthCodeEntry k s0 = (.ok (some c), s1) ∧
          e.ExchangedTokens = c.ExchangedTokens) ∧
    (∀ x err, g.result = (x, some err) →
      (stsReadOperation quote tokenType name minimum_seconds scopes audiences resources).run h s
        = ⟨(none, some err), g.state, g.events⟩) ∧
    (g.result = (none, none) →
      (stsReadOperation quote tokenType name minimum_seconds scopes audiences resources).run h s
        = ⟨(none, none), g.state, g.events⟩) ∧
    (∀ entry, g.result = (some entry, none) → entry.TokenIssued = false →
      (stsReadOperation quote tokenType name minimum_seconds scopes audiences resources).run h s
        = ⟨(some (.error
              (if entry.AuthServerError ≠ "" then
                "server " ++ quote entry.AuthServerName ++ " has configuration problems: "
                  ++ entry.AuthServerError
               else if entry.UserError ≠ "" then entry.UserError
               else "token pending issuance")), none), g.state, g.events⟩) ∧
    (∀ entry, g.result = (some entry, none) → entry.TokenIssued = true →
      tokenValid (h.now g.state) (entry.Token.map (·.Token))
        (wrap64 (minimum_seconds * Second)) = false →
      (stsReadOperation quote tokenType name minimum_seconds scopes audiences resources).run h s
        = ⟨(some (.error
              (if entry.AuthServerError ≠ "" then
                "server " ++ quote entry.AuthServerName ++ " has configuration problems: "
                  ++ entry.AuthServerError
               else if entry.UserError ≠ "" then entry.UserError
               else "token expired")), none), g.state, g.events⟩) := by
  have hproblem : ∀ (entry : persistence.AuthCodeEntry) (other : String),
      stsReadOperation.problem quote entry other
        = (if entry.AuthServerError ≠ "" then
            "server " ++ quote entry.AuthServerName ++ " has configuration problems: "
              ++ entry.AuthServerError
           else if entry.UserError ≠ "" then entry.UserError
           else other) := by
    intro entry other
    unfold stsReadOperation.problem serverProblems
    by_cases hA : entry.AuthServerError = "" <;> by_cases hU : entry.UserError = "" <;>
      simp [hA, hU]
  obtain ⟨r, s1, events⟩ := g
  have hev := getRefreshCredToken_events h s (persistence.AuthCodeName name)
    (wrap64 (minimum_seconds * Second))
  rw [hg] at hev
  have hfailed : ∀ x err, r = (x, some err) →
      (stsReadOperation quote tokenType name minimum_seconds scopes audiences resources).run h s
        = ⟨(none, some err), s1, events⟩ := by
    intro x err hr
    subst hr
    exact stsReadOperation_run_failed h quote tokenType s s1 name minimum_seconds scopes
      audiences resources x err events hg
  have habsent : r = (none, none) →
      (stsReadOperation quote tokenType name minimum_seconds scopes audiences resources).run h s
        = ⟨(none, none), s1, events⟩ := by
    intro hr
    subst hr
    exact stsReadOperation_run_absent h quote tokenType s s1 name minimum_seconds scopes
      audiences resources events hg
  have hpending : ∀ entry, r = (some entry, none) → entry.TokenIssued = false →
      (stsReadOperation quote tokenType name minimum_seconds scopes audiences resources).run h s
        = ⟨(some (.error (stsReadOperation.problem quote entry "token pending issuance")),
            none), s1, events⟩ := by
    intro entry hr hi
    subst hr
    exact stsReadOperation_run_pending h quote tokenType s s1 name minimum_seconds scopes
      audiences resources entry events hg hi
  have hexpired : ∀ entry, r = (some entry, none) → entry.TokenIssued = true →
      tokenValid (h.now s1) (entry.Token.map (·.Token)) (wrap64 (minimum_seconds * Second))
        = false →
      (stsReadOperation quote tokenType name minimum_seconds scopes audiences resources).run h s
        = ⟨(some (.error (stsReadOperation.problem quote entry "token expired")), none),
            s1, events⟩ := by
    intro entry hr hi hv
    subst hr
    exact stsReadOperation_run_expired h quote tokenType s s1 name minimum_seconds scopes
      audiences resources entry events hg hi hv
  have hnone : ∀ ev ∈ events, ev.isTokenExchange = true → False := by
    intro ev hmem hx
    have := List.countP_eq_zero.mp hev.1 ev hmem
    exact this hx
  refine ⟨?_, hev, hfailed, habsent, ?_, ?_⟩
  · rintro ⟨ev, hmem, hx⟩
    obtain ⟨x, e⟩ := r
    cases e with
    | some err =>
      rw [hfailed x err rfl] at hmem
      exact (hnone ev hmem hx).elim
    | none =>
      cases x with
      | none =>
        rw [habsent rfl] at hmem
        exact (hnone ev hmem hx).elim
      | some entry =>
        cases hi : entry.TokenIssued with
        | false =>
          rw [hpending entry rfl hi] at hmem
          exact (hnone ev hmem hx).elim
        | true =>
          cases hv : tokenValid (h.now s1) (entry.Token.map (·.Token))
              (wrap64 (minimum_seconds * Second)) with
          | false =>
            rw [hexpired entry rfl hi hv] at hmem
            exact (hnone ev hmem hx).elim
          | true =>
            cases hT : entry.Token with
            | none =>
              rw [hT] at hv
              simp [tokenValid] at hv
            | some base =>
              rw [hT] at hv
              exact ⟨entry, base, rfl, hT, hi, hv⟩
  · intro entry hr hi
    rw [hpending entry hr hi, hproblem]
  · intro entry hr hi hv
    rw [hexpired entry hr hi hv, hproblem]

/-- C18 (amended) at the input of the claim: a token good for 130 seconds is
refreshed into one good for 160 seconds while 200 seconds are requested, and
the answer is `token expired`. -/
theorem stsReadOperation_guard_witness :
    ((stsReadOperation Example.quote Example.tokenType "cred" 200 [] [] []).run Sim.handler
        (Example.exchangeSim (Example.t0 + 2 * Minute)
          (Example.entry (some (Example.token "second_2" "refresh"
            (Example.t0 + 2 * Minute + 130 * Second))) "" "" 0)
          (.ok (Example.token "second_3" "refresh" (Example.t0 + 2 * Minute + 160 * Second)))
          (.error ⟨"access_denied", true⟩))).result
      = (some (.error "token expired"), none) :=
  congrArg Outcome.result
    ((stsReadOperation_guard Sim.handler Example.quote Example.tokenType
      (Example.exchangeSim (Example.t0 + 2 * Minute)
        (Example.entry (some (Example.token "second_2" "refresh"
          (Example.t0 + 2 * Minute + 130 * Second))) "" "" 0)
        (.ok (Example.token "second_3" "refresh" (Example.t0 + 2 * Minute + 160 * Second)))
        (.error ⟨"access_denied", true⟩))
      "cred" 200 [] [] [] _ rfl).2.2.2.2.2
      ((Example.entry (some (Example.token "second_2" "refresh"
          (Example.t0 + 2 * Minute + 130 * Second))) "" "" 0).SetToken
        (Example.token "second_3" "refresh" (Example.t0 + 2 * Minute + 160 * Second)))
      (by decide) (by decide) (by decide))

/-! ## Cache hits of the token exchange -/

theorem tokenValid_cached (now : Time) (x : provider.Token) (d : Duration) :
    tokenValid now (some (stsReadOperation.cached x)) d = tokenValid now (some x.Token) d :=
  rfl

theorem storeExchangedToken_no_exchange {σ : Type} (h : Handler σ) (s : σ)
    (keyer : persistence.AuthCodeKeyer) (key : String) (tok : oauth2.Token) :
    ((storeExchangedToken keyer key tok).run h s).events.countP Event.isTokenExchange = 0 := by
  rcases hrd : h.readAuthCodeEntry keyer (h.lock keyer s) with ⟨found, s1⟩
  rcases found with e | _ | entry
  · rw [storeExchangedToken_run_readError h s s1 keyer key tok e hrd]
    simp [List.countP_cons, Event.isTokenExchange]
  · rw [storeExchangedToken_run_absent h s s1 keyer key tok hrd]
    simp [List.countP_cons, Event.isTokenExchange]
  · rcases hw : h.writeAuthCodeEntry keyer
      (storeExchangedToken.updated (h.now s1) key tok entry) s1 with ⟨werr, s2⟩
    rw [storeExchangedToken_run_written h s s1 s2 keyer key tok entry werr hrd hw]
    simp [List.countP_cons, Event.isTokenExchange]

theorem fetch_exchange_once {σ : Type} (h : Handler σ) (quote : String → String)
    (tokenType : oauth2.Token → String) (s s1 : σ) (keyer : persistence.AuthCodeKeyer)
    (d : Duration) (scopes audiences resources : List String) (key : String)
    (entry : persistence.AuthCodeEntry) (base : provider.Token)
    (ho : h.getProviderOperations entry.AuthServerName defaultExpiryDelta s = (none, s1)) :
    ((stsReadOperation.fetch quote tokenType keyer d scopes audiences resources key entry
        base).run h s).events.countP Event.isTokenExchange = 1 := by
  rcases hx : h.tokenExchange entry.AuthServerName base scopes audiences resources
    base.ProviderOptions s1 with ⟨answer, s2⟩
  rcases answer with err | x
  · rw [fetch_run_exchangeFailed h quote tokenType s s1 s2 keyer d scopes audiences resources
      key entry base err ho hx]
    simp [List.countP_cons, Event.isTokenExchange]
  · cases hv : tokenValid (h.now s2) (some x.Token) d with
    | false =>
      rw [fetch_run_expired h quote tokenType s s1 s2 keyer d scopes audiences resources
        key entry base x ho hx hv]
      simp [List.countP_cons, Event.isTokenExchange]
    | true =>
      by_cases hz : x.Token.Expiry = 0
      · rw [fetch_run_uncached h quote tokenType s s1 s2 keyer d scopes audiences resources
          key entry base x ho hx hv hz]
        simp [List.countP_cons, Event.isTokenExchange]
      · rw [fetch_run_cached h quote tokenType s s1 s2 keyer d scopes audiences resources
          key entry base x ho hx hv hz]
        simp [List.countP_cons, List.countP_append, Event.isTokenExchange,
          storeExchangedToken_no_exchange]

theorem Sim.stsReadOperation_run_hit (quote : String → String)
    (tokenType : oauth2.Token → String) (m : Sim) (name : String) (minimum_seconds : Int)
    (scopes audiences resources : List String) (entry : persistence.AuthCodeEntry)
    (base : provider.Token) (tok : oauth2.Token)
    (hr : m.readError = none)
    (hstore : mapGet m.store (persistence.AuthCodeName name) = some entry)
    (hbase : entry.Token = some base)
    (hvalid : tokenValid m.clock (some base.Token) (wrap64 (minimum_seconds * Second)) = true)
    (hget : mapGet entry.ExchangedTokens
      (stsReadOperation.exchangeKey scopes audiences resources) = some (some tok))
    (htok : tokenValid m.clock (some tok) (wrap64 (minimum_seconds * Second)) = true) :
    (stsReadOperation quote tokenType name minimum_seconds scopes audiences resources).run
        Sim.handler m
      = ⟨stsReadOperation.respond tokenType tok, m,
          [.readAuthCodeEntry (persistence.AuthCodeName name)]⟩ := by
  have hread := Sim.handler_read m (persistence.AuthCodeName name) hr
  rw [hstore] at hread
  have hfast : (!entry.TokenIssued || tokenValid (Sim.handler.now m)
      (entry.Token.map (·.Token)) (wrap64 (minimum_seconds * Second))) = true := by
    rw [hbase]
    show (!entry.TokenIssued || tokenValid m.clock (some base.Token) _) = true
    rw [hvalid]
    simp
  have hg := getRefreshCredToken_run_fast Sim.handler m m _ _ entry hread hfast
  rw [stsReadOperation_run_exchange Sim.handler quote tokenType m m name minimum_seconds scopes
    audiences resources entry base _ hg hbase hvalid,
    exchange_run_hit Sim.handler quote tokenType m _ _ scopes audiences resources entry base tok
      hget htok]
  rfl

theorem Sim.stsReadOperation_run_miss (quote : String → String)
    (tokenType : oauth2.Token → String) (m : Sim) (name : String) (minimum_seconds : Int)
    (scopes audiences resources : List String) (entry : persistence.AuthCodeEntry)
    (base : provider.Token)
    (hr : m.readError = none)
    (hstore : mapGet m.store (persistence.AuthCodeName name) = some entry)
    (hbase : entry.Token = some base)
    (hvalid : tokenValid m.clock (some base.Token) (wrap64 (minimum_seconds * Second)) = true)
    (hmiss : ∀ tok, mapGet entry.ExchangedTokens
        (stsReadOperation.exchangeKey scopes audiences resources) = some (some tok) →
      tokenValid m.clock (some tok) (wrap64 (minimum_seconds * Second)) = false) :
    (stsReadOperation quote tokenType name minimum_seconds scopes audiences resources).run
        Sim.handler m
      = ⟨((stsReadOperation.fetch quote tokenType (persistence.AuthCodeName name)
            (wrap64 (minimum_seconds * Second)) scopes audiences resources
            (stsReadOperation.exchangeKey scopes audiences resources) entry base).run
            Sim.handler m).result,
         ((stsReadOperation.fetch quote tokenType (persistence.AuthCodeName name)
            (wrap64 (minimum_seconds * Second)) scopes audiences resources
            (stsReadOperation.exchangeKey scopes audiences resources) entry base).run
            Sim.handler m).state,
         [.readAuthCodeEntry (persistence.AuthCodeName name)] ++
         ((stsReadOperation.fetch quote tokenType (persistence.AuthCodeName name)
            (wrap64 (minimum_seconds * Second)) scopes audiences resources
            (stsReadOperation.exchangeKey scopes audiences resources) entry base).run
            Sim.handler m).events⟩ := by
  have hread := Sim.handler_read m (persistence.AuthCodeName name) hr
  rw [hstore] at hread
  have hfast : (!entry.TokenIssued || tokenValid (Sim.handler.now m)
      (entry.Token.map (·.Token)) (wrap64 (minimum_seconds * Second))) = true := by
    rw [hbase]
    show (!entry.TokenIssued || tokenValid m.clock (some base.Token) _) = true
    rw [hvalid]
    simp
  have hg := getRefreshCredToken_run_fast Sim.handler m m _ _ entry hread hfast
  rw [stsReadOperation_run_exchange Sim.handler quote tokenType m m name minimum_seconds scopes
    audiences resources entry base _ hg hbase hvalid,
    exchange_run_miss Sim.handler quote tokenType m _ _ scopes audiences resources entry base
      hmiss]

/-- C14 (as stated, refuted): the exchanged token expires 30 seconds after the
first STS read; a second read with the same scopes, audiences and resources,
made 25 seconds later and so before the token expires, calls the provider's
`TokenExchange` again, because the cached token is no longer valid under the
floor of 10 seconds. -/
theorem stsReadOperation_cache_hit_counterexample :
    Example.t0 + 2 * Minute + 25 * Second < Example.t0 + 2 * Minute + 30 * Second ∧
    ((stsReadOperation Example.quote Example.tokenType "cred" 0 ["a"] [] []).run Sim.handler
        (Example.exchangeSim (Example.t0 + 2 * Minute) Example.validEntry
          (.error ⟨"timeout", false⟩)
          (.ok (Example.token "exchanged" ""
            (Example.t0 + 2 * Minute + 30 * Second))))).events.countP Event.isTokenExchange
      = 1 ∧
    ((stsReadOperation Example.quote Example.tokenType "cred" 0 ["a"] [] []).run Sim.handler
        (((stsReadOperation Example.quote Example.tokenType "cred" 0 ["a"] [] []).run
          Sim.handler
          (Example.exchangeSim (Example.t0 + 2 * Minute) Example.validEntry
            (.error ⟨"timeout", false⟩)
            (.ok (Example.token "exchanged" ""
              (Example.t0 + 2 * Minute + 30 * Second))))).state.atTime
          (Example.t0 + 2 * Minute + 25 * Second))).events.countP Event.isTokenExchange
      = 1 := by
  decide

/-- C14 (amended): in the in-memory environment without storage or server
failure, for a credential whose base token is valid and whose cache holds no
valid token for the signature, a first STS read whose exchange returns a valid
token of non-zero expiry calls `TokenExchange` once and returns that token; a
second read with the same scopes, audiences and resources, made while the base
token and the cached token are valid for the requested minimum, calls
`TokenExchange` zero times and returns the token of the first read; a third
such read, made when the cached token is no longer valid for the requested
minimum, calls `TokenExchange` once more. -/
theorem stsReadOperation_cache_hit (quote : String → String)
    (tokenType : oauth2.Token → String) (m : Sim) (name : String) (minimum_seconds : Int)
    (scopes audiences resources : List String) (entry : persistence.AuthCodeEntry)
    (base x : provider.Token) (t2 t3 : Time) (answer3 : Except Err provider.Token)
    (o1 o2 o3 : Outcome Sim ResponseResult)
    (hread : m.readError = none) (hwrite : m.writeError = none)
    (hserver : m.serverError = none)
    (hstore : mapGet m.store (persistence.AuthCodeName name) = some entry)
    (hbase : entry.Token = some base)
    (hmiss : ∀ tok, mapGet entry.ExchangedTokens
        (stsReadOperation.exchangeKey scopes audiences resources) = some (some tok) →
      tokenValid m.clock (some tok) (wrap64 (minimum_seconds * Second)) = false)
    (hanswer : m.exchangeAnswer = .ok x)
    (hexpiry : x.Token.Expiry ≠ 0)
    (hvalid1 : tokenValid m.clock (some base.Token) (wrap64 (minimum_seconds * Second)) = true)
    (hfresh1 : tokenValid m.clock (some x.Token) (wrap64 (minimum_seconds * Second)) = true)
    (hvalid2 : tokenValid t2 (some base.Token) (wrap64 (minimum_seconds * Second)) = true)
    (hfresh2 : tokenValid t2 (some x.Token) (wrap64 (minimum_seconds * Second)) = true)
    (hvalid3 : tokenValid t3 (some base.Token) (wrap64 (minimum_seconds * Second)) = true)
    (hstale3 : tokenValid t3 (some x.Token) (wrap64 (minimum_seconds * Second)) = false)
    (ho1 : (stsReadOperation quote tokenType name minimum_seconds scopes audiences
      resources).run Sim.handler m = o1)
    (ho2 : (stsReadOperation quote tokenType name minimum_seconds scopes audiences
      resources).run Sim.handler (o1.state.atTime t2) = o2)
    (ho3 : (stsReadOperation quote tokenType name minimum_seconds scopes audiences
      resources).run Sim.handler ((o2.state.atTime t3).answering answer3) = o3) :
    o1.result = stsReadOperation.respond tokenType (stsReadOperation.cached x) ∧
    o1.events.countP Event.isTokenExchange = 1 ∧
    o2.result = o1.result ∧
    o2.events.countP Event.isTokenExchange = 0 ∧
    o3.events.countP Event.isTokenExchange = 1 := by
  -- the first read: a miss, an exchange and a store
  have hops1 : Sim.handler.getProviderOperations entry.AuthServerName defaultExpiryDelta m
      = (none, m) := by
    simp [Sim.handler, hserver]
  have hx1 : Sim.handler.tokenExchange entry.AuthServerName base scopes audiences resources
      base.ProviderOptions m = (.ok x, m) := by
    simp [Sim.handler, hanswer]
  have hrd := Sim.handler_read m (persistence.AuthCodeName name) hread
  rw [hstore] at hrd
  have hst := storeExchangedToken_run_written Sim.handler m m _ (persistence.AuthCodeName name)
    (stsReadOperation.exchangeKey scopes audiences resources) (stsReadOperation.cached x)
    entry none hrd (Sim.handler_write_ok m _ _ hwrite)
  have hf1 := fetch_run_cached Sim.handler quote tokenType m m m
    (persistence.AuthCodeName name) (wrap64 (minimum_seconds * Second)) scopes audiences
    resources (stsReadOperation.exchangeKey scopes audiences resources) entry base x hops1 hx1
    hfresh1 hexpiry
  rw [hst] at hf1
  have h1 := Sim.stsReadOperation_run_miss quote tokenType m name minimum_seconds scopes
    audiences resources entry base hread hstore hbase hvalid1 hmiss
  rw [hf1, ho1] at h1
  subst h1
  -- the state after the first read
  have hupd : (storeExchangedToken.updated (Sim.handler.now m)
      (stsReadOperation.exchangeKey scopes audiences resources) (stsReadOperation.cached x)
      entry).Token = some base := hbase
  have hcached : mapGet (storeExchangedToken.updated (Sim.handler.now m)
      (stsReadOperation.exchangeKey scopes audiences resources) (stsReadOperation.cached x)
      entry).ExchangedTokens (stsReadOperation.exchangeKey scopes audiences resources)
      = some (some (stsReadOperation.cached x)) := mapGet_mapSet_self _ _ _
  -- the second read: a hit
  have h2 := Sim.stsReadOperation_run_hit quote tokenType
    (Sim.atTime (Sim.storing m (persistence.AuthCodeName name)
      (storeExchangedToken.updated (Sim.handler.now m)
        (stsReadOperation.exchangeKey scopes audiences resources)
        (stsReadOperation.cached x) entry)) t2)
    name minimum_seconds scopes audiences resources _ base (stsReadOperation.cached x)
    hread (mapGet_mapSet_self _ _ _) hupd hvalid2 hcached hfresh2
  have ho2' : (stsReadOperation quote tokenType name minimum_seconds scopes audiences
      resources).run Sim.handler
      (Sim.atTime (Sim.storing m (persistence.AuthCodeName name)
      (storeExchangedToken.updated (Sim.handler.now m)
        (stsReadOperation.exchangeKey scopes audiences resources)
        (stsReadOperation.cached x) entry)) t2) = o2 := ho2
  rw [ho2'] at h2
  subst h2
  -- the third read: a miss and an exchange
  have hmiss3 : ∀ tok, mapGet (storeExchangedToken.updated (Sim.handler.now m)
        (stsReadOperation.exchangeKey scopes audiences resources) (stsReadOperation.cached x)
        entry).ExchangedTokens (stsReadOperation.exchangeKey scopes audiences resources)
        = some (some tok) →
      tokenValid t3 (some tok) (wrap64 (minimum_seconds * Second)) = false := by
    intro tok htok
    rw [hcached] at htok
    simp only [Option.some.injEq] at htok
    subst htok
    exact hstale3
  have h3 := Sim.stsReadOperation_run_miss quote tokenType
    (Sim.answering (Sim.atTime (Sim.atTime (Sim.storing m (persistence.AuthCodeName name)
      (storeExchangedToken.updated (Sim.handler.now m)
        (stsReadOperation.exchangeKey scopes audiences resources)
        (stsReadOperation.cached x) entry)) t2) t3) answer3)
    name minimum_seconds scopes audiences resources _ base
    hread (mapGet_mapSet_self _ _ _) hupd hvalid3 hmiss3
  have ho3' : (stsReadOperation quote tokenType name minimum_seconds scopes audiences
      resources).run Sim.handler
      (Sim.answering (Sim.atTime (Sim.atTime (Sim.storing m (persistence.AuthCodeName name)
      (storeExchangedToken.updated (Sim.handler.now m)
        (stsReadOperation.exchangeKey scopes audiences resources)
        (stsReadOperation.cached x) entry)) t2) t3) answer3) = o3 := ho3
  rw [ho3'] at h3
  subst h3
  refine ⟨rfl, ?_, rfl, ?_, ?_⟩
  · simp [List.countP_cons, Event.isTokenExchange]
  · simp [List.countP_cons, Event.isTokenExchange]
  · have hresolve : ∀ (m' : Sim) (server : String) (d : Duration), m'.serverError = none →
        Sim.handler.getProviderOperations server d m' = (none, m') := by
      intro m' server d hm
      simp [Sim.handler, hm]
    have hops3 := hresolve
      (Sim.answering (Sim.atTime (Sim.atTime (Sim.storing m (persistence.AuthCodeName name)
        (storeExchangedToken.updated (Sim.handler.now m)
          (stsReadOperation.exchangeKey scopes audiences resources)
          (stsReadOperation.cached x) entry)) t2) t3) answer3)
      (storeExchangedToken.updated (Sim.handler.now m)
        (stsReadOperation.exchangeKey scopes audiences resources)
        (stsReadOperation.cached x) entry).AuthServerName defaultExpiryDelta hserver
    have hone := fetch_exchange_once Sim.handler quote tokenType _ _
      (persistence.AuthCodeName name) (wrap64 (minimum_seconds * Second)) scopes audiences
      resources (stsReadOperation.exchangeKey scopes audiences resources) _ base hops3
    simp only [List.countP_append, List.countP_cons, List.countP_nil, Event.isTokenExchange,
      hone]
    simp

/-- C14 (amended) at a concrete input: the exchanged token expires one minute
after the first read; the read 25 seconds later is served from the cache, and
the read 55 seconds later, within the floor of 10 seconds before the expiry,
exchanges again. -/
theorem stsReadOperation_cache_hit_witness :
    (Example.stsRead Example.cacheSim).events.countP Event.isTokenExchange = 1 ∧
    (Example.stsRead ((Example.stsRead Example.cacheSim).state.atTime
      (Example.t0 + 2 * Minute + 25 * Second))).result
      = (Example.stsRead Example.cacheSim).result ∧
    (Example.stsRead ((Example.stsRead Example.cacheSim).state.atTime
      (Example.t0 + 2 * Minute + 25 * Second))).events.countP Event.isTokenExchange = 0 ∧
    (Example.stsRead (((Example.stsRead ((Example.stsRead Example.cacheSim).state.atTime
      (Example.t0 + 2 * Minute + 25 * Second))).state.atTime
      (Example.t0 + 2 * Minute + 55 * Second)).answering
      (.ok (Example.token "again" "" (Example.t0 + 10 * Minute))))).events.countP
        Event.isTokenExchange = 1 :=
  (stsReadOperation_cache_hit Example.quote Example.tokenType Example.cacheSim "cred" 0
    ["a"] [] [] Example.validEntry (Example.token "tok" "refresh" (Example.t0 + 60 * Minute))
    (Example.token "exchanged" "" (Example.t0 + 3 * Minute))
    (Example.t0 + 2 * Minute + 25 * Second) (Example.t0 + 2 * Minute + 55 * Second)
    (.ok (Example.token "again" "" (Example.t0 + 10 * Minute))) _ _ _
    rfl rfl rfl rfl rfl (fun tok hget => by cases hget) rfl (by decide)
    (by decide) (by decide) (by decide) (by decide) (by decide) (by decide)
    rfl rfl rfl).2

/-- C17 at a concrete input: two minutes after `Example.t0` a token is stored
under the signature `new` in a cache holding an expired token under `old` and a
live one under `live`; the write succeeds, `new` is bound to the token, and the
other signatures are bound afterwards exactly to their tokens that were still
valid. -/
theorem storeExchangedToken_sweep_witness :
    ((storeExchangedToken "cred" "new"
        (stsReadOperation.cached (Example.token "x3" "" (Example.t0 + 7 * Minute)))).run
      Sim.handler
      (Example.exchangeSim (Example.t0 + 2 * Minute) Example.cachedEntry
        (.error ⟨"timeout", false⟩) (.error ⟨"timeout", false⟩))).result = none ∧
    mapGet (storeExchangedToken.updated (Example.t0 + 2 * Minute) "new"
        (stsReadOperation.cached (Example.token "x3" "" (Example.t0 + 7 * Minute)))
        Example.cachedEntry).ExchangedTokens "new"
      = some (some (stsReadOperation.cached
          (Example.token "x3" "" (Example.t0 + 7 * Minute)))) ∧
    (∀ k v, k ≠ "new" →
      (mapGet (storeExchangedToken.updated (Example.t0 + 2 * Minute) "new"
          (stsReadOperation.cached (Example.token "x3" "" (Example.t0 + 7 * Minute)))
          Example.cachedEntry).ExchangedTokens k = some v ↔
        mapGet Example.cachedEntry.ExchangedTokens k = some v ∧
          tokenValid (Example.t0 + 2 * Minute) v (10 * Second) = true)) :=
  have h := storeExchangedToken_sweep Sim.handler
    (Example.exchangeSim (Example.t0 + 2 * Minute) Example.cachedEntry
      (.error ⟨"timeout", false⟩) (.error ⟨"timeout", false⟩)) _ _ "cred" "new"
    (stsReadOperation.cached (Example.token "x3" "" (Example.t0 + 7 * Minute)))
    Example.cachedEntry rfl rfl (by decide)
  ⟨congrArg Outcome.result h.1, h.2.1, h.2.2.1⟩

/-! ## The cache signature -/

theorem intercalate_go_data (sep : String) (l : List String) (acc : String) :
    (String.intercalate.go acc sep l).data
      = acc.data ++ l.flatMap fun a => sep.data ++ a.data := by
  induction l generalizing acc with
  | nil => simp [String.intercalate.go]
  | cons a as ih =>
    simp [String.intercalate.go, ih, List.append_assoc]

/-- The characters of the values of a list, each preceded by a space. -/
theorem intercalate_space_data (a : String) (as : List String) :
    (" ".intercalate (a :: as)).data = a.data ++ as.flatMap fun x => ' ' :: x.data := by
  show (String.intercalate.go a " " as).data = _
  rw [intercalate_go_data]
  rfl

theorem append_sep_cancel {c : Char} :
    ∀ (a b X Y : List Char), (∀ x ∈ a, x ≠ c) → (∀ x ∈ b, x ≠ c) →
      (X = [] ∨ ∃ X1, X = c :: X1) → (Y = [] ∨ ∃ Y1, Y = c :: Y1) →
      a ++ X = b ++ Y → a = b ∧ X = Y := by
  intro a
  induction a with
  | nil =>
    intro b X Y _ hb hX hY h
    cases b with
    | nil => exact ⟨rfl, by simpa using h⟩
    | cons y b =>
      exfalso
      have hy := hb y (List.mem_cons_self _ _)
      rcases hX with rfl | ⟨X1, rfl⟩
      · simp at h
      · simp at h
        exact hy h.1.symm
  | cons x a ih =>
    intro b X Y ha hb hX hY h
    cases b with
    | nil =>
      exfalso
      have hx := ha x (List.mem_cons_self _ _)
      rcases hY with rfl | ⟨Y1, rfl⟩
      · simp at h
      · simp at h
        exact hx h.1
    | cons y b =>
      simp only [List.cons_append, List.cons.injEq] at h
      obtain ⟨rfl, h⟩ := h
      obtain ⟨rfl, hXY⟩ := ih b X Y (fun z hz => ha z (List.mem_cons_of_mem _ hz))
        (fun z hz => hb z (List.mem_cons_of_mem _ hz)) hX hY h
      exact ⟨rfl, hXY⟩

theorem spaced_shape (l : List String) :
    (l.flatMap fun x => ' ' :: x.data) = [] ∨
      ∃ X1, (l.flatMap fun x => ' ' :: x.data) = ' ' :: X1 := by
  cases l with
  | nil => exact Or.inl rfl
  | cons a as => exact Or.inr ⟨_, rfl⟩

theorem spaced_injective :
    ∀ (as bs : List String), (∀ s ∈ as, ∀ x ∈ s.data, x ≠ ' ') →
      (∀ s ∈ bs, ∀ x ∈ s.data, x ≠ ' ') →
      (as.flatMap fun x => ' ' :: x.data) = (bs.flatMap fun x => ' ' :: x.data) →
      as = bs := by
  intro as
  induction as with
  | nil =>
    intro bs _ _ h
    cases bs with
    | nil => rfl
    | cons b bs => simp at h
  | cons a as ih =>
    intro bs ha hb h
    cases bs with
    | nil => simp at h
    | cons b bs =>
      simp only [List.flatMap_cons, List.cons_append, List.cons.injEq, true_and] at h
      obtain ⟨hab, hrest⟩ := append_sep_cancel a.data b.data _ _
        (ha a (List.mem_cons_self _ _)) (hb b (List.mem_cons_self _ _))
        (spaced_shape as) (spaced_shape bs) h
      rw [String.ext hab, ih bs (fun s hs => ha s (List.mem_cons_of_mem _ hs))
        (fun s hs => hb s (List.mem_cons_of_mem _ hs)) hrest]

theorem plainValues_iff (l : List String) :
    spec.plainValues l = true ↔
      ∀ s ∈ l, s.data ≠ [] ∧ ∀ x ∈ s.data, x ≠ ' ' ∧ x ≠ ',' := by
  simp [spec.plainValues, String.ext_iff]

/-- The space-joined text of plain values determines the values. -/
theorem join_injective (l l1 : List String) (hl : spec.plainValues l = true)
    (hl1 : spec.plainValues l1 = true)
    (h : (" ".intercalate l).data = (" ".intercalate l1).data) : l = l1 := by
  rw [plainValues_iff] at hl hl1
  have hsp : ∀ (k : List String), (∀ s ∈ k, s.data ≠ [] ∧ ∀ x ∈ s.data, x ≠ ' ' ∧ x ≠ ',') →
      ∀ s ∈ k, ∀ x ∈ s.data, x ≠ ' ' := fun k hk s hs x hx => (((hk s hs).2) x hx).1
  cases l with
  | nil =>
    cases l1 with
    | nil => rfl
    | cons b bs =>
      exfalso
      rw [intercalate_space_data] at h
      have hb := (hl1 b (List.mem_cons_self _ _)).1
      have : b.data = [] := by
        have h2 := h.symm
        simp only [String.intercalate] at h2
        exact (List.append_eq_nil.mp h2).1
      exact hb this
  | cons a as =>
    cases l1 with
    | nil =>
      exfalso
      rw [intercalate_space_data] at h
      have ha := (hl a (List.mem_cons_self _ _)).1
      have : a.data = [] := by
        simp only [String.intercalate] at h
        exact (List.append_eq_nil.mp h).1
      exact ha this
    | cons b bs =>
      rw [intercalate_space_data, intercalate_space_data] at h
      obtain ⟨hab, hrest⟩ := append_sep_cancel a.data b.data _ _
        (hsp _ hl a (List.mem_cons_self _ _)) (hsp _ hl1 b (List.mem_cons_self _ _))
        (spaced_shape as) (spaced_shape bs) h
      rw [String.ext hab, spaced_injective as bs
        (fun s hs => hsp _ hl s (List.mem_cons_of_mem _ hs))
        (fun s hs => hsp _ hl1 s (List.mem_cons_of_mem _ hs)) hrest]

/-- The space-joined text of plain values holds no comma. -/
theorem join_no_comma (l : List String) (hl : spec.plainValues l = true) :
    ∀ x ∈ (" ".intercalate l).data, x ≠ ',' := by
  rw [plainValues_iff] at hl
  cases l with
  | nil => intro x hx; simp [String.intercalate] at hx
  | cons a as =>
    rw [intercalate_space_data]
    intro x hx
    rcases List.mem_append.mp hx with hx | hx
    · exact ((hl a (List.mem_cons_self _ _)).2 x hx).2
    · obtain ⟨s, hs, hxs⟩ := List.mem_flatMap.mp hx
      rcases List.mem_cons.mp hxs with rfl | hxs
      · decide
      · exact ((hl s (List.mem_cons_of_mem _ hs)).2 x hxs).2

/-- C15 (as stated, refuted): the single scope `a b` and the two scopes `a`,
`b` are different lists with the same signature, because the values of a list
are joined by spaces. -/
theorem exchangeKey_injective_counterexample :
    stsReadOperation.exchangeKey ["a b"] [] [] = stsReadOperation.exchangeKey ["a", "b"] [] [] ∧
    (["a b"] : List String) ≠ ["a", "b"] := by
  decide

/-- C15 (amended): on requests whose scopes, audiences and resources are
non-empty strings without space or comma, the cache signature built by
`stsReadOperation` is collision-free: equal signatures come from equal scopes,
equal audiences and equal resources. -/
theorem exchangeKey_injective (scopes audiences resources scopes1 audiences1 resources1 :
      List String)
    (hs : spec.plainValues scopes = true) (ha : spec.plainValues audiences = true)
    (hr : spec.plainValues resources = true) (hs1 : spec.plainValues scopes1 = true)
    (ha1 : spec.plainValues audiences1 = true) (hr1 : spec.plainValues resources1 = true)
    (h : stsReadOperation.exchangeKey scopes audiences resources
      = stsReadOperation.exchangeKey scopes1 audiences1 resources1) :
    scopes = scopes1 ∧ audiences = audiences1 ∧ resources = resources1 := by
  have hd := congrArg String.data h
  simp only [stsReadOperation.exchangeKey, String.data_append] at hd
  simp only [List.append_assoc] at hd
  have hd1 := List.append_cancel_left hd
  obtain ⟨hS, hd2⟩ := append_sep_cancel _ _ _ _ (join_no_comma scopes hs)
    (join_no_comma scopes1 hs1) (Or.inr ⟨_, rfl⟩) (Or.inr ⟨_, rfl⟩) hd1
  have hd3 := @List.append_cancel_left _ ",audiences=".data _ _ hd2
  obtain ⟨hA, hd4⟩ := append_sep_cancel _ _ _ _ (join_no_comma audiences ha)
    (join_no_comma audiences1 ha1) (Or.inr ⟨_, rfl⟩) (Or.inr ⟨_, rfl⟩) hd3
  have hR := @List.append_cancel_left _ ",resources=".data _ _ hd4
  exact ⟨join_injective _ _ hs hs1 hS, join_injective _ _ ha ha1 hA,
    join_injective _ _ hr hr1 hR⟩

/-- C15 (amended) at a concrete input: the same values given as scopes and
given as audiences have different signatures. -/
theorem exchangeKey_injective_witness :
    stsReadOperation.exchangeKey ["a", "b"] [] [] ≠ stsReadOperation.exchangeKey [] ["a", "b"] [] :=
  fun h => absurd (exchangeKey_injective ["a", "b"] [] [] [] ["a", "b"] [] rfl rfl rfl rfl rfl
    rfl h).1 (by decide)

/-! ## Server keys -/

theorem hex_length (b : List (Fin 256)) : (fmt.hex b).length = 2 * b.length := by
  show (b.flatMap fun x => [Nat.digitChar (x.val / 16), Nat.digitChar (x.val % 16)]).length = _
  induction b with
  | nil => rfl
  | cons x b ih =>
    simp only [List.flatMap_cons, List.length_append, List.length_cons, List.length_nil, ih]
    omega

theorem digitChar_lowercase : ∀ n, n < 16 → Nat.digitChar n ∈ "0123456789abcdef".data := by
  decide

theorem hex_lowercase (b : List (Fin 256)) :
    ∀ c ∈ (fmt.hex b).data, c ∈ "0123456789abcdef".data := by
  intro c hc
  obtain ⟨x, _, hx⟩ := List.mem_flatMap.mp hc
  have h1 : x.val / 16 < 16 := by omega
  have h2 : x.val % 16 < 16 := by omega
  rcases List.mem_cons.mp hx with rfl | hx
  · exact digitChar_lowercase _ h1
  · rcases List.mem_cons.mp hx with rfl | hx
    · exact digitChar_lowercase _ h2
    · cases hx

/-- C19: for every server name, the 28 bytes of the hash of the name split into
the first two bytes, the next two and the remaining 24, and the storage key of
`AuthServerName` is `servers/` followed by the hexadecimal text of the three
parts separated by slashes; the three segments have 4, 4 and 48 characters, all
of them lowercase hexadecimal digits, and the key has 66 characters. -/
theorem AuthServerName_key (sum224 : String → sha256.Digest224) (name : String) :
    ∃ first second rest : List (Fin 256),
      (sum224 name).bytes = first ++ second ++ rest ∧
      first.length = 2 ∧ second.length = 2 ∧ rest.length = 24 ∧
      (persistence.AuthServerName sum224 name).AuthServerKey
        = "servers/" ++ fmt.hex first ++ "/" ++ fmt.hex second ++ "/" ++ fmt.hex rest ∧
      (fmt.hex first).length = 4 ∧ (fmt.hex second).length = 4 ∧
      (fmt.hex rest).length = 48 ∧
      (∀ c ∈ (fmt.hex first).data ++ (fmt.hex second).data ++ (fmt.hex rest).data,
        c ∈ "0123456789abcdef".data) ∧
      (persistence.AuthServerName sum224 name).AuthServerKey.length = 66 := by
  have hsize := (sum224 name).size
  have h1 : (byteSlice (sum224 name).bytes 0 2).length = 2 := by
    simp [byteSlice, hsize]
  have h2 : (byteSlice (sum224 name).bytes 2 4).length = 2 := by
    simp [byteSlice, hsize]
  have h3 : (byteSlice (sum224 name).bytes 4 (sum224 name).bytes.length).length = 24 := by
    simp [byteSlice, hsize]
  have hsplit : (sum224 name).bytes
      = byteSlice (sum224 name).bytes 0 2 ++ byteSlice (sum224 name).bytes 2 4 ++
        byteSlice (sum224 name).bytes 4 (sum224 name).bytes.length := by
    generalize (sum224 name).bytes = l at hsize
    simp only [byteSlice, List.drop_zero, List.take_length]
    have e1 : l.take 2 ++ (l.take 4).drop 2 = l.take 4 := by
      have := List.take_append_drop 2 (l.take 4)
      rw [List.take_take] at this
      simpa using this
    rw [e1, List.take_append_drop]
  have hkey : (persistence.AuthServerName sum224 name).AuthServerKey
      = "servers/" ++ fmt.hex (byteSlice (sum224 name).bytes 0 2) ++ "/" ++
        fmt.hex (byteSlice (sum224 name).bytes 2 4) ++ "/" ++
        fmt.hex (byteSlice (sum224 name).bytes 4 (sum224 name).bytes.length) := by
    simp only [persistence.AuthServerName, persistence.AuthServerKey.AuthServerKey,
      persistence.authServerKeyPrefix, String.append_assoc]
  refine ⟨_, _, _, hsplit, h1, h2, h3, hkey, ?_, ?_, ?_, ?_, ?_⟩
  · rw [hex_length, h1]
  · rw [hex_length, h2]
  · rw [hex_length, h3]
  · intro c hc
    rcases List.mem_append.mp hc with hc | hc
    · rcases List.mem_append.mp hc with hc | hc
      · exact hex_lowercase _ c hc
      · exact hex_lowercase _ c hc
    · exact hex_lowercase _ c hc
  · rw [hkey]
    simp only [String.length_append, hex_length, h1, h2, h3]
    rfl

/-- C19 at a concrete input: the key of the server `mock` under a stand-in
digest has 66 characters. -/
theorem AuthServerName_key_witness :
    (persistence.AuthServerName Example.sum224 "mock").AuthServerKey.length = 66 :=
  match AuthServerName_key Example.sum224 "mock" with
  | ⟨_, _, _, h⟩ => h.2.2.2.2.2.2.2.2.2

/-! ## Writing a server entry -/

/-- C20: `WriteAuthServerEntry` returns an error without any storage `Put`
exactly when the key derived from the name of the entry by `AuthServerName`
differs from the storage key of the keyer of the manager; when the two keys are
equal it makes one `Put`, of the entry under that key, and returns what `Put`
returned. -/
theorem WriteAuthServerEntry_sanity {σ : Type} (sum224 : String → sha256.Digest224)
    (quote : String → String) (lasm : persistence.LockedAuthServerManager σ)
    (entry : persistence.AuthServerEntry) (s : σ) :
    (((lasm.WriteAuthServerEntry sum224 quote entry s).result ≠ none ∧
        (lasm.WriteAuthServerEntry sum224 quote entry s).puts = []) ↔
      (persistence.AuthServerName sum224 entry.Name).AuthServerKey
        ≠ lasm.keyer.AuthServerKey) ∧
    ((persistence.AuthServerName sum224 entry.Name).AuthServerKey
        = lasm.keyer.AuthServerKey →
      (lasm.WriteAuthServerEntry sum224 quote entry s).puts
          = [⟨lasm.keyer.AuthServerKey, entry⟩] ∧
        (lasm.WriteAuthServerEntry sum224 quote entry s).result
          = (lasm.storage.Put ⟨lasm.keyer.AuthServerKey, entry⟩ s).1 ∧
        (lasm.WriteAuthServerEntry sum224 quote entry s).state
          = (lasm.storage.Put ⟨lasm.keyer.AuthServerKey, entry⟩ s).2) := by
  by_cases hk : (persistence.AuthServerName sum224 entry.Name).AuthServerKey
      = lasm.keyer.AuthServerKey
  · have hrun : lasm.WriteAuthServerEntry sum224 quote entry s
        = ⟨(lasm.storage.Put ⟨lasm.keyer.AuthServerKey, entry⟩ s).1,
            (lasm.storage.Put ⟨lasm.keyer.AuthServerKey, entry⟩ s).2,
            [⟨lasm.keyer.AuthServerKey, entry⟩]⟩ := by
      simp [persistence.LockedAuthServerManager.WriteAuthServerEntry, hk,
        logical.StorageEntryJSON]
    rw [hrun]
    simp [hk]
  · have hrun : lasm.WriteAuthServerEntry sum224 quote entry s
        = ⟨some ⟨"writing authorization server: name " ++ quote entry.Name ++
            " does not correspond to storage key", false⟩, s, []⟩ := by
      simp [persistence.LockedAuthServerManager.WriteAuthServerEntry, hk]
    rw [hrun]
    simp [hk]

/-- C20 at a concrete input: a manager opened with the keyer of the server
`mock` puts the entry named `mock` under the key of that keyer and returns
nil. -/
theorem WriteAuthServerEntry_sanity_witness :
    (persistence.LockedAuthServerManager.WriteAuthServerEntry Example.sum224 Example.quote
        ⟨Example.serverStorage, persistence.AuthServerName Example.sum224 "mock"⟩
        (Example.serverEntry "mock") []).puts
      = [⟨(persistence.AuthServerName Example.sum224 "mock").AuthServerKey,
          Example.serverEntry "mock"⟩] ∧
    (persistence.LockedAuthServerManager.WriteAuthServerEntry Example.sum224 Example.quote
        ⟨Example.serverStorage, persistence.AuthServerName Example.sum224 "mock"⟩
        (Example.serverEntry "mock") []).result = none :=
  have h := (WriteAuthServerEntry_sanity Example.sum224 Example.quote
    ⟨Example.serverStorage, persistence.AuthServerName Example.sum224 "mock"⟩
    (Example.serverEntry "mock") []).2 rfl
  ⟨h.1, h.2.1⟩

/-! ## Monotonicity of the reap decision and of token validity -/

theorem after_mono (x now now1 : Time) (hle : now ≤ now1)
    (h : Time.After x now1 = true) : Time.After x now = true := by
  simp only [Time.After, decide_eq_true_eq] at h ⊢
  exact lt_of_le_of_lt hle h

/-- C27: the reap decision is monotone in time: if `Check` reaps an entry at a
clock reading, it reaps the same entry, with the same reason, at every later
clock reading. -/
theorem check_monotone (quote : String → String) (acc : reap.AuthCodeChecker)
    (now now1 : Time) (entry : persistence.AuthCodeEntry) (reason : String)
    (hle : now ≤ now1)
    (h : reap.AuthCodeChecker.Check quote acc now entry = some reason) :
    reap.AuthCodeChecker.Check quote acc now1 entry = some reason := by
  have hA := fun x => after_mono x now now1 hle
  unfold reap.AuthCodeChecker.Check at h ⊢
  split_ifs at h ⊢ with h1 h2 h3 h4 h5 h6 h7 h8 h9 h10 h11 h12 h13 h14 h15 h16
  all_goals first
    | exact h
    | (simp_all; done)
    | (exfalso
       rename_i hor hand
       rcases hor with hx | hx
       · simp_all
       · have hy := hA _ hx
         simp_all)

/-- C27 at a concrete input: an entry with a user error, reaped five minutes
after its last attempted issue, is reaped one minute later too. -/
theorem check_monotone_witness :
    reap.AuthCodeChecker.Check Example.quote Example.checker (Example.t0 + 6 * Minute)
        (Example.entry none "revoked" "" 0) = some "token revoked: revoked" :=
  check_monotone Example.quote Example.checker (Example.t0 + 5 * Minute)
    (Example.t0 + 6 * Minute) (Example.entry none "revoked" "" 0) "token revoked: revoked"
    (by decide) (by decide)

/-- C28: an entry with an empty user error and a transient-error count that is
positive and below `transientErrorAttempts` is kept by `Check` at every clock
reading and for every setting of the TTLs, whatever the auth-server error and
the token of the entry. -/
theorem check_below_attempts (quote : String → String) (acc : reap.AuthCodeChecker)
    (now : Time) (entry : persistence.AuthCodeEntry)
    (huser : entry.UserError = "")
    (hpos : 0 < entry.TransientErrorsSinceLastIssue)
    (hbelow : entry.TransientErrorsSinceLastIssue < acc.transientErrorAttempts) :
    reap.AuthCodeChecker.Check quote acc now entry = none := by
  unfold reap.AuthCodeChecker.Check
  simp only [huser, bne_self_eq_false, Bool.false_eq_true, if_false, gt_iff_lt, hpos, if_true,
    hbelow]
  split_ifs <;> rfl

/-- C28 at a concrete input: two transient errors under a threshold of three,
on an entry that also has an auth-server error whose server-deleted TTL has
elapsed and an expired token without refresh token whose non-refreshable TTL
has elapsed; the entry is kept, while without the transient errors it is
reaped. -/
theorem check_below_attempts_witness :
    reap.AuthCodeChecker.Check Example.quote Example.checker (Example.t0 + 60 * Minute)
        (Example.entry (some (Example.token "tok" "" (Example.t0 + Minute))) "" "no such server"
          2) = none ∧
    reap.AuthCodeChecker.Check Example.quote Example.checker (Example.t0 + 60 * Minute)
        (Example.entry (some (Example.token "tok" "" (Example.t0 + Minute))) "" "no such server"
          0) ≠ none ∧
    reap.AuthCodeChecker.Check Example.quote Example.checker (Example.t0 + 60 * Minute)
        (Example.entry (some (Example.token "tok" "" (Example.t0 + Minute))) "" "" 0) ≠ none :=
  ⟨check_below_attempts Example.quote Example.checker (Example.t0 + 60 * Minute)
    (Example.entry (some (Example.token "tok" "" (Example.t0 + Minute))) "" "no such server" 2)
    rfl (by decide) (by decide), by decide, by decide⟩

/-- C29: token validity is antitone in the requested delta: a token valid
under a delta is valid under every smaller delta; and a token valid under any
delta, such as the delta of an STS read for any `minimum_seconds`, is valid
under the default delta of 10 seconds at the same clock reading, so the sweep
of `storeExchangedToken` keeps every cached binding whose token a reader
accepts at that instant. -/
theorem tokenValid_antitone (now : Time) (tok : Option oauth2.Token) (d d1 : Duration)
    (hle : d ≤ d1) (hvalid : tokenValid now tok d1 = true) :
    tokenValid now tok d = true ∧
    tokenValid now tok defaultExpiryDelta = true ∧
    (∀ (minimum_seconds : Int) (t : Option oauth2.Token),
      tokenValid now t (wrap64 (minimum_seconds * Second)) = true →
      tokenValid now t defaultExpiryDelta = true) ∧
    (∀ (minimum_seconds : Int) (cache : List (String × Option oauth2.Token)) (k : String)
        (t : Option oauth2.Token),
      (k, t) ∈ cache → tokenValid now t (wrap64 (minimum_seconds * Second)) = true →
      (k, t) ∈ cache.filter fun kt => tokenValid now kt.2 defaultExpiryDelta) := by
  have hdown : ∀ (t : Option oauth2.Token) (a b : Duration), a ≤ b →
      tokenValid now t b = true → tokenValid now t a = true := by
    intro t a b hab hb
    obtain ⟨u, hu, hacc, hexp⟩ := (tokenValid_bound now t b).mp hb
    refine (tokenValid_bound now t a).mpr ⟨u, hu, hacc, ?_⟩
    rcases hexp with hz | hexp
    · exact Or.inl hz
    · right
      have : max a (10 * Second) ≤ max b (10 * Second) := max_le_max hab le_rfl
      linarith
  have hdefault : ∀ (t : Option oauth2.Token) (b : Duration),
      tokenValid now t b = true → tokenValid now t defaultExpiryDelta = true := by
    intro t b hb
    obtain ⟨u, hu, hacc, hexp⟩ := (tokenValid_bound now t b).mp hb
    refine (tokenValid_bound now t defaultExpiryDelta).mpr ⟨u, hu, hacc, ?_⟩
    rcases hexp with hz | hexp
    · exact Or.inl hz
    · right
      have h1 : max defaultExpiryDelta (10 * Second) = 10 * Second := max_eq_right le_rfl
      have h2 : 10 * Second ≤ max b (10 * Second) := le_max_right _ _
      rw [h1]
      linarith
  refine ⟨hdown tok d d1 hle hvalid, hdefault tok d1 hvalid, fun ms t ht => hdefault t _ ht,
    fun ms cache k t hmem ht => ?_⟩
  exact List.mem_filter.mpr ⟨hmem, hdefault t _ ht⟩

/-- C29 at a concrete input: a token valid for a requested minute is valid for
a requested half minute and under the default delta. -/
theorem tokenValid_antitone_witness :
    tokenValid Example.t0 (some (Example.token "x" "" (Example.t0 + 2 * Minute)).Token)
        (30 * Second) = true ∧
    tokenValid Example.t0 (some (Example.token "x" "" (Example.t0 + 2 * Minute)).Token)
        defaultExpiryDelta = true :=
  have h := tokenValid_antitone Example.t0
    (some (Example.token "x" "" (Example.t0 + 2 * Minute)).Token) (30 * Second) (60 * Second)
    (by decide) (by decide)
  ⟨h.1, h.2.1⟩

/-! ## The exchanged-token store on a missing credential -/

/-- C30: `storeExchangedToken` never recreates a deleted credential.  When the
read under the lock answers that the entry is absent, the call returns nil, and
when it answers an error, the call returns that error; in both cases its
interactions are the lock, the read and the release, without any storage write,
and the in-memory store is left as it was. -/
theorem storeExchangedToken_absent {σ : Type} (h : Handler σ) (s s1 : σ)
    (keyer : persistence.AuthCodeKeyer) (exchangeKey : String) (tok : oauth2.Token)
    (answer : Except Err (Option persistence.AuthCodeEntry))
    (hread : h.readAuthCodeEntry keyer (h.lock keyer s) = (answer, s1))
    (hnone : ∀ entry, answer ≠ .ok (some entry)) :
    ((storeExchangedToken keyer exchangeKey tok).run h s).result
      = (match answer with
         | .error err => some err
         | .ok _ => none) ∧
    ((storeExchangedToken keyer exchangeKey tok).run h s).events
      = [.lock keyer, .readAuthCodeEntry keyer, .unlock keyer] ∧
    ((storeExchangedToken keyer exchangeKey tok).run h s).events.countP Event.isWrite = 0 ∧
    ((storeExchangedToken keyer exchangeKey tok).run h s).state = h.unlock keyer s1 ∧
    (∀ m : Sim, (m.readError ≠ none ∨ mapGet m.store keyer = none) →
      ((storeExchangedToken keyer exchangeKey tok).run Sim.handler m).state = m ∧
      ((storeExchangedToken keyer exchangeKey tok).run Sim.handler m).events.countP
        Event.isWrite = 0) := by
  have hsim : ∀ m : Sim, (m.readError ≠ none ∨ mapGet m.store keyer = none) →
      ((storeExchangedToken keyer exchangeKey tok).run Sim.handler m).state = m ∧
      ((storeExchangedToken keyer exchangeKey tok).run Sim.handler m).events.countP
        Event.isWrite = 0 := by
    intro m hm
    cases hre : m.readError with
    | some err =>
      have hr : Sim.handler.readAuthCodeEntry keyer (Sim.handler.lock keyer m)
          = (.error err, m) := by
        simp [Sim.handler, hre]
      rw [storeExchangedToken_run_readError Sim.handler m m keyer exchangeKey tok err hr]
      exact ⟨rfl, rfl⟩
    | none =>
      have hget : mapGet m.store keyer = none := by
        rcases hm with hm | hm
        · exact absurd hre hm
        · exact hm
      have hr : Sim.handler.readAuthCodeEntry keyer (Sim.handler.lock keyer m)
          = (.ok none, m) := by
        simp [Sim.handler, hre, hget]
      rw [storeExchangedToken_run_absent Sim.handler m m keyer exchangeKey tok hr]
      exact ⟨rfl, rfl⟩
  cases answer with
  | error err =>
    rw [storeExchangedToken_run_readError h s s1 keyer exchangeKey tok err hread]
    exact ⟨rfl, rfl, rfl, rfl, hsim⟩
  | ok found =>
    cases found with
    | some entry => exact absurd rfl (hnone entry)
    | none =>
      rw [storeExchangedToken_run_absent h s s1 keyer exchangeKey tok hread]
      exact ⟨rfl, rfl, rfl, rfl, hsim⟩

/-- C30 at a concrete input: storing an exchanged token for the credential
`gone`, which the store does not hold, returns nil and leaves the store with
the credential `cred` alone. -/
theorem storeExchangedToken_absent_witness :
    ((storeExchangedToken "gone" "scopes=a,audiences=,resources="
        (stsReadOperation.cached (Example.token "x" "" (Example.t0 + 7 * Minute)))).run
      Sim.handler Example.cacheSim).result = none ∧
    ((storeExchangedToken "gone" "scopes=a,audiences=,resources="
        (stsReadOperation.cached (Example.token "x" "" (Example.t0 + 7 * Minute)))).run
      Sim.handler Example.cacheSim).state.store = [("cred", Example.validEntry)] :=
  have h := storeExchangedToken_absent Sim.handler Example.cacheSim Example.cacheSim "gone"
    "scopes=a,audiences=,resources="
    (stsReadOperation.cached (Example.token "x" "" (Example.t0 + 7 * Minute))) (.ok none) rfl
    (fun entry hentry => by cases hentry)
  ⟨h.1, congrArg Sim.store (h.2.2.2.2 Example.cacheSim (Or.inr rfl)).1⟩

/-! ## The refresh descriptor -/

/-- C23: when the configuration has been read and the tuning in force, that of
the stored configuration or the default one when none is stored, has a
refresh-check interval of zero or less, `refreshDescriptor.Run` returns nil at
once, whatever the collaborators would do: it enumerates no credential and
dispatches no refresh process. -/
theorem refreshDescriptor_disabled (DefaultConfigTuningEntry : persistence.ConfigTuningEntry)
    (expiryDelta : persistence.ConfigTuningEntry → Duration)
    (cfg : Option persistence.ConfigEntry) (ticks : Nat → Tick) (fuel : Nat)
    (hinterval : (refreshDescriptor.tuning DefaultConfigTuningEntry
      cfg).RefreshCheckIntervalSeconds ≤ 0) :
    refreshDescriptor.Run DefaultConfigTuningEntry expiryDelta (.ok cfg) ticks fuel
      = some (none, []) := by
  simp only [refreshDescriptor.Run, hinterval, if_true]

/-- C23 at a concrete input: with a stored interval of 0 the descriptor returns
nil without any interaction, while with the default interval of 60 seconds the
same collaborators see an enumeration and a dispatch on the first pass. -/
theorem refreshDescriptor_disabled_witness :
    refreshDescriptor.Run (Example.tuning 60) Example.expiryDelta
        (.ok (some ⟨Example.tuning 0⟩)) (fun _ => Example.lastTick) 5 = some (none, []) ∧
    refreshDescriptor.Run (Example.tuning 60) Example.expiryDelta
        (.ok none) (fun _ => Example.lastTick) 5
      = some (none, [.enumerate, .dispatch ⟨"cred", 60 * Second⟩, .wait (60 * Second)]) :=
  ⟨refreshDescriptor_disabled (Example.tuning 60) Example.expiryDelta
    (some ⟨Example.tuning 0⟩) (fun _ => Example.lastTick) 5 (by decide), by decide⟩

theorem work_enumerates (expiryDelta : Duration) (tick : Tick) :
    (refreshDescriptor.work expiryDelta tick).2.countP DescriptorEvent.isEnumerate = 1 := by
  have hnone : ∀ keys : List (persistence.AuthCodeKeyer × Bool),
      (keys.filterMap fun kb =>
        if kb.2 then some (DescriptorEvent.dispatch ⟨kb.1, expiryDelta⟩) else none).countP
        DescriptorEvent.isEnumerate = 0 := by
    intro keys
    induction keys with
    | nil => rfl
    | cons kb keys ih =>
      by_cases hsent : kb.2 = true
      · simp only [List.filterMap_cons, hsent, if_true, List.countP_cons, ih,
          DescriptorEvent.isEnumerate]
        rfl
      · simp only [List.filterMap_cons, hsent, Bool.false_eq_true, if_false, ih]
  unfold refreshDescriptor.work
  cases tick.enumerationError <;>
    simp only [List.countP_cons, hnone, DescriptorEvent.isEnumerate] <;> rfl

theorem passes_enumerate (expiryDelta backoff : Duration) (ticks : Nat → Tick) (n k : Nat) :
    (refreshDescriptor.passes expiryDelta backoff ticks n k).countP
      DescriptorEvent.isEnumerate = n := by
  induction n generalizing k with
  | zero => rfl
  | succ n ih =>
    simp only [refreshDescriptor.passes, List.countP_append, List.countP_cons, work_enumerates,
      ih, DescriptorEvent.isEnumerate]
    simp
    omega

/-- The retry loop over `n` passes without enumeration error and without
cancellation: it goes on with the pass `k + n`. -/
theorem wait_quiet (expiryDelta backoff : Duration) (ticks : Nat → Tick) (n fuel k : Nat)
    (hquiet : ∀ i, i < n →
      (ticks (k + i)).enumerationError = none ∧ (ticks (k + i)).contextDone = none) :
    retry.Wait (fun n => refreshDescriptor.work expiryDelta (ticks n))
        (fun n => (ticks n).contextDone) backoff (n + fuel) k
      = (retry.Wait (fun n => refreshDescriptor.work expiryDelta (ticks n))
          (fun n => (ticks n).contextDone) backoff fuel (k + n)).map fun r =>
          (r.1, refreshDescriptor.passes expiryDelta backoff ticks n k ++ r.2) := by
  induction n generalizing k with
  | zero =>
    simp only [Nat.zero_add, Nat.add_zero, refreshDescriptor.passes, List.nil_append]
    cases retry.Wait (fun n => refreshDescriptor.work expiryDelta (ticks n))
      (fun n => (ticks n).contextDone) backoff fuel k <;> rfl
  | succ n ih =>
    have h0 := hquiet 0 (Nat.succ_pos n)
    rw [Nat.add_zero] at h0
    have hrest : ∀ i, i < n → (ticks (k + 1 + i)).enumerationError = none ∧
        (ticks (k + 1 + i)).contextDone = none := by
      intro i hi
      have := hquiet (i + 1) (Nat.succ_lt_succ hi)
      rwa [show k + (i + 1) = k + 1 + i by omega] at this
    have hwork : refreshDescriptor.work expiryDelta (ticks k)
        = ((false, none), (refreshDescriptor.work expiryDelta (ticks k)).2) := by
      simp only [refreshDescriptor.work, h0.1, retry.Repeat]
    rw [show n + 1 + fuel = (n + fuel) + 1 by omega]
    rw [retry.Wait, hwork]
    simp only [h0.2]
    rw [ih (k + 1) hrest, show k + 1 + n = k + (n + 1) by omega]
    cases retry.Wait (fun n => refreshDescriptor.work expiryDelta (ticks n))
      (fun n => (ticks n).contextDone) backoff fuel (k + (n + 1)) with
    | none => rfl
    | some r =>
      simp only [Option.map_some', refreshDescriptor.passes, List.append_assoc,
        List.cons_append]

theorem descriptor_enabled (DefaultConfigTuningEntry : persistence.ConfigTuningEntry)
    (expiryDelta : persistence.ConfigTuningEntry → Duration)
    (cfg : Option persistence.ConfigEntry) (ticks : Nat → Tick) (fuel : Nat)
    (hinterval : 0 < (refreshDescriptor.tuning DefaultConfigTuningEntry
      cfg).RefreshCheckIntervalSeconds) :
    refreshDescriptor.Run DefaultConfigTuningEntry expiryDelta (.ok cfg) ticks fuel
      = (retry.Wait
          (fun n => refreshDescriptor.work
            (expiryDelta (refreshDescriptor.tuning DefaultConfigTuningEntry cfg)) (ticks n))
          (fun n => (ticks n).contextDone)
          (wrap64 ((refreshDescriptor.tuning DefaultConfigTuningEntry
            cfg).RefreshCheckIntervalSeconds * Second)) fuel 0).map fun r =>
          (refreshDescriptor.returned r.1, r.2) := by
  simp only [refreshDescriptor.Run, not_le.mpr hinterval, if_false]

/-- C24 (as stated, refuted): with the default interval of 60 seconds, the
enumeration of the first pass fails with a storage error while every later pass
would succeed; `Run` returns that error after the one enumeration, so the loop
has ended and no enumeration is attempted again. -/
theorem refreshDescriptor_loop_counterexample :
    refreshDescriptor.Run (Example.tuning 60) Example.expiryDelta (.ok none)
        (fun n => if n = 0 then Example.failingTick else Example.quietTick) 5
      = some (some ⟨⟨"storage failure", false⟩, false, false⟩, [.enumerate]) := by
  decide

/-- C24 (amended): with a positive refresh-check interval, as long as the
enumerations succeed and the context is not done, the loop of the descriptor
goes on, one enumeration per pass and a wait between passes.  The first error
returned by an enumeration ends the loop: `Run` returns that error, or nil when
it is a cancellation or an expired deadline, and no enumeration follows.  When
the context is done during a wait, the loop ends and `Run` returns nil. -/
theorem refreshDescriptor_loop (DefaultConfigTuningEntry : persistence.ConfigTuningEntry)
    (expiryDelta : persistence.ConfigTuningEntry → Duration)
    (cfg : Option persistence.ConfigEntry) (ticks : Nat → Tick) (n : Nat)
    (tuning : persistence.ConfigTuningEntry) (backoff : Duration)
    (htuning : refreshDescriptor.tuning DefaultConfigTuningEntry cfg = tuning)
    (hbackoff : wrap64 (tuning.RefreshCheckIntervalSeconds * Second) = backoff)
    (hinterval : 0 < tuning.RefreshCheckIntervalSeconds)
    (hquiet : ∀ i, i < n →
      (ticks i).enumerationError = none ∧ (ticks i).contextDone = none) :
    (∀ fuel, fuel ≤ n →
      refreshDescriptor.Run DefaultConfigTuningEntry expiryDelta (.ok cfg) ticks fuel = none) ∧
    (∀ fuel err, n < fuel → (ticks n).enumerationError = some err →
      refreshDescriptor.Run DefaultConfigTuningEntry expiryDelta (.ok cfg) ticks fuel
        = some (if err.isCanceled || err.isDeadlineExceeded then none else some err,
            refreshDescriptor.passes (expiryDelta tuning) backoff ticks n 0 ++
              (refreshDescriptor.work (expiryDelta tuning) (ticks n)).2)) ∧
    (∀ fuel cause, n < fuel → (ticks n).enumerationError = none →
      (ticks n).contextDone = some cause →
      refreshDescriptor.Run DefaultConfigTuningEntry expiryDelta (.ok cfg) ticks fuel
        = some (none,
            refreshDescriptor.passes (expiryDelta tuning) backoff ticks n 0 ++
              ((refreshDescriptor.work (expiryDelta tuning) (ticks n)).2 ++
                [.wait backoff]))) ∧
    (refreshDescriptor.passes (expiryDelta tuning) backoff ticks n 0 ++
      (refreshDescriptor.work (expiryDelta tuning) (ticks n)).2).countP
        DescriptorEvent.isEnumerate = n + 1 := by
  subst htuning
  subst hbackoff
  have hq : ∀ i, i < n → (ticks (0 + i)).enumerationError = none ∧
      (ticks (0 + i)).contextDone = none := by
    intro i hi
    rw [Nat.zero_add]
    exact hquiet i hi
  refine ⟨?_, ?_, ?_, ?_⟩
  · intro fuel hfuel
    have hq' : ∀ i, i < fuel → (ticks (0 + i)).enumerationError = none ∧
        (ticks (0 + i)).contextDone = none := fun i hi => hq i (lt_of_lt_of_le hi hfuel)
    have h := wait_quiet
      (expiryDelta (refreshDescriptor.tuning DefaultConfigTuningEntry cfg))
      (wrap64 ((refreshDescriptor.tuning DefaultConfigTuningEntry
        cfg).RefreshCheckIntervalSeconds * Second)) ticks fuel 0 0 hq'
    rw [descriptor_enabled _ _ _ _ _ hinterval]
    rw [Nat.add_zero] at h
    rw [h]
    rfl
  · intro fuel err hfuel herr
    obtain ⟨m, rfl⟩ : ∃ m, fuel = n + (m + 1) := ⟨fuel - n - 1, by omega⟩
    rw [descriptor_enabled _ _ _ _ _ hinterval, wait_quiet _ _ ticks n (m + 1) 0 hq, Nat.zero_add,
      retry.Wait]
    simp only [refreshDescriptor.work, herr, retry.Done, Option.map_some',
      refreshDescriptor.returned]
  · intro fuel cause hfuel herr hdone
    obtain ⟨m, rfl⟩ : ∃ m, fuel = n + (m + 1) := ⟨fuel - n - 1, by omega⟩
    rw [descriptor_enabled _ _ _ _ _ hinterval, wait_quiet _ _ ticks n (m + 1) 0 hq, Nat.zero_add,
      retry.Wait]
    have hret : refreshDescriptor.returned (some cause.wrapped) = none := by
      cases cause <;> rfl
    simp only [refreshDescriptor.work, herr, retry.Repeat, hdone, Option.map_some', hret]
  · rw [List.countP_append, passes_enumerate, work_enumerates]

/-- C24 (amended) at a concrete input: two passes succeed, the enumeration of
the third fails with a storage error, and `Run` returns that error after three
enumerations; when instead the context is cancelled during the wait after the
third pass, `Run` returns nil. -/
theorem refreshDescriptor_loop_witness :
    refreshDescriptor.Run (Example.tuning 60) Example.expiryDelta (.ok none)
        (fun n => if n < 2 then Example.quietTick else Example.failingTick) 5
      = some (some ⟨⟨"storage failure", false⟩, false, false⟩,
          [.enumerate, .dispatch ⟨"cred", 60 * Second⟩, .wait (60 * Second),
           .enumerate, .dispatch ⟨"cred", 60 * Second⟩, .wait (60 * Second),
           .enumerate]) ∧
    refreshDescriptor.Run (Example.tuning 60) Example.expiryDelta (.ok none)
        (fun n => if n < 2 then Example.quietTick else Example.lastTick) 5
      = some (none,
          [.enumerate, .dispatch ⟨"cred", 60 * Second⟩, .wait (60 * Second),
           .enumerate, .dispatch ⟨"cred", 60 * Second⟩, .wait (60 * Second),
           .enumerate, .dispatch ⟨"cred", 60 * Second⟩, .wait (60 * Second)]) :=
  ⟨(refreshDescriptor_loop (Example.tuning 60) Example.expiryDelta none
      (fun n => if n < 2 then Example.quietTick else Example.failingTick) 2
      (Example.tuning 60) (60 * Second) rfl (by decide) (by decide)
      (fun i hi => by simp [hi, Example.quietTick])).2.1 5
        ⟨⟨"storage failure", false⟩, false, false⟩ (by decide) rfl,
   (refreshDescriptor_loop (Example.tuning 60) Example.expiryDelta none
      (fun n => if n < 2 then Example.quietTick else Example.lastTick) 2
      (Example.tuning 60) (60 * Second) rfl (by decide) (by decide)
      (fun i hi => by simp [hi, Example.quietTick])).2.2.1 5 .Canceled (by decide) rfl rfl⟩

/-! ## Reading and listing server entries -/

/-- C22 (as stated, refuted): the entry `mock` is written under the key of its
name and its stored name is then changed to `other`, whose key is a different
one; `ReadAuthServerEntry` under the key of `mock` returns the entry named
`other` with a nil error. -/
theorem ReadAuthServerEntry_mismatch_counterexample :
    (persistence.AuthServerName Example.sum224 "other").AuthServerKey
      ≠ (persistence.AuthServerName Example.sum224 "mock").AuthServerKey ∧
    (persistence.LockedAuthServerManager.ReadAuthServerEntry
        ⟨Example.serverStorage, persistence.AuthServerName Example.sum224 "mock"⟩
        Example.renamedStored).1
      = .ok (some (Example.serverEntry "other")) :=
  ⟨by decide, rfl⟩

/-- C22 (amended): `ReadAuthServerEntry` does not compare the stored name with
the key.  Whenever the storage holds a decodable value under the key of the
keyer, the read returns its entry with a nil error and with the stored name,
whether or not that name derives the key; the entry is the stored one when
there is no legacy client secret.  A mismatch is caught when the entry is
written back: `WriteAuthServerEntry` under the same keyer returns an error
without a `Put`. -/
theorem ReadAuthServerEntry_unchecked {σ : Type} (lasm : persistence.LockedAuthServerManager σ)
    (s s1 : σ) (entry : persistence.AuthServerEntry) (client_secret : String)
    (hget : lasm.storage.Get lasm.keyer.AuthServerKey s
      = (.ok (some (.json entry client_secret)), s1)) :
    ∃ found : persistence.AuthServerEntry,
      lasm.ReadAuthServerEntry s = (.ok (some found), s1) ∧
      found.Name = entry.Name ∧
      (client_secret = "" → found = entry) ∧
      (∀ (sum224 : String → sha256.Digest224) (quote : String → String),
        (persistence.AuthServerName sum224 entry.Name).AuthServerKey
          ≠ lasm.keyer.AuthServerKey →
        (lasm.WriteAuthServerEntry sum224 quote found s1).result ≠ none ∧
        (lasm.WriteAuthServerEntry sum224 quote found s1).puts = []) := by
  have hwrite : ∀ (found : persistence.AuthServerEntry), found.Name = entry.Name →
      ∀ (sum224 : String → sha256.Digest224) (quote : String → String),
        (persistence.AuthServerName sum224 entry.Name).AuthServerKey
          ≠ lasm.keyer.AuthServerKey →
        (lasm.WriteAuthServerEntry sum224 quote found s1).result ≠ none ∧
        (lasm.WriteAuthServerEntry sum224 quote found s1).puts = [] := by
    intro found hname sum224 quote hne
    rw [← hname] at hne
    simp [persistence.LockedAuthServerManager.WriteAuthServerEntry, hne]
  by_cases hlegacy : client_secret = ""
  · refine ⟨entry, ?_, rfl, fun _ => rfl, hwrite entry rfl⟩
    simp [persistence.LockedAuthServerManager.ReadAuthServerEntry, hget, hlegacy]
  · refine ⟨{ entry with ClientSecrets := client_secret :: entry.ClientSecrets }, ?_, rfl,
      fun h => absurd h hlegacy, hwrite _ rfl⟩
    simp [persistence.LockedAuthServerManager.ReadAuthServerEntry, hget, hlegacy]

/-- C22 (amended) at a concrete input: the entry renamed to `other` under the
key of `mock` is read back as it is, and writing it back under that key is
refused. -/
theorem ReadAuthServerEntry_unchecked_witness :
    ∃ found : persistence.AuthServerEntry,
      persistence.LockedAuthServerManager.ReadAuthServerEntry
          ⟨Example.serverStorage, persistence.AuthServerName Example.sum224 "mock"⟩
          Example.renamedStored
        = (.ok (some found),
            Example.renamedStored) ∧
      found.Name = "other" ∧
      (persistence.LockedAuthServerManager.WriteAuthServerEntry Example.sum224 Example.quote
          ⟨Example.serverStorage, persistence.AuthServerName Example.sum224 "mock"⟩ found
          Example.renamedStored).result
        ≠ none :=
  match ReadAuthServerEntry_unchecked
      ⟨Example.serverStorage, persistence.AuthServerName Example.sum224 "mock"⟩
      Example.renamedStored
      Example.renamedStored
      (Example.serverEntry "other") "" rfl with
  | ⟨found, hread, hname, _, hwrite⟩ =>
    ⟨found, hread, hname, (hwrite Example.sum224 Example.quote (by decide)).1⟩

theorem bytesLE_total : ∀ x y : List Char, bytesLE x y = true ∨ bytesLE y x = true := by
  intro x
  induction x with
  | nil => intro y; exact Or.inl rfl
  | cons a as ih =>
    intro y
    cases y with
    | nil => exact Or.inr rfl
    | cons b bs =>
      simp only [bytesLE, Bool.or_eq_true, decide_eq_true_eq, Bool.and_eq_true, beq_iff_eq]
      rcases lt_trichotomy a b with hlt | heq | hgt
      · exact Or.inl (Or.inl hlt)
      · rcases ih bs with h | h
        · exact Or.inl (Or.inr ⟨heq, h⟩)
        · exact Or.inr (Or.inr ⟨heq.symm, h⟩)
      · exact Or.inr (Or.inl hgt)

theorem bytesLE_trans : ∀ x y z : List Char,
    bytesLE x y = true → bytesLE y z = true → bytesLE x z = true := by
  intro x
  induction x with
  | nil => intro y z _ _; rfl
  | cons a as ih =>
    intro y z hxy hyz
    cases y with
    | nil => simp [bytesLE] at hxy
    | cons b bs =>
      cases z with
      | nil => simp [bytesLE] at hyz
      | cons c cs =>
        simp only [bytesLE, Bool.or_eq_true, decide_eq_true_eq, Bool.and_eq_true,
          beq_iff_eq] at hxy hyz ⊢
        rcases hxy with hab | ⟨hab, hrest⟩
        · rcases hyz with hbc | ⟨hbc, _⟩
          · exact Or.inl (lt_trans hab hbc)
          · exact Or.inl (hbc ▸ hab)
        · rcases hyz with hbc | ⟨hbc, hrest1⟩
          · exact Or.inl (hab ▸ hbc)
          · exact Or.inr ⟨hab.trans hbc, ih bs cs hrest hrest1⟩

theorem sort_Strings_sorted (l : List String) :
    (sort.Strings l).Sorted fun a b => bytesLE a.data b.data = true := by
  haveI : IsTotal String (fun a b => bytesLE a.data b.data = true) :=
    ⟨fun a b => bytesLE_total a.data b.data⟩
  haveI : IsTrans String (fun a b => bytesLE a.data b.data = true) :=
    ⟨fun a b c => bytesLE_trans a.data b.data c.data⟩
  exact List.sorted_insertionSort _ l

theorem sort_Strings_perm (l : List String) : (sort.Strings l).Perm l :=
  List.perm_insertionSort _ l

theorem ReadAuthServerEntry_name {σ : Type} (storage : logical.Storage σ)
    (keyer : persistence.AuthServerKeyer) (s s1 : σ) (entry : persistence.AuthServerEntry)
    (client_secret : String)
    (hget : storage.Get keyer.AuthServerKey s = (.ok (some (.json entry client_secret)), s1)) :
    ∃ found : persistence.AuthServerEntry,
      persistence.AuthServerManager.ReadAuthServerEntry storage keyer s
        = (.ok (some found), s1) ∧ found.Name = entry.Name := by
  by_cases hlegacy : client_secret = ""
  · refine ⟨entry, ?_, rfl⟩
    simp [persistence.AuthServerManager.ReadAuthServerEntry,
      persistence.LockedAuthServerManager.ReadAuthServerEntry, hget, hlegacy]
  · refine ⟨{ entry with ClientSecrets := client_secret :: entry.ClientSecrets }, ?_, rfl⟩
    simp [persistence.AuthServerManager.ReadAuthServerEntry,
      persistence.LockedAuthServerManager.ReadAuthServerEntry, hget, hlegacy]

/-- The scan of `serversListOperation` over paths whose values decode: it
appends the names that derive their keys. -/
theorem scan_visit {σ : Type} (sum224 : String → sha256.Digest224) (storage : logical.Storage σ)
    (entryAt : String → persistence.AuthServerEntry) (secretAt : String → String) :
    ∀ (paths : List String) (acc : List String) (s : σ),
      (∀ path, path ∈ paths → storage.Get (persistence.authServerKeyPrefix ++ path) s
        = (.ok (some (.json (entryAt path) (secretAt path))), s)) →
      vaultext.ScanView paths none
          (fun path => serversListOperation.visit sum224 storage ⟨path⟩) (acc, s)
        = .ok (acc ++ paths.filterMap fun path =>
            if (persistence.AuthServerName sum224 (entryAt path).Name).AuthServerKey
                = persistence.authServerKeyPrefix ++ path then
              some (entryAt path).Name
            else none, s) := by
  intro paths
  induction paths with
  | nil =>
    intro acc s _
    simp [vaultext.ScanView]
  | cons path paths ih =>
    intro acc s hget
    obtain ⟨found, hread, hname⟩ := ReadAuthServerEntry_name storage ⟨path⟩ s s (entryAt path)
      (secretAt path) (hget path (List.mem_cons_self _ _))
    have hrest := ih
    by_cases hkey : (persistence.AuthServerName sum224 (entryAt path).Name).AuthServerKey
        = persistence.authServerKeyPrefix ++ path
    · have hvisit : serversListOperation.visit sum224 storage ⟨path⟩ (acc, s)
          = .ok (acc ++ [(entryAt path).Name], s) := by
        have hkey1 : (persistence.AuthServerName sum224 (entryAt path).Name).AuthServerKey
            = persistence.AuthServerKey.AuthServerKey ⟨path⟩ := hkey
        simp [serversListOperation.visit, hread, hname, hkey1]
      rw [vaultext.ScanView]
      simp only [hvisit]
      rw [ih _ s fun p hp => hget p (List.mem_cons_of_mem _ hp)]
      simp [List.filterMap_cons, hkey]
    · have hvisit : serversListOperation.visit sum224 storage ⟨path⟩ (acc, s)
          = .ok (acc, s) := by
        have hkey1 : ¬ (persistence.AuthServerName sum224 (entryAt path).Name).AuthServerKey
            = persistence.AuthServerKey.AuthServerKey ⟨path⟩ := hkey
        simp [serversListOperation.visit, hread, hname, hkey1]
      rw [vaultext.ScanView]
      simp only [hvisit]
      rw [ih _ s fun p hp => hget p (List.mem_cons_of_mem _ hp)]
      simp [List.filterMap_cons, hkey]

/-- The scan after a first part of the paths that the callback has visited
without failure goes on with the remaining paths, from the accumulator that the
first part has left. -/
theorem ScanView_append {τ : Type} (fn : String → τ → Except Failure τ) (more : List String)
    (listingError : Option Err) :
    ∀ (good : List String) (t t1 : τ),
      vaultext.ScanView good none fn t = .ok t1 →
      vaultext.ScanView (good ++ more) listingError fn t
        = vaultext.ScanView more listingError fn t1 := by
  intro good
  induction good with
  | nil =>
    intro t t1 h
    simp only [vaultext.ScanView, Except.ok.injEq] at h
    rw [List.nil_append, h]
  | cons path good ih =>
    intro t t1 h
    rw [List.cons_append, vaultext.ScanView]
    rw [vaultext.ScanView] at h
    cases hfn : fn path t with
    | error failure =>
      rw [hfn] at h
      cases h
    | ok t2 =>
      rw [hfn] at h
      exact ih t2 t1 h

/-- The visit of a key whose read fails, or whose value does not decode, fails
with that error. -/
theorem visit_fails {σ : Type} (sum224 : String → sha256.Digest224) (storage : logical.Storage σ)
    (path : String) (acc : List String) (s s2 : σ) (err : Err)
    (hget : storage.Get (persistence.authServerKeyPrefix ++ path) s = (.error err, s2) ∨
      storage.Get (persistence.authServerKeyPrefix ++ path) s
        = (.ok (some (.malformed err)), s2)) :
    serversListOperation.visit sum224 storage ⟨path⟩ (acc, s) = .error (.error err) := by
  have hkey : persistence.AuthServerKey.AuthServerKey ⟨path⟩
      = persistence.authServerKeyPrefix ++ path := rfl
  rcases hget with hget | hget
  · simp only [serversListOperation.visit, persistence.AuthServerManager.ReadAuthServerEntry,
      persistence.LockedAuthServerManager.ReadAuthServerEntry, hkey, hget]
  · simp only [serversListOperation.visit, persistence.AuthServerManager.ReadAuthServerEntry,
      persistence.LockedAuthServerManager.ReadAuthServerEntry, hkey, hget]

/-- C21 (as stated, refuted): the storage holds the entry `mock` under the key
of its name and, under another key, a value that does not decode; the listing
fails with the decoding error, so the name `mock` is not returned and the
corrupt value has made the listing fail. -/
theorem serversListOperation_counterexample :
    mapGet Example.corruptStored (persistence.AuthServerName Example.sum224 "mock").AuthServerKey
      = some (.json (Example.serverEntry "mock") "") ∧
    serversListOperation Example.sum224 Example.serverStorage Example.corruptStored
      = .error (.error ⟨"invalid character", false⟩) :=
  ⟨by decide, rfl⟩

/-- C21 (amended): let `good` be enumerated keys, each of which holds a value
that decodes, read without failure and without change of the storage.
(a) When the enumeration yields exactly the keys `good` and ends without error,
`serversListOperation` returns exactly the names of the stored entries whose
name derives, by `AuthServerName`, the key they were read from, in ascending
order; an entry whose stored name does not derive its key does not appear and
does not make the listing fail.
(b) When the enumeration yields exactly the keys `good` and ends with an error,
the listing fails with that error.
(c) When the enumeration yields the keys `good` and then a key whose read fails
or whose value does not decode, the listing fails with the error of that read
or decoding, whatever keys follow and however the enumeration ends. -/
theorem serversListOperation_lists {σ : Type} (sum224 : String → sha256.Digest224)
    (storage : logical.Storage σ) (s1 : σ) (good : List String)
    (entryAt : String → persistence.AuthServerEntry) (secretAt : String → String)
    (hget : ∀ path, path ∈ good → storage.Get (persistence.authServerKeyPrefix ++ path) s1
      = (.ok (some (.json (entryAt path) (secretAt path))), s1)) :
    (∀ s : σ, storage.Scan persistence.authServerKeyPrefix s = ((good, none), s1) →
      ∃ names : List String,
        serversListOperation sum224 storage s = .ok names ∧
        names.Sorted (fun a b => bytesLE a.data b.data = true) ∧
        names.Perm (good.filterMap fun path =>
          if (persistence.AuthServerName sum224 (entryAt path).Name).AuthServerKey
              = persistence.authServerKeyPrefix ++ path then
            some (entryAt path).Name
          else none) ∧
        ∀ name, name ∈ names ↔
          ∃ path, path ∈ good ∧ (entryAt path).Name = name ∧
            (persistence.AuthServerName sum224 name).AuthServerKey
              = persistence.authServerKeyPrefix ++ path) ∧
    (∀ (s : σ) (err : Err),
      storage.Scan persistence.authServerKeyPrefix s = ((good, some err), s1) →
      serversListOperation sum224 storage s = .error (.error err)) ∧
    (∀ (s s2 : σ) (bad : String) (rest : List String) (listingError : Option Err) (err : Err),
      storage.Scan persistence.authServerKeyPrefix s
        = ((good ++ bad :: rest, listingError), s1) →
      (storage.Get (persistence.authServerKeyPrefix ++ bad) s1 = (.error err, s2) ∨
        storage.Get (persistence.authServerKeyPrefix ++ bad) s1
          = (.ok (some (.malformed err)), s2)) →
      serversListOperation sum224 storage s = .error (.error err)) := by
  have hgood := scan_visit sum224 storage entryAt secretAt good [] s1 hget
  refine ⟨?_, ?_, ?_⟩
  · intro s hscan
    refine ⟨sort.Strings (good.filterMap fun path =>
        if (persistence.AuthServerName sum224 (entryAt path).Name).AuthServerKey
            = persistence.authServerKeyPrefix ++ path then
          some (entryAt path).Name
        else none), ?_, sort_Strings_sorted _, sort_Strings_perm _, ?_⟩
    · simp only [serversListOperation, persistence.AuthServerManager.ForEachAuthServerKey,
        hscan, hgood, List.nil_append]
    · intro name
      rw [(sort_Strings_perm _).mem_iff, List.mem_filterMap]
      constructor
      · rintro ⟨path, hpath, hsome⟩
        by_cases hkey : (persistence.AuthServerName sum224 (entryAt path).Name).AuthServerKey
            = persistence.authServerKeyPrefix ++ path
        · rw [if_pos hkey] at hsome
          have hname : (entryAt path).Name = name := Option.some.inj hsome
          exact ⟨path, hpath, hname, hname ▸ hkey⟩
        · rw [if_neg hkey] at hsome
          cases hsome
      · rintro ⟨path, hpath, hname, hkey⟩
        refine ⟨path, hpath, ?_⟩
        rw [hname, if_pos hkey]
  · intro s err hscan
    have h := ScanView_append (fun path => serversListOperation.visit sum224 storage ⟨path⟩)
      [] (some err) good _ _ hgood
    rw [List.append_nil] at h
    simp only [serversListOperation, persistence.AuthServerManager.ForEachAuthServerKey,
      hscan, h, vaultext.ScanView]
  · intro s s2 bad rest listingError err hscan hbad
    have h := ScanView_append (fun path => serversListOperation.visit sum224 storage ⟨path⟩)
      (bad :: rest) listingError good _ _ hgood
    simp only [serversListOperation, persistence.AuthServerManager.ForEachAuthServerKey,
      hscan, h, vaultext.ScanView, visit_fails sum224 storage bad _ s1 s2 err hbad]

/-- C21 (amended) at concrete inputs.  Of the three stored values of
`Example.mixedStored`, the entries `alpha` and `mock` lie under the keys of
their names and the entry `ghost` does not: the listing is `alpha`, `mock`.
When the scan of the same store ends with an error, the listing fails with it.
When a value that does not decode follows the three, the listing fails with the
decoding error. -/
theorem serversListOperation_lists_witness :
    (∃ names : List String,
      serversListOperation Example.sum224 Example.serverStorage Example.mixedStored
        = .ok names ∧
      (∀ name, name ∈ names ↔ name = "alpha" ∨ name = "mock") ∧
      names.Sorted (fun a b => bytesLE a.data b.data = true)) ∧
    serversListOperation Example.sum224 Example.interruptedStorage Example.mixedStored
      = .error (.error ⟨"scan interrupted", false⟩) ∧
    serversListOperation Example.sum224 Example.serverStorage Example.brokenStored
      = .error (.error ⟨"invalid character", false⟩) :=
  ⟨match (serversListOperation_lists Example.sum224 Example.serverStorage Example.mixedStored
      Example.mixedPaths Example.entryAt Example.secretAt
      (fun path hpath => by
        simp only [Example.mixedPaths, List.mem_cons, List.mem_singleton, List.not_mem_nil,
          or_false] at hpath
        rcases hpath with rfl | rfl | rfl <;> rfl)).1 Example.mixedStored rfl with
    | ⟨names, hrun, hsorted, _, hmem⟩ =>
      ⟨names, hrun, fun name => (hmem name).trans (by
        simp only [Example.mixedPaths, List.mem_cons, List.mem_singleton, List.not_mem_nil,
          or_false]
        constructor
        · rintro ⟨path, hpath, hname, hkey⟩
          rcases hpath with rfl | rfl | rfl
          · exact absurd (hname ▸ hkey) (by decide)
          · exact Or.inl hname.symm
          · exact Or.inr hname.symm
        · rintro (rfl | rfl)
          · exact ⟨_, Or.inr (Or.inl rfl), rfl, by decide⟩
          · exact ⟨_, Or.inr (Or.inr rfl), rfl, by decide⟩), hsorted⟩,
    (serversListOperation_lists Example.sum224 Example.interruptedStorage Example.mixedStored
      Example.mixedPaths Example.entryAt Example.secretAt
      (fun path hpath => by
        simp only [Example.mixedPaths, List.mem_cons, List.mem_singleton, List.not_mem_nil,
          or_false] at hpath
        rcases hpath with rfl | rfl | rfl <;> rfl)).2.1 Example.mixedStored
      ⟨"scan interrupted", false⟩ rfl,
    (serversListOperation_lists Example.sum224 Example.serverStorage Example.brokenStored
      Example.mixedPaths Example.entryAt Example.secretAt
      (fun path hpath => by
        simp only [Example.mixedPaths, List.mem_cons, List.mem_singleton, List.not_mem_nil,
          or_false] at hpath
        rcases hpath with rfl | rfl | rfl <;> rfl)).2.2 Example.brokenStored Example.brokenStored
      "ff/ff/ff" [] none ⟨"invalid character", false⟩ rfl (Or.inr rfl)⟩

/-! ## The name pattern -/

theorem accepts_none (s : List Char) : Regex.none.accepts s = false := by
  induction s with
  | nil => rfl
  | cons c s ih => simpa [Regex.accepts, Regex.deriv] using ih

theorem accepts_empty (s : List Char) : Regex.empty.accepts s = decide (s = []) := by
  cases s with
  | nil => rfl
  | cons c s => simp [Regex.accepts, Regex.deriv, accepts_none]

theorem accepts_alt (a b : Regex) (s : List Char) :
    (Regex.alt a b).accepts s = (a.accepts s || b.accepts s) := by
  induction s generalizing a b with
  | nil => rfl
  | cons c s ih => simp [Regex.accepts, Regex.deriv, ih]

theorem accepts_seq_none (b : Regex) (s : List Char) :
    (Regex.seq .none b).accepts s = false := by
  induction s with
  | nil => rfl
  | cons c s ih => simpa [Regex.accepts, Regex.deriv, Regex.nullable] using ih

/-- Concatenation respects equality of the accepted language on the left. -/
theorem accepts_seq_congr (b : Regex) (s : List Char) :
    ∀ a a1 : Regex, (∀ t, a.accepts t = a1.accepts t) →
      (Regex.seq a b).accepts s = (Regex.seq a1 b).accepts s := by
  induction s with
  | nil =>
    intro a a1 h
    have hn : a.nullable = a1.nullable := h []
    simp [Regex.accepts, Regex.nullable, hn]
  | cons c s ih =>
    intro a a1 h
    have hn : a.nullable = a1.nullable := h []
    have hd : ∀ t, (a.deriv c).accepts t = (a1.deriv c).accepts t := fun t => h (c :: t)
    simp only [Regex.accepts, Regex.deriv, hn]
    cases a1.nullable with
    | true => simp only [if_true, accepts_alt, ih _ _ hd]
    | false => simp only [Bool.false_eq_true, if_false, ih _ _ hd]

theorem accepts_seq_empty (b : Regex) (s : List Char) :
    (Regex.seq .empty b).accepts s = b.accepts s := by
  cases s with
  | nil => simp [Regex.accepts, Regex.nullable]
  | cons c s =>
    simp [Regex.accepts, Regex.deriv, Regex.nullable, accepts_alt, accepts_seq_none]

theorem accepts_seq_alt (b : Regex) (s : List Char) :
    ∀ x y : Regex, (Regex.seq (.alt x y) b).accepts s
      = ((Regex.seq x b).accepts s || (Regex.seq y b).accepts s) := by
  induction s with
  | nil =>
    intro x y
    simp only [Regex.accepts, Regex.nullable]
    cases x.nullable <;> cases y.nullable <;> cases b.nullable <;> rfl
  | cons c s ih =>
    intro x y
    simp only [Regex.accepts, Regex.deriv, Regex.nullable]
    cases x.nullable <;> cases y.nullable <;>
      simp only [Bool.or_self, Bool.or_true, Bool.true_or, Bool.or_false, Bool.false_eq_true,
        if_true, if_false, accepts_alt, ih] <;>
      cases (Regex.seq (x.deriv c) b).accepts s <;>
      cases (Regex.seq (y.deriv c) b).accepts s <;>
      cases (b.deriv c).accepts s <;> rfl

theorem accepts_after_unit (c : Char) (s : List Char) :
    (Regex.seq (nameRegex.unit.deriv c) (.star nameRegex.unit)).accepts s
      = if c = ':' then
          (match s with
           | [] => false
           | d :: t => d != '/' && (Regex.star nameRegex.unit).accepts t)
        else (Regex.star nameRegex.unit).accepts s := by
  have hnone : ∀ (x : Regex) (t : List Char), (Regex.seq .none x).accepts t
      = Regex.none.accepts t := fun x t => by rw [accepts_seq_none, accepts_none]
  have hunit : nameRegex.unit.deriv c
      = .alt (if c = ':' then .none else .empty)
          (.seq (if c = ':' then .empty else .none) (.notChar '/')) := by
    simp [nameRegex.unit, Regex.deriv, Regex.nullable]
  rw [hunit, accepts_seq_alt]
  by_cases hc : c = ':'
  · simp only [hc, if_true, accepts_seq_none, Bool.false_or]
    rw [accepts_seq_congr _ _ _ (.notChar '/') (accepts_seq_empty _)]
    cases s with
    | nil => rfl
    | cons d t =>
      by_cases hd : d = '/'
      · simp [Regex.accepts, Regex.deriv, Regex.nullable, hd, accepts_seq_none]
      · simp [Regex.accepts, Regex.deriv, Regex.nullable, hd, accepts_seq_empty]
  · simp only [hc, if_false, accepts_seq_empty]
    rw [accepts_seq_congr _ _ _ .none (hnone _), accepts_seq_none, Bool.or_false]

theorem star_unit_step (c : Char) (s : List Char) :
    (Regex.star nameRegex.unit).accepts (c :: s)
      = if c = ':' then
          (match s with
           | [] => false
           | d :: t => d != '/' && (Regex.star nameRegex.unit).accepts t)
        else (Regex.star nameRegex.unit).accepts s :=
  accepts_after_unit c s

/-- The repetition of the units of the name pattern accepts exactly the
strings that split into units. -/
theorem star_unit_accepts : ∀ s : List Char,
    (Regex.star nameRegex.unit).accepts s = spec.units s ∧
    ∀ c, (Regex.star nameRegex.unit).accepts (c :: s) = spec.units (c :: s) := by
  intro s
  induction s with
  | nil =>
    refine ⟨rfl, fun c => ?_⟩
    rw [star_unit_step]
    by_cases hc : c = ':'
    · simp [hc, spec.units]
    · simp only [hc, if_false, spec.units, bne_iff_ne, ne_eq, not_false_eq_true, decide_True]
      simp [Regex.accepts, Regex.nullable, hc]
  | cons d t ih =>
    refine ⟨ih.2 d, fun c => ?_⟩
    rw [star_unit_step]
    by_cases hc : c = ':'
    · simp only [hc, if_true, spec.units]
      cases t with
      | nil => simp [Regex.accepts, Regex.nullable, spec.units]
      | cons e u =>
        have := ih.1
        rw [this]
    · simp only [hc, if_false, spec.units]
      exact ih.2 d

/-- The name pattern accepts exactly the non-empty strings that split into
units: single characters other than `:`, and `:` followed by a character other
than `/`. -/
theorem pattern_accepts (s : List Char) :
    nameRegex.pattern.accepts s = (decide (s ≠ []) && spec.units s) := by
  cases s with
  | nil => rfl
  | cons c s =>
    have h : nameRegex.pattern.accepts (c :: s)
        = (Regex.seq (nameRegex.unit.deriv c) (.star nameRegex.unit)).accepts s := by
      simp [nameRegex.pattern, Regex.plus, Regex.accepts, Regex.deriv, nameRegex.unit,
        Regex.nullable]
    rw [h, accepts_after_unit, ← star_unit_step, (star_unit_accepts s).2 c]
    simp

/-- C25 (the code diverges): the string `::/` holds a `:` immediately followed
by a `/`, yet the name pattern accepts it in full, as the unit `::` followed by
the unit `/`; the strings `:` and `a:` are non-empty and hold no `:/`, yet the
name pattern rejects them, because a `:` that starts a unit needs a character
after it. -/
theorem nameRegex_divergence :
    (spec.colonSlash "::/".data = true ∧ nameRegex.pattern.accepts "::/".data = true) ∧
    (":".data ≠ [] ∧ spec.colonSlash ":".data = false ∧
      nameRegex.pattern.accepts ":".data = false) ∧
    ("a:".data ≠ [] ∧ spec.colonSlash "a:".data = false ∧
      nameRegex.pattern.accepts "a:".data = false) := by
  decide

/-! ## Concurrent refreshes -/

set_option maxRecDepth 100000 in
/-- C26 (as stated, refuted): two calls of `getRefreshCredToken` on the same
stale credential take turns while the provider answers every refresh with a
timeout; both calls return, the provider's `RefreshToken` has been called
twice, and the two calls return different entries. -/
theorem getRefreshCredToken_concurrent_counterexample :
    (((getRefreshCredToken.concurrent 2 "cred" 0
        (Example.sim Example.staleEntry none none (.error ⟨"timeout", false⟩))).exec
      Example.alternating).events.countP Event.isRefreshToken = 2) ∧
    (((getRefreshCredToken.concurrent 2 "cred" 0
        (Example.sim Example.staleEntry none none (.error ⟨"timeout", false⟩))).exec
      Example.alternating).threads.map Prog.returned
      = [some (some (Example.staleEntry.withErrors "" "" "refresh failed: timeout" 1), none),
         some (some (Example.staleEntry.withErrors "" "" "refresh failed: timeout" 2), none)]) := by
  decide

theorem refreshCredToken_eq (keyer : persistence.AuthCodeKeyer) (d : Duration) :
    refreshCredToken keyer d = .lock keyer (refreshCredToken.holding keyer d) := rfl

theorem getRefreshCredToken_eq (keyer : persistence.AuthCodeKeyer) (d : Duration) :
    getRefreshCredToken keyer d
      = .readAuthCodeEntry keyer fun r =>
          match r with
          | .error err => .ret (none, some err)
          | .ok none => .ret (none, none)
          | .ok (some entry) => getRefreshCredToken.deciding keyer d entry := rfl

theorem tokenValid_earlier (t t1 : Time) (tok : Option oauth2.Token) (d : Duration)
    (hle : t ≤ t1) (h : tokenValid t1 tok d = true) : tokenValid t tok d = true := by
  obtain ⟨u, hu, hacc, hexp⟩ := (tokenValid_bound t1 tok d).mp h
  refine (tokenValid_bound t tok d).mpr ⟨u, hu, hacc, ?_⟩
  rcases hexp with hz | hexp
  · exact Or.inl hz
  · exact Or.inr (by linarith)

theorem stale_later (t t1 : Time) (d : Duration) (c : persistence.AuthCodeEntry)
    (hle : t ≤ t1) (h : refreshCredToken.stale t d c = true) :
    refreshCredToken.stale t1 d c = true := by
  rw [stale_eq_true_iff] at h ⊢
  refine ⟨h.1, ?_, h.2.2⟩
  cases hv : tokenValid t1 (c.Token.map (·.Token)) d with
  | false => rfl
  | true =>
    have := tokenValid_earlier t t1 _ d hle hv
    rw [h.2.1] at this
    cases this

theorem fits_outside (q : Point) (phase phase1 : Phase)
    (hstep : (phase = .stale ∧ phase1 = .called) ∨ (phase = .called ∧ phase1 = .stored))
    (hout : q.inside = false) (hfit : q.fits phase = true) : q.fits phase1 = true := by
  rcases hstep with ⟨rfl, rfl⟩ | ⟨rfl, rfl⟩ <;>
    cases q with
    | fetched b => cases b <;> simp_all [Point.fits, Point.inside]
    | reread b => cases b <;> simp_all [Point.fits, Point.inside]
    | _ => simp_all [Point.fits, Point.inside]

/-- The invariant after the call `i` has moved from its point to `pt1`. -/
theorem Race.Inv.update {r : Race} {t0 : Time} {c : Conc EntryResult} {pts : List Point}
    {holder : Option Nat} {phase : Phase} (hinv : r.Inv t0 c pts holder phase)
    {i : Nat} {pt : Point} (hi : pts[i]? = some pt) (pt1 : Point) (holder1 : Option Nat)
    (phase1 : Phase) (c1 : Conc EntryResult)
    (hthreads : c1.threads = c.threads.set i (r.prog pt1))
    (hholder : ∀ j, j ≠ i → (holder1 = some j ↔ holder = some j))
    (hinside : pt1.inside = true ↔ holder1 = some i)
    (hfits : pt1.fits phase1 = true)
    (hphase : phase1 = phase ∨ (holder = some i ∧
      ((phase = .stale ∧ phase1 = .called) ∨ (phase = .called ∧ phase1 = .stored))))
    (hfree : holder1 = none → phase1 ≠ .called)
    (hlocked : c1.locked = if holder1.isSome then [r.keyer] else [])
    (hread : c1.env.readError = none) (hwrite : c1.env.writeError = none)
    (hserver : c1.env.serverError = none) (hanswer : c1.env.refreshAnswer = .ok r.refreshed)
    (hclock : c1.env.clock = c.env.clock)
    (hstore : mapGet c1.env.store r.keyer
      = some (if phase1 = .stored then r.written else r.entry))
    (hcount : c1.events.countP Event.isRefreshToken = if phase1 = .stale then 0 else 1) :
    r.Inv t0 c1 (pts.set i pt1) holder1 phase1 := by
  have hlen : i < pts.length := (List.getElem?_eq_some.mp hi).1
  refine ⟨?_, ?_, ?_, ?_, hfree, hlocked, hread, hwrite, hserver, hanswer, ?_, ?_, hstore,
    hcount⟩
  · rw [hthreads, hinv.threads, List.map_set]
  · intro j q hq
    rw [List.getElem?_set] at hq
    by_cases hij : i = j
    · subst hij
      simp only [if_true, hlen, Option.some.injEq] at hq
      subst hq
      exact hinside
    · simp only [hij, if_false] at hq
      rw [hinv.inside j q hq, hholder j (Ne.symm hij)]
  · intro j q hq
    rw [List.getElem?_set] at hq
    by_cases hij : i = j
    · subst hij
      simp only [if_true, hlen, Option.some.injEq] at hq
      subst hq
      exact hfits
    · simp only [hij, if_false] at hq
      have hfit := hinv.fits j q hq
      rcases hphase with hsame | ⟨hhold, hstep⟩
      · rw [hsame]
        exact hfit
      · have hout : q.inside = false := by
          cases hin : q.inside with
          | false => rfl
          | true =>
            have := (hinv.inside j q hq).mp hin
            rw [hhold] at this
            exact absurd (Option.some.inj this) hij
        exact fits_outside q phase phase1 hstep hout hfit
  · intro j hj
    rw [List.getElem?_set]
    by_cases hij : i = j
    · simp [hij ▸ hlen, hij]
    · simp only [hij, if_false]
      exact hinv.held j ((hholder j (Ne.symm hij)).mp hj)
  · rw [hclock]
    exact hinv.clock
  · rw [hclock]
    exact hinv.valid

theorem Conc.step_run {α : Type} (c : Conc α) (i : Nat) (p : Prog α) (st : Step Sim α)
    (hth : c.threads[i]? = some p) (hst : p.step Sim.handler c.locked c.env = some st) :
    c.step (.run i) = ⟨c.threads.set i st.next, st.state, st.locked, c.events ++ st.events⟩ := by
  simp only [Conc.step, hth, hst]

theorem Conc.step_idle {α : Type} (c : Conc α) (i : Nat) (p : Prog α)
    (hth : c.threads[i]? = some p) (hst : p.step Sim.handler c.locked c.env = none) :
    c.step (.run i) = c := by
  simp only [Conc.step, hth, hst]

theorem Race.prog_fetched (r : Race) (phase : Phase) :
    r.prog (.fetched (phase == .stored))
      = getRefreshCredToken.deciding r.keyer r.expiryDelta
          (if phase = .stored then r.written else r.entry) := by
  cases phase <;> rfl

theorem Race.prog_reread (r : Race) (phase : Phase) :
    r.prog (.reread (phase == .stored))
      = refreshCredToken.deciding r.keyer r.expiryDelta
          (if phase = .stored then r.written else r.entry) := by
  cases phase <;> rfl

theorem Sim.read_stored (m : Sim) (keyer : persistence.AuthCodeKeyer)
    (e : persistence.AuthCodeEntry) (hread : m.readError = none)
    (hstore : mapGet m.store keyer = some e) :
    Sim.handler.readAuthCodeEntry keyer m = (.ok (some e), m) := by
  simp [Sim.handler, hread, hstore]

theorem Race.written_fresh (r : Race) (now : Time)
    (hvalid : tokenValid now (some r.refreshed.Token) r.expiryDelta = true) :
    tokenValid now (r.written.Token.map (·.Token)) r.expiryDelta = true := hvalid

/-- A step of a call that can move keeps the invariant and brings the call
nearer to its return. -/
theorem Race.Inv.run_enabled {r : Race} {t0 : Time} {c : Conc EntryResult} {pts : List Point}
    {holder : Option Nat} {phase : Phase} (hinv : r.Inv t0 c pts holder phase)
    (htok : r.entry.Token = some r.token)
    (hstale0 : refreshCredToken.stale t0 r.expiryDelta r.entry = true)
    (i : Nat) (pt : Point) (hi : pts[i]? = some pt) (hdone : pt ≠ .done)
    (hwait : pt = .waiting → holder = none) :
    ∃ (pt1 : Point) (holder1 : Option Nat) (phase1 : Phase),
      r.Inv t0 (c.step (.run i)) (pts.set i pt1) holder1 phase1 ∧ pt1.rank < pt.rank := by
  have hth : c.threads[i]? = some (r.prog pt) := by
    rw [hinv.threads, List.getElem?_map, hi]
    rfl
  have hstale := (stale_eq_true_iff _ _ _).mp (stale_later t0 c.env.clock _ _ hinv.clock hstale0)
  have hin := hinv.inside i pt hi
  have hfit := hinv.fits i pt hi
  have hother : ∀ j, j ≠ i → (holder = some j ↔ holder = some j) := fun _ _ => Iff.rfl
  have hkeep : ∀ (e : Event), e.isRefreshToken = false →
      (c.events ++ [e]).countP Event.isRefreshToken = if phase = .stale then 0 else 1 := by
    intro e he
    rw [List.countP_append, hinv.count]
    simp [List.countP_cons, he]
  cases pt with
  | done => exact absurd rfl hdone
  | start =>
    have hout : holder ≠ some i := fun h => by simpa [Point.inside] using hin.mpr h
    have hst : (r.prog .start).step Sim.handler c.locked c.env
        = some ⟨r.prog (.fetched (phase == .stored)), c.env, c.locked,
            [.readAuthCodeEntry r.keyer]⟩ := by
      rw [Race.prog_fetched]
      simp only [Race.prog, getRefreshCredToken_eq, Prog.step,
        Sim.read_stored c.env r.keyer _ hinv.readError hinv.store]
    refine ⟨.fetched (phase == .stored), holder, phase, ?_, by simp [Point.rank]⟩
    rw [Conc.step_run c i _ _ hth hst]
    refine hinv.update hi _ holder phase _ rfl hother ?_ ?_ (Or.inl rfl) hinv.free hinv.locked
      hinv.readError hinv.writeError hinv.serverError hinv.refreshAnswer rfl hinv.store
      (hkeep _ rfl)
    · simp [Point.inside, hout]
    · cases phase <;> rfl
  | fetched b =>
    have hout : holder ≠ some i := fun h => by simpa [Point.inside] using hin.mpr h
    cases b with
    | true =>
      have hphase : phase = .stored := by
        cases phase <;> first | rfl | cases hfit
      have hst : (r.prog (.fetched true)).step Sim.handler c.locked c.env
          = some ⟨r.prog .done, c.env, c.locked, []⟩ := by
        have hv := r.written_fresh c.env.clock hinv.valid
        simp [Race.prog, getRefreshCredToken.deciding, Prog.step, Sim.handler, hv]
      refine ⟨.done, holder, phase, ?_, by decide⟩
      rw [Conc.step_run c i _ _ hth hst]
      refine hinv.update hi _ holder phase _ rfl hother ?_ ?_ (Or.inl rfl) hinv.free hinv.locked
        hinv.readError hinv.writeError hinv.serverError hinv.refreshAnswer rfl hinv.store ?_
      · simp [Point.inside, hout]
      · rw [hphase]; rfl
      · simpa using hinv.count
    | false =>
      have hst : (r.prog (.fetched false)).step Sim.handler c.locked c.env
          = some ⟨r.prog .waiting, c.env, c.locked, []⟩ := by
        have h1 := hstale.1
        have h2 := hstale.2.1
        have hnow : Sim.handler.now c.env = c.env.clock := rfl
        simp [Race.prog, getRefreshCredToken.deciding, Prog.step, hnow, h1, h2]
      refine ⟨.waiting, holder, phase, ?_, by decide⟩
      rw [Conc.step_run c i _ _ hth hst]
      refine hinv.update hi _ holder phase _ rfl hother ?_ rfl (Or.inl rfl) hinv.free hinv.locked
        hinv.readError hinv.writeError hinv.serverError hinv.refreshAnswer rfl hinv.store ?_
      · simp [Point.inside, hout]
      · simpa using hinv.count
  | waiting =>
    have hnone := hwait rfl
    have hlocked : c.locked = [] := by rw [hinv.locked, hnone]; rfl
    have hst : (r.prog .waiting).step Sim.handler c.locked c.env
        = some ⟨r.prog .locked, c.env, [r.keyer], [.lock r.keyer]⟩ := by
      simp [Race.prog, refreshCredToken_eq, Prog.step, hlocked, Sim.handler]
    refine ⟨.locked, some i, phase, ?_, by decide⟩
    rw [Conc.step_run c i _ _ hth hst]
    refine hinv.update hi _ (some i) phase _ rfl ?_ ?_ ?_ (Or.inl rfl) ?_ rfl
      hinv.readError hinv.writeError hinv.serverError hinv.refreshAnswer rfl hinv.store
      (hkeep _ rfl)
    · intro j hj
      rw [hnone]
      simp [Ne.symm hj]
    · simp [Point.inside]
    · have := hinv.free hnone
      cases phase <;> first | rfl | exact absurd rfl this
    · intro h; cases h
  | locked =>
    have hhold : holder = some i := hin.mp rfl
    have hst : (r.prog .locked).step Sim.handler c.locked c.env
        = some ⟨r.prog (.reread (phase == .stored)), c.env, c.locked,
            [.readAuthCodeEntry r.keyer]⟩ := by
      rw [Race.prog_reread]
      simp only [Race.prog, refreshCredToken.holding, Prog.step,
        Sim.read_stored c.env r.keyer _ hinv.readError hinv.store]
    refine ⟨.reread (phase == .stored), holder, phase, ?_, by simp [Point.rank]⟩
    rw [Conc.step_run c i _ _ hth hst]
    refine hinv.update hi _ holder phase _ rfl hother ?_ ?_ (Or.inl rfl) hinv.free hinv.locked
      hinv.readError hinv.writeError hinv.serverError hinv.refreshAnswer rfl hinv.store
      (hkeep _ rfl)
    · simp [Point.inside, hhold]
    · cases phase <;> first | rfl | cases hfit
  | reread b =>
    have hhold : holder = some i := hin.mp rfl
    cases b with
    | true =>
      have hphase : phase = .stored := by
        cases phase <;> first | rfl | cases hfit
      have hst : (r.prog (.reread true)).step Sim.handler c.locked c.env
          = some ⟨r.prog .releasing, c.env, c.locked, []⟩ := by
        have hv := r.written_fresh c.env.clock hinv.valid
        simp [Race.prog, refreshCredToken.deciding, Prog.step, Sim.handler, hv]
      refine ⟨.releasing, holder, phase, ?_, by decide⟩
      rw [Conc.step_run c i _ _ hth hst]
      refine hinv.update hi _ holder phase _ rfl hother ?_ ?_ (Or.inl rfl) hinv.free hinv.locked
        hinv.readError hinv.writeError hinv.serverError hinv.refreshAnswer rfl hinv.store ?_
      · simp [Point.inside, hhold]
      · rw [hphase]; rfl
      · simpa using hinv.count
    | false =>
      have hst : (r.prog (.reread false)).step Sim.handler c.locked c.env
          = some ⟨r.prog .resolving, c.env, c.locked, []⟩ := by
        have h1 := hstale.1
        have h2 := hstale.2.1
        have h3 := hstale.2.2
        have hnow : Sim.handler.now c.env = c.env.clock := rfl
        simp [Race.prog, refreshCredToken.deciding, Prog.step, hnow, h1, h2, h3]
      refine ⟨.resolving, holder, phase, ?_, by decide⟩
      rw [Conc.step_run c i _ _ hth hst]
      refine hinv.update hi _ holder phase _ rfl hother ?_ ?_ (Or.inl rfl) hinv.free hinv.locked
        hinv.readError hinv.writeError hinv.serverError hinv.refreshAnswer rfl hinv.store ?_
      · simp [Point.inside, hhold]
      · exact hfit
      · simpa using hinv.count
  | resolving =>
    have hhold : holder = some i := hin.mp rfl
    have hst : (r.prog .resolving).step Sim.handler c.locked c.env
        = some ⟨r.prog .refreshing, c.env, c.locked,
            [.getProviderOperations r.entry.AuthServerName r.expiryDelta]⟩ := by
      simp [Race.prog, refreshCredToken.resolving, Prog.step, Sim.handler, hinv.serverError,
        htok]
    refine ⟨.refreshing, holder, phase, ?_, by decide⟩
    rw [Conc.step_run c i _ _ hth hst]
    refine hinv.update hi _ holder phase _ rfl hother ?_ hfit (Or.inl rfl) hinv.free hinv.locked
      hinv.readError hinv.writeError hinv.serverError hinv.refreshAnswer rfl hinv.store
      (hkeep _ rfl)
    simp [Point.inside, hhold]
  | refreshing =>
    have hhold : holder = some i := hin.mp rfl
    have hphase : phase = .stale := by
      cases phase <;> first | rfl | cases hfit
    have hst : (r.prog .refreshing).step Sim.handler c.locked c.env
        = some ⟨r.prog .writing, c.env, c.locked,
            [.refreshToken r.entry.AuthServerName r.token r.token.ProviderOptions]⟩ := by
      simp [Race.prog, refreshCredToken.refreshing, Prog.step, Sim.handler,
        hinv.refreshAnswer, Race.written]
    refine ⟨.writing, holder, .called, ?_, by decide⟩
    rw [Conc.step_run c i _ _ hth hst]
    refine hinv.update hi _ holder .called _ rfl hother ?_ rfl
      (Or.inr ⟨hhold, Or.inl ⟨hphase, rfl⟩⟩) ?_ hinv.locked
      hinv.readError hinv.writeError hinv.serverError hinv.refreshAnswer rfl ?_ ?_
    · simp [Point.inside, hhold]
    · intro h; rw [hhold] at h; cases h
    · have := hinv.store
      rw [hphase] at this
      simpa using this
    · show (c.events ++ _).countP Event.isRefreshToken = _
      rw [List.countP_append, hinv.count, hphase]
      rfl
  | writing =>
    have hhold : holder = some i := hin.mp rfl
    have hphase : phase = .called := by
      cases phase <;> first | rfl | cases hfit
    have hst : (r.prog .writing).step Sim.handler c.locked c.env
        = some ⟨r.prog .putting, Sim.storing c.env r.keyer r.written, c.locked,
            [.writeAuthCodeEntry r.keyer r.written]⟩ := by
      simp [Race.prog, refreshCredToken.writeBack, Prog.step, Sim.handler, hinv.writeError,
        refreshCredToken.written, Sim.storing]
    refine ⟨.putting, holder, .stored, ?_, by decide⟩
    rw [Conc.step_run c i _ _ hth hst]
    refine hinv.update hi _ holder .stored _ rfl hother ?_ rfl
      (Or.inr ⟨hhold, Or.inr ⟨hphase, rfl⟩⟩) ?_ hinv.locked
      hinv.readError hinv.writeError hinv.serverError hinv.refreshAnswer rfl ?_ ?_
    · simp [Point.inside, hhold]
    · intro _ h; cases h
    · exact mapGet_mapSet_self _ _ _
    · show (c.events ++ _).countP Event.isRefreshToken = _
      rw [List.countP_append, hinv.count, hphase]
      rfl
  | putting =>
    have hhold : holder = some i := hin.mp rfl
    have hst : (r.prog .putting).step Sim.handler c.locked c.env
        = some ⟨r.prog .releasing, c.env, c.locked, [.put r.written.AuthServerName]⟩ := by
      simp [Race.prog, Prog.step, Sim.handler]
    refine ⟨.releasing, holder, phase, ?_, by decide⟩
    rw [Conc.step_run c i _ _ hth hst]
    refine hinv.update hi _ holder phase _ rfl hother ?_ hfit (Or.inl rfl) hinv.free hinv.locked
      hinv.readError hinv.writeError hinv.serverError hinv.refreshAnswer rfl hinv.store
      (hkeep _ rfl)
    simp [Point.inside, hhold]
  | releasing =>
    have hhold : holder = some i := hin.mp rfl
    have hphase : phase = .stored := by
      cases phase <;> first | rfl | cases hfit
    have hlocked : c.locked = [r.keyer] := by rw [hinv.locked, hhold]; rfl
    have hst : (r.prog .releasing).step Sim.handler c.locked c.env
        = some ⟨r.prog .done, c.env, [], [.unlock r.keyer]⟩ := by
      simp [Race.prog, Prog.step, Sim.handler, hlocked]
    refine ⟨.done, none, phase, ?_, by decide⟩
    rw [Conc.step_run c i _ _ hth hst]
    refine hinv.update hi _ none phase _ rfl ?_ ?_ ?_ (Or.inl rfl) ?_ rfl
      hinv.readError hinv.writeError hinv.serverError hinv.refreshAnswer rfl hinv.store
      (hkeep _ rfl)
    · intro j hj
      rw [hhold]
      simp [Ne.symm hj]
    · simp [Point.inside]
    · rw [hphase]; rfl
    · intro _
      rw [hphase]
      intro h; cases h

/-- A step of a call that has returned, that waits for the held lock or that
does not exist changes nothing. -/
theorem Race.Inv.run_idle {r : Race} {t0 : Time} {c : Conc EntryResult} {pts : List Point}
    {holder : Option Nat} {phase : Phase} (hinv : r.Inv t0 c pts holder phase) (i : Nat)
    (hidle : ∀ pt, pts[i]? = some pt → pt = .done ∨ (pt = .waiting ∧ holder ≠ none)) :
    c.step (.run i) = c := by
  cases hi : pts[i]? with
  | none =>
    have hth : c.threads[i]? = none := by
      rw [hinv.threads, List.getElem?_map, hi]
      rfl
    simp only [Conc.step, hth]
  | some pt =>
    have hth : c.threads[i]? = some (r.prog pt) := by
      rw [hinv.threads, List.getElem?_map, hi]
      rfl
    rcases hidle pt hi with rfl | ⟨rfl, hheld⟩
    · exact Conc.step_idle c i _ hth rfl
    · have hlocked : c.locked = [r.keyer] := by
        rw [hinv.locked]
        cases holder with
        | none => exact absurd rfl hheld
        | some j => rfl
      refine Conc.step_idle c i _ hth ?_
      simp [Race.prog, refreshCredToken_eq, Prog.step, hlocked]

/-- Every action keeps the invariant, as long as the refreshed token is valid
at the clock readings. -/
theorem Race.Inv.step {r : Race} {t0 : Time} {c : Conc EntryResult} {pts : List Point}
    {holder : Option Nat} {phase : Phase} (hinv : r.Inv t0 c pts holder phase)
    (htok : r.entry.Token = some r.token)
    (hstale0 : refreshCredToken.stale t0 r.expiryDelta r.entry = true)
    (a : Action)
    (htick : ∀ t, a = .tick t → tokenValid t (some r.refreshed.Token) r.expiryDelta = true) :
    ∃ (pts1 : List Point) (holder1 : Option Nat) (phase1 : Phase),
      r.Inv t0 (c.step a) pts1 holder1 phase1 := by
  cases a with
  | tick t =>
    by_cases hle : c.env.clock ≤ t
    · refine ⟨pts, holder, phase, ?_⟩
      simp only [Conc.step, hle, if_true]
      exact ⟨hinv.threads, hinv.inside, hinv.fits, hinv.held, hinv.free, hinv.locked,
        hinv.readError, hinv.writeError, hinv.serverError, hinv.refreshAnswer,
        le_trans hinv.clock hle, htick t rfl, hinv.store, hinv.count⟩
    · refine ⟨pts, holder, phase, ?_⟩
      simp only [Conc.step, hle, if_false]
      exact hinv
  | run i =>
    by_cases hidle : ∀ pt, pts[i]? = some pt → pt = .done ∨ (pt = .waiting ∧ holder ≠ none)
    · rw [hinv.run_idle i hidle]
      exact ⟨pts, holder, phase, hinv⟩
    · push_neg at hidle
      obtain ⟨pt, hi, hdone, hwait⟩ := hidle
      obtain ⟨pt1, holder1, phase1, hinv1, _⟩ :=
        hinv.run_enabled htok hstale0 i pt hi hdone hwait
      exact ⟨_, holder1, phase1, hinv1⟩

theorem Race.Inv.exec {r : Race} {t0 : Time} (htok : r.entry.Token = some r.token)
    (hstale0 : refreshCredToken.stale t0 r.expiryDelta r.entry = true) :
    ∀ (schedule : List Action) (c : Conc EntryResult) (pts : List Point)
      (holder : Option Nat) (phase : Phase), r.Inv t0 c pts holder phase →
      (∀ t, Action.tick t ∈ schedule →
        tokenValid t (some r.refreshed.Token) r.expiryDelta = true) →
      ∃ (pts1 : List Point) (holder1 : Option Nat) (phase1 : Phase),
        r.Inv t0 (c.exec schedule) pts1 holder1 phase1 := by
  intro schedule
  induction schedule with
  | nil =>
    intro c pts holder phase hinv _
    exact ⟨pts, holder, phase, hinv⟩
  | cons a schedule ih =>
    intro c pts holder phase hinv hticks
    obtain ⟨pts1, holder1, phase1, hinv1⟩ := hinv.step htok hstale0 a
      (fun t ht => hticks t (ht ▸ List.mem_cons_self _ _))
    exact ih (c.step a) pts1 holder1 phase1 hinv1
      (fun t ht => hticks t (List.mem_cons_of_mem _ ht))

theorem rank_sum_set (pts : List Point) (i : Nat) (pt pt1 : Point) (hi : pts[i]? = some pt)
    (hrank : pt1.rank < pt.rank) :
    ((pts.set i pt1).map Point.rank).sum < (pts.map Point.rank).sum := by
  induction pts generalizing i with
  | nil => simp at hi
  | cons q pts ih =>
    cases i with
    | zero =>
      simp only [List.getElem?_cons_zero, Option.some.injEq] at hi
      subst hi
      simp only [List.set_cons_zero, List.map_cons, List.sum_cons]
      omega
    | succ i =>
      simp only [List.getElem?_cons_succ] at hi
      simp only [List.set_cons_succ, List.map_cons, List.sum_cons]
      have := ih i hi
      omega

/-- From every moment of the execution the calls can all be brought to their
return. -/
theorem Race.Inv.finish {r : Race} {t0 : Time} (htok : r.entry.Token = some r.token)
    (hstale0 : refreshCredToken.stale t0 r.expiryDelta r.entry = true) :
    ∀ (k : Nat) (c : Conc EntryResult) (pts : List Point) (holder : Option Nat)
      (phase : Phase), (pts.map Point.rank).sum ≤ k → r.Inv t0 c pts holder phase →
      ∃ (more : List Action) (pts1 : List Point) (holder1 : Option Nat) (phase1 : Phase),
        (∀ t, Action.tick t ∉ more) ∧
        r.Inv t0 (c.exec more) pts1 holder1 phase1 ∧ ∀ pt, pt ∈ pts1 → pt = .done := by
  intro k
  induction k with
  | zero =>
    intro c pts holder phase hsum hinv
    refine ⟨[], pts, holder, phase, (fun _ h => by cases h), hinv, ?_⟩
    intro pt hpt
    have hzero : pt.rank = 0 := by
      have hmem : pt.rank ∈ pts.map Point.rank := List.mem_map_of_mem _ hpt
      have := List.single_le_sum (fun _ _ => Nat.zero_le _) _ hmem
      omega
    cases pt <;> first | rfl | cases hzero
  | succ k ih =>
    intro c pts holder phase hsum hinv
    by_cases hall : ∀ pt, pt ∈ pts → pt = .done
    · exact ⟨[], pts, holder, phase, (fun _ h => by cases h), hinv, hall⟩
    · have hmove : ∃ (i : Nat) (pt : Point),
          pts[i]? = some pt ∧ pt ≠ .done ∧ (pt = .waiting → holder = none) := by
        cases hh : holder with
        | some j =>
          obtain ⟨pt, hj⟩ := hinv.held j hh
          have hin := (hinv.inside j pt hj).mpr hh
          refine ⟨j, pt, hj, ?_, ?_⟩
          · rintro rfl
            cases hin
          · rintro rfl
            cases hin
        | none =>
          push_neg at hall
          obtain ⟨pt, hmem, hne⟩ := hall
          obtain ⟨i, hi⟩ := List.getElem?_of_mem hmem
          exact ⟨i, pt, hi, hne, fun _ => rfl⟩
      obtain ⟨i, pt, hi, hdone, hwait⟩ := hmove
      obtain ⟨pt1, holder1, phase1, hinv1, hrank⟩ :=
        hinv.run_enabled htok hstale0 i pt hi hdone hwait
      have hless := rank_sum_set pts i pt pt1 hi hrank
      obtain ⟨more, pts2, holder2, phase2, hnotick, hinv2, hall2⟩ :=
        ih (c.step (.run i)) (pts.set i pt1) holder1 phase1 (by omega) hinv1
      refine ⟨.run i :: more, pts2, holder2, phase2, ?_, hinv2, hall2⟩
      intro t ht
      rcases List.mem_cons.mp ht with h | h
      · cases h
      · exact hnotick t h

theorem Conc.step_length {α : Type} (c : Conc α) (a : Action) :
    (c.step a).threads.length = c.threads.length := by
  cases a with
  | tick t =>
    simp only [Conc.step]
    split_ifs <;> rfl
  | run i =>
    cases hth : c.threads[i]? with
    | none => simp only [Conc.step, hth]
    | some p =>
      cases hst : p.step Sim.handler c.locked c.env with
      | none => simp only [Conc.step, hth, hst]
      | some st => simp only [Conc.step, hth, hst, List.length_set]

theorem Conc.exec_length {α : Type} (schedule : List Action) :
    ∀ c : Conc α, (c.exec schedule).threads.length = c.threads.length := by
  induction schedule with
  | nil => intro c; rfl
  | cons a schedule ih =>
    intro c
    show ((c.step a).exec schedule).threads.length = _
    rw [ih, Conc.step_length]

theorem Conc.exec_append {α : Type} (c : Conc α) (schedule more : List Action) :
    c.exec (schedule ++ more) = (c.exec schedule).exec more :=
  List.foldl_append _ _ _ _

theorem Race.returned_done (r : Race) (pt : Point) (result : EntryResult)
    (h : (r.prog pt).returned = some result) :
    pt = .done ∧ result = (some r.written, none) := by
  cases pt with
  | done => exact ⟨rfl, (Option.some.inj h).symm⟩
  | fetched b => cases h
  | reread b => cases h
  | _ => cases h

/-- The invariant at the start of the concurrent calls. -/
theorem Race.Inv.start (r : Race) (m : Sim) (n : Nat)
    (hread : m.readError = none) (hwrite : m.writeError = none)
    (hserver : m.serverError = none) (hanswer : m.refreshAnswer = .ok r.refreshed)
    (hstore : mapGet m.store r.keyer = some r.entry)
    (hvalid : tokenValid m.clock (some r.refreshed.Token) r.expiryDelta = true) :
    r.Inv m.clock (getRefreshCredToken.concurrent n r.keyer r.expiryDelta m)
      (List.replicate n .start) none .stale := by
  have hstart : ∀ (j : Nat) (pt : Point), (List.replicate n Point.start)[j]? = some pt →
      pt = .start := by
    intro j pt hj
    rw [List.getElem?_replicate] at hj
    split_ifs at hj
    exact (Option.some.inj hj).symm
  refine ⟨?_, ?_, ?_, ?_, ?_, rfl, hread, hwrite, hserver, hanswer, le_refl _, hvalid, hstore,
    rfl⟩
  · simp [getRefreshCredToken.concurrent, List.map_replicate, Race.prog]
  · intro j pt hj
    rw [hstart j pt hj]
    simp [Point.inside]
  · intro j pt hj
    rw [hstart j pt hj]
    rfl
  · intro j hj
    cases hj
  · intro _ h
    cases h

/-- C26 (amended): in the in-memory environment without storage or server
failure, let `n` calls of `getRefreshCredToken` for one stale credential run
concurrently, interleaved in any way and with the clock moving on in any way,
while the provider answers a refresh with a token that is valid for the
requested delta at every clock reading of the execution.  Then at every moment
the provider's `RefreshToken` has been called at most once; every call that has
returned has returned the entry with the refreshed token, after exactly one
refresh; and from every moment on the calls can all be brought to return that
entry. -/
theorem getRefreshCredToken_single_flight (m : Sim) (keyer : persistence.AuthCodeKeyer)
    (expiryDelta : Duration) (entry : persistence.AuthCodeEntry)
    (tok refreshed : provider.Token) (n : Nat) (schedule : List Action)
    (hread : m.readError = none) (hwrite : m.writeError = none)
    (hserver : m.serverError = none)
    (hstore : mapGet m.store keyer = some entry)
    (htok : entry.Token = some tok)
    (hstale : refreshCredToken.stale m.clock expiryDelta entry = true)
    (hanswer : m.refreshAnswer = .ok refreshed)
    (hvalid : tokenValid m.clock (some refreshed.Token) expiryDelta = true)
    (hticks : ∀ t, Action.tick t ∈ schedule →
      tokenValid t (some refreshed.Token) expiryDelta = true) :
    ((getRefreshCredToken.concurrent n keyer expiryDelta m).exec schedule).events.countP
        Event.isRefreshToken ≤ 1 ∧
    (∀ (i : Nat) (p : Prog EntryResult) (result : EntryResult),
      ((getRefreshCredToken.concurrent n keyer expiryDelta m).exec schedule).threads[i]?
        = some p →
      p.returned = some result →
      result = (some (entry.SetToken refreshed), none) ∧
      ((getRefreshCredToken.concurrent n keyer expiryDelta m).exec schedule).events.countP
        Event.isRefreshToken = 1) ∧
    ∃ more : List Action,
      ∀ i, i < n →
        ∃ p : Prog EntryResult,
          ((getRefreshCredToken.concurrent n keyer expiryDelta m).exec
            (schedule ++ more)).threads[i]? = some p ∧
          p.returned = some (some (entry.SetToken refreshed), none) := by
  have hinv0 := Race.Inv.start ⟨keyer, expiryDelta, entry, tok, refreshed⟩ m n hread hwrite
    hserver hanswer hstore hvalid
  obtain ⟨pts, holder, phase, hinv⟩ := Race.Inv.exec htok hstale schedule _ _ _ _ hinv0 hticks
  refine ⟨?_, ?_, ?_⟩
  · rw [hinv.count]
    split_ifs <;> omega
  · intro i p result hp hres
    rw [hinv.threads, List.getElem?_map] at hp
    cases hpt : pts[i]? with
    | none =>
      rw [hpt] at hp
      cases hp
    | some pt =>
      rw [hpt] at hp
      have hp1 : (Race.prog ⟨keyer, expiryDelta, entry, tok, refreshed⟩ pt) = p :=
        Option.some.inj hp
      rw [← hp1] at hres
      obtain ⟨hdone, hresult⟩ := Race.returned_done _ pt result hres
      refine ⟨hresult, ?_⟩
      have hfit := hinv.fits i pt hpt
      rw [hdone] at hfit
      rw [hinv.count]
      cases phase <;> first | rfl | cases hfit
  · obtain ⟨more, pts1, holder1, phase1, _, hinv1, hall⟩ :=
      Race.Inv.finish htok hstale _ _ pts holder phase (le_refl _) hinv
    refine ⟨more, fun i hi => ?_⟩
    rw [Conc.exec_append]
    have hlen : pts1.length = n := by
      have h1 := congrArg List.length hinv1.threads
      rw [List.length_map, Conc.exec_length, Conc.exec_length] at h1
      rw [← h1]
      simp [getRefreshCredToken.concurrent]
    have hget : pts1[i]? = some pts1[i] := List.getElem?_eq_getElem (by omega)
    have hdone : pts1[i] = .done := hall _ (List.getElem_mem _)
    refine ⟨.ret (some (entry.SetToken refreshed), none), ?_, rfl⟩
    rw [hinv1.threads, List.getElem?_map, hget, hdone]
    rfl

set_option maxRecDepth 100000 in
/-- C26 (amended) at a concrete input: three calls on the stale credential
`cred`, interleaved while the clock moves on by a minute; the provider's
`RefreshToken` is called once and the three calls return the same entry, with
the new token. -/
theorem getRefreshCredToken_single_flight_witness :
    ((getRefreshCredToken.concurrent 3 "cred" 0 Example.racingSim).exec
        Example.racing).events.countP Event.isRefreshToken ≤ 1 ∧
    ((getRefreshCredToken.concurrent 3 "cred" 0 Example.racingSim).exec
        Example.racing).events.countP Event.isRefreshToken = 1 ∧
    ((getRefreshCredToken.concurrent 3 "cred" 0 Example.racingSim).exec
        Example.racing).threads.map Prog.returned
      = List.replicate 3 (some (some (Example.staleEntry.SetToken
          (Example.token "new" "refresh" (Example.t0 + 60 * Minute))), none)) :=
  ⟨(getRefreshCredToken_single_flight Example.racingSim "cred" 0 Example.staleEntry
      (Example.token "tok" "refresh" (Example.t0 + Minute))
      (Example.token "new" "refresh" (Example.t0 + 60 * Minute)) 3 Example.racing
      rfl rfl rfl rfl rfl (by decide) rfl (by decide)
      (fun t ht => by
        simp [Example.racing] at ht
        subst ht
        decide)).1, by decide, by decide⟩

end OAuthApp
